import Mathlib

/-!
Verification development for the diff-match-patch TypeScript port
(diff orchestrator with surrogate-pair repair, levenshtein, toDelta).

JavaScript strings are sequences of UTF-16 code units; we embed them as
`List Nat` (each element one code unit).  Diff entries are pairs of a
`DiffType` and such a code-unit list, mirroring `type Diff = [DiffType, string]`.
-/

namespace DMP

/-- A JavaScript string, viewed as its sequence of UTF-16 code units. -/
abbrev Str := List Nat

/-- Modelled from the spec: the helper module `utils/surrogatePairs.js` is not
part of the provided sources; a high surrogate is a code unit in
0xD800..0xDBFF (first half of a surrogate pair). -/
def isHighSurrogate (c : Nat) : Bool := 0xD800 ≤ c && c ≤ 0xDBFF

/-- Modelled from the spec: a low surrogate is a code unit in 0xDC00..0xDFFF
(second half of a surrogate pair). -/
def isLowSurrogate (c : Nat) : Bool := 0xDC00 ≤ c && c ≤ 0xDFFF

/-- `enum DiffType { DELETE = -1, INSERT = 1, EQUAL = 0 }` from `diff/diff.ts`. -/
inductive DiffType where
  | DELETE : DiffType
  | INSERT : DiffType
  | EQUAL : DiffType
deriving DecidableEq, Repr

/-- `type Diff = [DiffType, string]` from `diff/diff.ts`. -/
abbrev Diff := DiffType × Str

open DiffType

/-! ## levenshtein (from the `levenshtein` source file)

The source walks the diff list keeping running `insertions`/`deletions`
counts, flushing `max(insertions, deletions)` into the total at each EQUAL
and once more at the end. -/

/-- Accumulator loop of `levenshtein`: `leven`, `insertions`, `deletions`
are the three mutable locals of the source. -/
def levenshteinGo : List Diff → Nat → Nat → Nat → Nat
  | [], leven, insertions, deletions => leven + max insertions deletions
  | (op, data) :: rest, leven, insertions, deletions =>
    match op with
    | INSERT => levenshteinGo rest leven (insertions + data.length) deletions
    | DELETE => levenshteinGo rest leven insertions (deletions + data.length)
    | EQUAL => levenshteinGo rest (leven + max insertions deletions) 0 0

/-- `levenshtein(diffs)` from the source: number of inserted, deleted or
substituted characters. -/
def levenshtein (diffs : List Diff) : Nat :=
  levenshteinGo diffs 0 0 0

/-- The raw numeric form of `levenshtein`: the TypeScript enum values are
numbers (`DELETE = -1, INSERT = 1, EQUAL = 0`), and the `switch` in the
source has a `default` branch throwing `'Unknown diff operation.'`.  This
version takes entries whose operation is an arbitrary integer, as a caller
could produce by casting, and models the throw as `Except.error`. -/
def levenshteinRaw : List (Int × Str) → Int → Int → Int → Except String Int
  | [], leven, insertions, deletions => .ok (leven + max insertions deletions)
  | (op, data) :: rest, leven, insertions, deletions =>
    if op = 1 then levenshteinRaw rest leven (insertions + data.length) deletions
    else if op = -1 then levenshteinRaw rest leven insertions (deletions + data.length)
    else if op = 0 then levenshteinRaw rest (leven + max insertions deletions) 0 0
    else .error "Unknown diff operation."

/-! Specification-side form of `levenshtein` for claim C8: sum, over each
maximal run of INSERT/DELETE entries lying between EQUAL entries (or a
sequence end), of `max(total inserted length, total deleted length)`. -/

/-- Total length of INSERT texts in a list of diffs. -/
def insLen (l : List Diff) : Nat :=
  (l.map (fun d => if d.1 = INSERT then d.2.length else 0)).sum

/-- Total length of DELETE texts in a list of diffs. -/
def delLen (l : List Diff) : Nat :=
  (l.map (fun d => if d.1 = DELETE then d.2.length else 0)).sum

/-- Decidable test for a non-EQUAL entry (member of an insert/delete run). -/
def isEdit (d : Diff) : Bool := d.1 ≠ EQUAL

/-- Spec-side levenshtein: for the first maximal run of INSERT/DELETE entries
contributes `max (insLen run) (delLen run)`, then recurses past the EQUAL
that terminated the run. -/
def specLevenshtein (l : List Diff) : Nat :=
  max (insLen (l.takeWhile isEdit)) (delLen (l.takeWhile isEdit)) +
    (match h : l.dropWhile isEdit with
    | [] => 0
    | _ :: r => specLevenshtein r)
termination_by l.length
decreasing_by
  have h1 : (List.dropWhile isEdit l).length ≤ l.length :=
    (List.IsSuffix.sublist (List.dropWhile_suffix isEdit)).length_le
  rw [h] at h1
  simp only [List.length_cons] at h1
  omega

/-- Tail step of `specLevenshtein`: skip the EQUAL that terminated a run. -/
def specTail : List Diff → Nat
  | [] => 0
  | _ :: r => specLevenshtein r

theorem specLevenshtein_eq (l : List Diff) :
    specLevenshtein l =
      max (insLen (l.takeWhile isEdit)) (delLen (l.takeWhile isEdit)) +
        specTail (l.dropWhile isEdit) := by
  rw [specLevenshtein]
  cases h : l.dropWhile isEdit <;> simp [specTail]

theorem levenshteinGo_spec (l : List Diff) : ∀ lev ins del,
    levenshteinGo l lev ins del =
      lev + (max (ins + insLen (l.takeWhile isEdit)) (del + delLen (l.takeWhile isEdit)) +
        specTail (l.dropWhile isEdit)) := by
  induction l with
  | nil =>
    intro lev ins del
    simp [levenshteinGo, insLen, delLen, specTail]
  | cons d rest ih =>
    obtain ⟨op, t⟩ := d
    intro lev ins del
    cases op with
    | INSERT =>
      have he : isEdit (INSERT, t) = true := by simp [isEdit]
      rw [List.takeWhile_cons_of_pos he, List.dropWhile_cons_of_pos he]
      simp only [levenshteinGo, ih, insLen, delLen, List.map_cons, List.sum_cons]
      simp [insLen, delLen]
      omega
    | DELETE =>
      have he : isEdit (DELETE, t) = true := by simp [isEdit]
      rw [List.takeWhile_cons_of_pos he, List.dropWhile_cons_of_pos he]
      simp only [levenshteinGo, ih, insLen, delLen, List.map_cons, List.sum_cons]
      simp [insLen, delLen]
      omega
    | EQUAL =>
      have he : isEdit (EQUAL, t) = false := by simp [isEdit]
      rw [List.takeWhile_cons_of_neg (by simp [he]), List.dropWhile_cons_of_neg (by simp [he])]
      simp only [levenshteinGo, ih]
      rw [show specTail ((EQUAL, t) :: rest) = specLevenshtein rest from rfl,
        specLevenshtein_eq rest]
      simp [insLen, delLen]
      omega

/-- C8: `levenshtein` computes, over each maximal insert/delete run between
equalities, the sum of `max(insertedLen, deletedLen)`. -/
theorem levenshtein_eq_specLevenshtein (l : List Diff) :
    levenshtein l = specLevenshtein l := by
  rw [levenshtein, levenshteinGo_spec, specLevenshtein_eq]
  simp

/-- Entry point of the raw numeric `levenshtein` (accumulators start at 0). -/
def levenshteinNum (diffs : List (Int × Str)) : Except String Int :=
  levenshteinRaw diffs 0 0 0

theorem levenshteinRaw_total (l : List (Int × Str))
    (hops : ∀ p ∈ l, p.1 = -1 ∨ p.1 = 0 ∨ p.1 = 1) :
    ∀ lev ins del : Int, 0 ≤ lev → 0 ≤ ins → 0 ≤ del →
      ∃ n : Int, levenshteinRaw l lev ins del = .ok n ∧ 0 ≤ n := by
  induction l with
  | nil =>
    intro lev ins del hl hi hd
    exact ⟨lev + max ins del, rfl, by positivity⟩
  | cons d rest ih =>
    obtain ⟨op, t⟩ := d
    intro lev ins del hl hi hd
    have hop : op = -1 ∨ op = 0 ∨ op = 1 := hops (op, t) (by simp)
    have hrest : ∀ p ∈ rest, p.1 = -1 ∨ p.1 = 0 ∨ p.1 = 1 := fun p hp => hops p (by simp [hp])
    rcases hop with h | h | h
    · subst h
      rw [levenshteinRaw]
      norm_num
      exact ih hrest lev ins (del + t.length) hl hi (by positivity)
    · subst h
      rw [levenshteinRaw]
      norm_num
      exact ih hrest (lev + max ins del) 0 0 (by positivity) le_rfl le_rfl
    · subst h
      rw [levenshteinRaw]
      norm_num
      exact ih hrest lev (ins + t.length) del hl (by positivity) hd

/-! ## toDelta (from the `toDelta` source file)

`toDelta` pushes one token per entry (`+<encodeURI(text)>`, `-<n>`, `=<n>`),
joins them with tabs and then rewrites every `%20` in the joined string to a
space.  `encodeURI` is the ECMAScript built-in, modelled below. -/

/-- Decimal digit code units of a natural number (what `${n}` interpolates). -/
def numDigits (n : Nat) : Str :=
  if h : n < 10 then [48 + n] else numDigits (n / 10) ++ [48 + n % 10]
termination_by n
decreasing_by exact Nat.div_lt_self (by omega) (by omega)

/-- Characters the ECMAScript `encodeURI` leaves unescaped: letters, digits,
and `; , / ? : @ & = + $ - _ . ! ~ * ' ( ) #`. -/
def uriUnescaped (c : Nat) : Bool :=
  (65 ≤ c && c ≤ 90) || (97 ≤ c && c ≤ 122) || (48 ≤ c && c ≤ 57) ||
  (c = 0x3B) || (c = 0x2C) || (c = 0x2F) || (c = 0x3F) || (c = 0x3A) ||
  (c = 0x40) || (c = 0x26) || (c = 0x3D) || (c = 0x2B) || (c = 0x24) ||
  (c = 0x2D) || (c = 0x5F) || (c = 0x2E) || (c = 0x21) || (c = 0x7E) ||
  (c = 0x2A) || (c = 0x27) || (c = 0x28) || (c = 0x29) || (c = 0x23)

/-- Upper-case hex digit as a code unit. -/
def hexDigitCU (n : Nat) : Nat := if n < 10 then 48 + n else 55 + n

/-- `%XX` percent-escape of one byte. -/
def percentByte (b : Nat) : Str := [37, hexDigitCU (b / 16), hexDigitCU (b % 16)]

/-- UTF-8 bytes of a Unicode code point. -/
def utf8Bytes (u : Nat) : List Nat :=
  if u < 0x80 then [u]
  else if u < 0x800 then [0xC0 + u / 64, 0x80 + u % 64]
  else if u < 0x10000 then [0xE0 + u / 4096, 0x80 + (u / 64) % 64, 0x80 + u % 64]
  else [0xF0 + u / 262144, 0x80 + (u / 4096) % 64, 0x80 + (u / 64) % 64, 0x80 + u % 64]

/-- The ECMAScript built-in `encodeURI`, modelled on code-unit sequences:
unescaped characters pass through, surrogate pairs combine into one code
point, everything else is UTF-8 percent-escaped, and an unpaired surrogate
raises `URIError: URI malformed`. -/
def encodeURI : Str → Except String Str
  | [] => .ok []
  | c :: rest =>
    if uriUnescaped c then (encodeURI rest).map (c :: ·)
    else if isHighSurrogate c then
      match rest with
      | [] => .error "URI malformed"
      | c2 :: rest2 =>
        if isLowSurrogate c2 then
          let u := 0x10000 + (c - 0xD800) * 0x400 + (c2 - 0xDC00)
          (encodeURI rest2).map (fun e => ((utf8Bytes u).map percentByte).flatten ++ e)
        else .error "URI malformed"
    else if isLowSurrogate c then .error "URI malformed"
    else (encodeURI rest).map (fun e => ((utf8Bytes c).map percentByte).flatten ++ e)

/-- The token the `toDelta` loop pushes for one diff entry. -/
def toDeltaToken : Diff → Except String Str
  | (INSERT, text) => (encodeURI text).map (fun e => 43 :: e)
  | (DELETE, text) => .ok (45 :: numDigits text.length)
  | (EQUAL, text) => .ok (61 :: numDigits text.length)

/-- Join with tab (code unit 9), as `text.flatten('\t')` does. -/
def intercalateTab (ts : List Str) : Str := (List.intersperse [9] ts).flatten

/-- `.replace(/%20/g, ' ')`: leftmost, non-overlapping global rewrite of
`%20` (37, 50, 48) to a space (32). -/
def replace20 : Str → Str
  | 37 :: 50 :: 48 :: rest => 32 :: replace20 rest
  | c :: rest => c :: replace20 rest
  | [] => []

/-- Collect the tokens of all entries in order, stopping at the first error
(the first exception thrown inside the `toDelta` loop). -/
def collectTokens (f : Diff → Except String Str) : List Diff → Except String (List Str)
  | [] => .ok []
  | d :: rest => do
    let t ← f d
    let ts ← collectTokens f rest
    .ok (t :: ts)

/-- `toDelta(diffs)` from the source: build all tokens, join with tabs, then
rewrite `%20` globally on the joined string. -/
def toDelta (diffs : List Diff) : Except String Str :=
  (collectTokens toDeltaToken diffs).map (fun ts => replace20 (intercalateTab ts))

/-- Spec-side delta: one token per entry, with the `%20`-to-space rewrite
applied to each insert token individually, then tab-joined. -/
def specDeltaToken : Diff → Except String Str
  | (INSERT, text) => (encodeURI text).map (fun e => 43 :: replace20 e)
  | (DELETE, text) => .ok (45 :: numDigits text.length)
  | (EQUAL, text) => .ok (61 :: numDigits text.length)

/-- Spec-side `toDelta`. -/
def specToDelta (diffs : List Diff) : Except String Str :=
  (collectTokens specDeltaToken diffs).map intercalateTab

theorem replace20_cons_nomatch (c : Nat) (s : Str)
    (h : ∀ r : Str, ¬(c = 37 ∧ s = 50 :: 48 :: r)) :
    replace20 (c :: s) = c :: replace20 s := by
  rw [replace20.eq_def]
  split
  · rename_i r heq
    injection heq with h1 h2
    exact absurd ⟨h1, h2⟩ (h r)
  · rename_i c' s' heq
    injection heq with h1 h2
    subst h1; subst h2; rfl
  · rename_i heq; cases heq

theorem replace20_cons_ne (c : Nat) (s : Str) (h : c ≠ 37) :
    replace20 (c :: s) = c :: replace20 s :=
  replace20_cons_nomatch c s (fun r hr => h hr.1)

theorem replace20_append_tab (a b : Str) :
    replace20 (a ++ 9 :: b) = replace20 a ++ 9 :: replace20 b := by
  induction a using replace20.induct with
  | case1 rest ih =>
    simpa [replace20] using ih
  | case2 c rest h ih =>
    have hs : ∀ r : Str, ¬(c = 37 ∧ rest = 50 :: 48 :: r) := by
      intro r hcr
      exact h r hcr.1 hcr.2
    have hL : ∀ r : Str, ¬(c = 37 ∧ (rest ++ 9 :: b) = 50 :: 48 :: r) := by
      rintro r ⟨hc, hr⟩
      match rest, hr with
      | [], hr => simp at hr
      | [x], hr =>
        injection hr with e1 e2
        injection e2 with e3 _
        omega
      | x :: y :: rest', hr =>
        injection hr with e1 e2
        injection e2 with e3 e4
        subst e1; subst e3
        exact hs rest' ⟨hc, rfl⟩
    rw [List.cons_append, replace20_cons_nomatch c (rest ++ 9 :: b) hL,
      replace20_cons_nomatch c rest hs, ih]
    rfl
  | case3 =>
    simp [replace20_cons_ne 9 b (by omega), replace20]

theorem replace20_no_pct (s : Str) (h : ∀ c ∈ s, c ≠ 37) : replace20 s = s := by
  induction s with
  | nil => rfl
  | cons c rest ih =>
    rw [replace20_cons_ne c rest (h c (by simp))]
    rw [ih (fun c hc => h c (by simp [hc]))]

theorem numDigits_mem (n : Nat) : ∀ c ∈ numDigits n, 48 ≤ c ∧ c ≤ 57 := by
  induction n using Nat.strong_induction_on with
  | _ n ih =>
    intro c hc
    rw [numDigits] at hc
    split at hc
    · rename_i hn
      simp at hc
      omega
    · rename_i hn
      simp at hc
      rcases hc with hc | hc
      · exact ih (n / 10) (Nat.div_lt_self (by omega) (by omega)) c hc
      · omega

/-- Each spec-side token is the `%20`-rewrite of the corresponding code token. -/
theorem specDeltaToken_eq (d : Diff) :
    specDeltaToken d = (toDeltaToken d).map replace20 := by
  obtain ⟨op, t⟩ := d
  cases op with
  | INSERT =>
    simp only [specDeltaToken, toDeltaToken]
    cases h : encodeURI t <;> simp [Except.map, replace20_cons_ne 43 _ (by omega)]
  | DELETE =>
    simp only [specDeltaToken, toDeltaToken, Except.map]
    rw [replace20_cons_ne 45 _ (by omega),
      replace20_no_pct _ (fun c hc => by have := numDigits_mem t.length c hc; omega)]
  | EQUAL =>
    simp only [specDeltaToken, toDeltaToken, Except.map]
    rw [replace20_cons_ne 61 _ (by omega),
      replace20_no_pct _ (fun c hc => by have := numDigits_mem t.length c hc; omega)]

theorem collectTokens_spec_eq (diffs : List Diff) :
    collectTokens specDeltaToken diffs =
      (collectTokens toDeltaToken diffs).map (List.map replace20) := by
  induction diffs with
  | nil => rfl
  | cons d rest ih =>
    simp only [collectTokens, specDeltaToken_eq d, ih]
    cases toDeltaToken d <;> cases collectTokens toDeltaToken rest <;>
      simp [Except.map, Except.bind, Bind.bind, Except.pure, Pure.pure]

theorem intercalateTab_nil : intercalateTab [] = [] := rfl

theorem intercalateTab_single (t : Str) : intercalateTab [t] = t := by
  simp [intercalateTab]

theorem intercalateTab_cons (t u : Str) (ts : List Str) :
    intercalateTab (t :: u :: ts) = t ++ 9 :: intercalateTab (u :: ts) := by
  simp [intercalateTab, List.intersperse]

theorem replace20_intercalateTab (ts : List Str) :
    replace20 (intercalateTab ts) = intercalateTab (ts.map replace20) := by
  induction ts with
  | nil => rfl
  | cons t rest ih =>
    cases rest with
    | nil => simp [intercalateTab_single]
    | cons u ts' =>
      rw [intercalateTab_cons, replace20_append_tab, ih]
      simp [intercalateTab_cons]

/-- C7 (amended): `toDelta` agrees with the per-entry spec-side encoding: one
tab-separated token per entry, `=<n>`, `-<n>`, or `+<percent-encoded insert>`
with `%20` rewritten to a space, and it fails exactly when `encodeURI` rejects
an insert text (unpaired surrogate). -/
theorem toDelta_eq_specToDelta (diffs : List Diff) :
    toDelta diffs = specToDelta diffs := by
  rw [toDelta, specToDelta, collectTokens_spec_eq]
  cases collectTokens toDeltaToken diffs <;>
    simp [Except.map, replace20_intercalateTab]

/-- C7 counterexample: on an INSERT whose text is an unpaired surrogate,
`toDelta` does not produce a token list at all: `encodeURI` throws. -/
theorem toDelta_lone_surrogate_errors :
    toDelta [(DiffType.INSERT, [0xD800])] = Except.error "URI malformed" := by
  rfl

/-- C10: `levenshtein` is total on every diff sequence whose operations are
the genuine enum values DELETE (-1), INSERT (1) or EQUAL (0): the
`Unknown diff operation.` branch is unreachable and the result is a
non-negative integer. -/
theorem levenshteinNum_total (l : List (Int × Str))
    (hops : ∀ p ∈ l, p.1 = -1 ∨ p.1 = 0 ∨ p.1 = 1) :
    ∃ n : Int, levenshteinNum l = .ok n ∧ 0 ≤ n :=
  levenshteinRaw_total l hops 0 0 0 le_rfl le_rfl le_rfl

theorem levenshteinNum_total_witness :
    ∃ n : Int,
      levenshteinNum [((-1 : Int), [97, 98]), ((0 : Int), [99]), ((1 : Int), [100])] = .ok n ∧
        0 ≤ n :=
  levenshteinNum_total [((-1 : Int), [97, 98]), ((0 : Int), [99]), ((1 : Int), [100])]
    (by decide)

/-! ## Deadline creation (from `diff/diff.ts`, `createDeadLine` /
`createInternalOpts`)

JavaScript numbers are modelled as rationals; `Number.MAX_VALUE` is the
largest double, `(2^53 - 1) * 2^971`. -/

/-- `Number.MAX_VALUE`. -/
def numberMaxValue : Rat := (2 ^ 53 - 1) * 2 ^ 971

/-- `createDeadLine(timeout)` from the source, with `Date.now()` passed in as
`now`: `t = 1; if (typeof timeout !== 'undefined') t = timeout <= 0 ?
Number.MAX_VALUE : timeout; return Date.now() + t * 1000`. -/
def createDeadLine (now : Rat) (timeout : Option Rat) : Rat :=
  let t : Rat :=
    match timeout with
    | none => 1
    | some x => if x ≤ 0 then numberMaxValue else x
  now + t * 1000

/-- The JavaScript `||` default applied to the timeout in
`createInternalOpts`: `opts.timeout || 1.0` — `0` is falsy, so a zero
timeout is replaced by `1.0` before `createDeadLine` ever sees it. -/
def timeoutOrDefault (timeout : Option Rat) : Rat :=
  match timeout with
  | none => 1
  | some x => if x = 0 then 1 else x

/-- Caller-facing diff options (`Partial<DiffOptions>`). -/
structure DiffOptions where
  checkLines : Option Bool := none
  timeout : Option Rat := none

/-- `InternalDiffOptions` from the source. -/
structure InternalDiffOptions where
  checkLines : Bool
  deadline : Rat

/-- `createInternalOpts(opts)` from the source:
`{checkLines: true, deadline: createDeadLine(opts.timeout || 1.0), ...opts}`. -/
def createInternalOpts (now : Rat) (opts : DiffOptions) : InternalDiffOptions :=
  { checkLines := opts.checkLines.getD true
    deadline := createDeadLine now (some (timeoutOrDefault opts.timeout)) }

/-- C3: a timeout of `0` does not make the deadline unbounded.  Because of
the `opts.timeout || 1.0` default, `createInternalOpts` turns a zero timeout
into the one-second default (`deadline = now + 1000` ms), even though
`createDeadLine`'s own zero branch — reachable only for negative timeouts —
would have produced the far-future `now + MAX_VALUE * 1000`. -/
theorem createInternalOpts_timeout_zero :
    (createInternalOpts 0 { timeout := some 0 }).deadline = 1000 ∧
      createDeadLine 0 (some 0) = numberMaxValue * 1000 ∧
      (createInternalOpts 0 { timeout := some 0 }).deadline <
        numberMaxValue * 1000 := by
  refine ⟨by norm_num [createInternalOpts, timeoutOrDefault, createDeadLine], ?_, ?_⟩
  · norm_num [createDeadLine]
  · norm_num [createInternalOpts, timeoutOrDefault, createDeadLine, numberMaxValue]

/-! ## Affix finder (spec-modelled)

The modules `diff/commonPrefix.ts` and `diff/commonSuffix.ts` are not part
of the provided sources (only their import in `diff/diff.ts` is). -/

/-- Length of the longest common prefix, code unit by code unit. -/
def commonPrefixRawLength : Str → Str → Nat
  | a :: as, b :: bs => if a = b then 1 + commonPrefixRawLength as bs else 0
  | _, _ => 0

/-- Modelled from the spec: `commonPrefix(a,b)` — longest matching length at
the start, backing off by one when the boundary would fall between a high
and a low surrogate (`diff/commonPrefix.ts` is missing from the sources). -/
def commonPrefixLength (a b : Str) : Nat :=
  let n := commonPrefixRawLength a b
  if 0 < n && isHighSurrogate (a.getD (n - 1) 0) then n - 1 else n

/-- Modelled from the spec: `commonSuffix(a,b)` — longest matching length at
the end, backing off by one when the boundary would fall between a high and
a low surrogate (`diff/commonSuffix.ts` is missing from the sources). -/
def commonSuffixLength (a b : Str) : Nat :=
  let n := commonPrefixRawLength a.reverse b.reverse
  if 0 < n && isLowSurrogate (a.getD (a.length - n) 0) then n - 1 else n

/-! ## Merge cleanup (spec-modelled)

`diff/cleanup.ts` (`cleanupMerge`) is not part of the provided sources (only
its import in `diff/diff.ts` is).  Modelled from the spec §4.7 Merge: group
all consecutive DELETE text and all consecutive INSERT text within each
maximal non-EQUAL run (deletes before inserts), merge adjacent same-kind
entries, drop empty entries, then sweep once more to absorb any new common
prefix/suffix between a DELETE/INSERT pair into the neighboring EQUAL
entries; repeat until no change occurs in one full pass. -/

/-- Push a DELETE of text `t` in front of an already-normalized tail. -/
def pushDelete (t : Str) (r : List Diff) : List Diff :=
  if t = [] then r
  else
    match r with
    | (DiffType.DELETE, d) :: r2 => (DiffType.DELETE, t ++ d) :: r2
    | _ => (DiffType.DELETE, t) :: r

/-- Push an INSERT of text `t` in front of an already-normalized tail,
keeping the deletes-before-inserts order within the run. -/
def pushInsert (t : Str) (r : List Diff) : List Diff :=
  if t = [] then r
  else
    match r with
    | (DiffType.INSERT, i) :: r2 => (DiffType.INSERT, t ++ i) :: r2
    | (DiffType.DELETE, d) :: (DiffType.INSERT, i) :: r2 =>
      (DiffType.DELETE, d) :: (DiffType.INSERT, t ++ i) :: r2
    | (DiffType.DELETE, d) :: r2 => (DiffType.DELETE, d) :: (DiffType.INSERT, t) :: r2
    | _ => (DiffType.INSERT, t) :: r

/-- Push an EQUAL of text `t` in front of an already-normalized tail,
merging with an adjacent EQUAL. -/
def pushEqual (t : Str) (r : List Diff) : List Diff :=
  if t = [] then r
  else
    match r with
    | (DiffType.EQUAL, u) :: r2 => (DiffType.EQUAL, t ++ u) :: r2
    | _ => (DiffType.EQUAL, t) :: r

/-- One grouping/merging/dropping pass of the merge cleanup. -/
def normalizeDiffs (l : List Diff) : List Diff :=
  l.foldr
    (fun d acc =>
      match d with
      | (DiffType.DELETE, t) => pushDelete t acc
      | (DiffType.INSERT, t) => pushInsert t acc
      | (DiffType.EQUAL, t) => pushEqual t acc)
    []

/-- The absorb sweep: factor the common prefix of every adjacent
DELETE/INSERT pair out into an EQUAL before the pair (merged into a
neighboring EQUAL by the next grouping pass) and the common suffix into the
EQUAL after the pair. -/
def absorbSweep : List Diff → List Diff
  | (DiffType.DELETE, d) :: (DiffType.INSERT, i) :: rest =>
    let p := commonPrefixLength d i
    let d1 := d.drop p
    let i1 := i.drop p
    let sl := commonSuffixLength d1 i1
    let d2 := d1.take (d1.length - sl)
    let i2 := i1.take (i1.length - sl)
    let pre := d.take p
    let suf := d1.drop (d1.length - sl)
    (if pre = [] then [] else [(DiffType.EQUAL, pre)]) ++
      (if d2 = [] then [] else [(DiffType.DELETE, d2)]) ++
        (if i2 = [] then [] else [(DiffType.INSERT, i2)]) ++
          pushEqual suf (absorbSweep rest)
  | d :: rest => d :: absorbSweep rest
  | [] => []

/-- Iterate grouping followed by absorbing until a full pass changes
nothing (with fuel; the result is always in grouped normal form). -/
def cleanupMergeLoop : Nat → List Diff → List Diff
  | 0, l => normalizeDiffs l
  | fuel + 1, l =>
    let l2 := absorbSweep (normalizeDiffs l)
    if l2 = l then normalizeDiffs l else cleanupMergeLoop fuel l2

/-- Total text length of a diff sequence. -/
def totalTextLen (l : List Diff) : Nat := (l.map (fun d => d.2.length)).sum

/-- `cleanupMerge(diffs)`, modelled from the spec. -/
def cleanupMerge (diffs : List Diff) : List Diff :=
  cleanupMergeLoop (totalTextLen diffs + diffs.length + 2) diffs

/-! Invariants of the merge cleanup (claim C5): no empty entry, no two
adjacent entries of the same kind. -/

/-- No entry of the sequence has empty text. -/
def noEmptyEntries (l : List Diff) : Prop := ∀ d ∈ l, d.2 ≠ []

/-- No two adjacent entries share a kind. -/
def noAdjacentSameKind (l : List Diff) : Prop :=
  List.Chain' (fun a b : Diff => a.1 ≠ b.1) l

theorem noAdj_cons_cons {a b : Diff} {l : List Diff} :
    noAdjacentSameKind (a :: b :: l) ↔ a.1 ≠ b.1 ∧ noAdjacentSameKind (b :: l) :=
  List.chain'_cons

theorem noAdj_tail {a : Diff} {l : List Diff} (h : noAdjacentSameKind (a :: l)) :
    noAdjacentSameKind l :=
  List.Chain'.tail h

theorem noEmpty_cons {a : Diff} {l : List Diff} (ha : a.2 ≠ [])
    (hl : noEmptyEntries l) : noEmptyEntries (a :: l) := by
  intro x hx
  rcases List.mem_cons.mp hx with hx | hx
  · subst hx; exact ha
  · exact hl x hx

theorem noEmpty_tail {a : Diff} {l : List Diff} (h : noEmptyEntries (a :: l)) :
    noEmptyEntries l := fun x hx => h x (List.mem_cons_of_mem _ hx)

theorem pushDelete_inv (t : Str) (r : List Diff)
    (h1 : noEmptyEntries r) (h2 : noAdjacentSameKind r) :
    noEmptyEntries (pushDelete t r) ∧ noAdjacentSameKind (pushDelete t r) := by
  by_cases ht : t = []
  · unfold pushDelete
    rw [if_pos ht]
    exact ⟨h1, h2⟩
  · match r with
    | [] =>
      unfold pushDelete
      rw [if_neg ht]
      show noEmptyEntries [(DiffType.DELETE, t)] ∧ noAdjacentSameKind [(DiffType.DELETE, t)]
      exact ⟨noEmpty_cons ht (by intro x hx; cases hx), by simp [noAdjacentSameKind]⟩
    | (DiffType.DELETE, d) :: r2 =>
      unfold pushDelete
      rw [if_neg ht]
      show noEmptyEntries ((DiffType.DELETE, t ++ d) :: r2) ∧
        noAdjacentSameKind ((DiffType.DELETE, t ++ d) :: r2)
      refine ⟨noEmpty_cons (by simp [ht]) (noEmpty_tail h1), ?_⟩
      match r2 with
      | [] => simp [noAdjacentSameKind]
      | b :: r3 => exact noAdj_cons_cons.mpr ⟨(noAdj_cons_cons.mp h2).1, noAdj_tail h2⟩
    | (DiffType.INSERT, i) :: r2 =>
      unfold pushDelete
      rw [if_neg ht]
      show noEmptyEntries ((DiffType.DELETE, t) :: (DiffType.INSERT, i) :: r2) ∧
        noAdjacentSameKind ((DiffType.DELETE, t) :: (DiffType.INSERT, i) :: r2)
      exact ⟨noEmpty_cons ht h1, noAdj_cons_cons.mpr ⟨by simp, h2⟩⟩
    | (DiffType.EQUAL, u) :: r2 =>
      unfold pushDelete
      rw [if_neg ht]
      show noEmptyEntries ((DiffType.DELETE, t) :: (DiffType.EQUAL, u) :: r2) ∧
        noAdjacentSameKind ((DiffType.DELETE, t) :: (DiffType.EQUAL, u) :: r2)
      exact ⟨noEmpty_cons ht h1, noAdj_cons_cons.mpr ⟨by simp, h2⟩⟩

theorem pushInsert_inv (t : Str) (r : List Diff)
    (h1 : noEmptyEntries r) (h2 : noAdjacentSameKind r) :
    noEmptyEntries (pushInsert t r) ∧ noAdjacentSameKind (pushInsert t r) := by
  by_cases ht : t = []
  · unfold pushInsert
    rw [if_pos ht]
    exact ⟨h1, h2⟩
  · match r with
    | [] =>
      unfold pushInsert
      rw [if_neg ht]
      show noEmptyEntries [(DiffType.INSERT, t)] ∧ noAdjacentSameKind [(DiffType.INSERT, t)]
      exact ⟨noEmpty_cons ht (by intro x hx; cases hx), by simp [noAdjacentSameKind]⟩
    | (DiffType.INSERT, i) :: r2 =>
      unfold pushInsert
      rw [if_neg ht]
      show noEmptyEntries ((DiffType.INSERT, t ++ i) :: r2) ∧
        noAdjacentSameKind ((DiffType.INSERT, t ++ i) :: r2)
      refine ⟨noEmpty_cons (by simp [ht]) (noEmpty_tail h1), ?_⟩
      match r2 with
      | [] => simp [noAdjacentSameKind]
      | b :: r3 => exact noAdj_cons_cons.mpr ⟨(noAdj_cons_cons.mp h2).1, noAdj_tail h2⟩
    | (DiffType.DELETE, d) :: (DiffType.INSERT, i) :: r2 =>
      unfold pushInsert
      rw [if_neg ht]
      show noEmptyEntries ((DiffType.DELETE, d) :: (DiffType.INSERT, t ++ i) :: r2) ∧
        noAdjacentSameKind ((DiffType.DELETE, d) :: (DiffType.INSERT, t ++ i) :: r2)
      refine ⟨?_, ?_⟩
      · exact noEmpty_cons (h1 _ (by simp))
          (noEmpty_cons (by simp [ht]) (noEmpty_tail (noEmpty_tail h1)))
      · refine noAdj_cons_cons.mpr ⟨by simp, ?_⟩
        match r2 with
        | [] => simp [noAdjacentSameKind]
        | b :: r3 =>
          exact noAdj_cons_cons.mpr
            ⟨(noAdj_cons_cons.mp (noAdj_tail h2)).1, noAdj_tail (noAdj_tail h2)⟩
    | (DiffType.DELETE, d) :: [] =>
      unfold pushInsert
      rw [if_neg ht]
      show noEmptyEntries [(DiffType.DELETE, d), (DiffType.INSERT, t)] ∧
        noAdjacentSameKind [(DiffType.DELETE, d), (DiffType.INSERT, t)]
      refine ⟨?_, ?_⟩
      · exact noEmpty_cons (h1 _ (by simp)) (noEmpty_cons ht (by intro x hx; cases hx))
      · exact noAdj_cons_cons.mpr ⟨by simp, by simp [noAdjacentSameKind]⟩
    | (DiffType.DELETE, d) :: (DiffType.DELETE, d2) :: r2 =>
      unfold pushInsert
      rw [if_neg ht]
      show noEmptyEntries
          ((DiffType.DELETE, d) :: (DiffType.INSERT, t) :: (DiffType.DELETE, d2) :: r2) ∧
        noAdjacentSameKind
          ((DiffType.DELETE, d) :: (DiffType.INSERT, t) :: (DiffType.DELETE, d2) :: r2)
      refine ⟨?_, ?_⟩
      · exact noEmpty_cons (h1 _ (by simp)) (noEmpty_cons ht (noEmpty_tail h1))
      · exact noAdj_cons_cons.mpr ⟨by simp,
          noAdj_cons_cons.mpr ⟨by simp, noAdj_tail h2⟩⟩
    | (DiffType.DELETE, d) :: (DiffType.EQUAL, u) :: r2 =>
      unfold pushInsert
      rw [if_neg ht]
      show noEmptyEntries
          ((DiffType.DELETE, d) :: (DiffType.INSERT, t) :: (DiffType.EQUAL, u) :: r2) ∧
        noAdjacentSameKind
          ((DiffType.DELETE, d) :: (DiffType.INSERT, t) :: (DiffType.EQUAL, u) :: r2)
      refine ⟨?_, ?_⟩
      · exact noEmpty_cons (h1 _ (by simp)) (noEmpty_cons ht (noEmpty_tail h1))
      · exact noAdj_cons_cons.mpr ⟨by simp,
          noAdj_cons_cons.mpr ⟨by simp, noAdj_tail h2⟩⟩
    | (DiffType.EQUAL, u) :: r2 =>
      unfold pushInsert
      rw [if_neg ht]
      show noEmptyEntries ((DiffType.INSERT, t) :: (DiffType.EQUAL, u) :: r2) ∧
        noAdjacentSameKind ((DiffType.INSERT, t) :: (DiffType.EQUAL, u) :: r2)
      exact ⟨noEmpty_cons ht h1, noAdj_cons_cons.mpr ⟨by simp, h2⟩⟩

theorem pushEqual_inv (t : Str) (r : List Diff)
    (h1 : noEmptyEntries r) (h2 : noAdjacentSameKind r) :
    noEmptyEntries (pushEqual t r) ∧ noAdjacentSameKind (pushEqual t r) := by
  by_cases ht : t = []
  · unfold pushEqual
    rw [if_pos ht]
    exact ⟨h1, h2⟩
  · match r with
    | [] =>
      unfold pushEqual
      rw [if_neg ht]
      show noEmptyEntries [(DiffType.EQUAL, t)] ∧ noAdjacentSameKind [(DiffType.EQUAL, t)]
      exact ⟨noEmpty_cons ht (by intro x hx; cases hx), by simp [noAdjacentSameKind]⟩
    | (DiffType.EQUAL, u) :: r2 =>
      unfold pushEqual
      rw [if_neg ht]
      show noEmptyEntries ((DiffType.EQUAL, t ++ u) :: r2) ∧
        noAdjacentSameKind ((DiffType.EQUAL, t ++ u) :: r2)
      refine ⟨noEmpty_cons (by simp [ht]) (noEmpty_tail h1), ?_⟩
      match r2 with
      | [] => simp [noAdjacentSameKind]
      | b :: r3 => exact noAdj_cons_cons.mpr ⟨(noAdj_cons_cons.mp h2).1, noAdj_tail h2⟩
    | (DiffType.DELETE, d) :: r2 =>
      unfold pushEqual
      rw [if_neg ht]
      show noEmptyEntries ((DiffType.EQUAL, t) :: (DiffType.DELETE, d) :: r2) ∧
        noAdjacentSameKind ((DiffType.EQUAL, t) :: (DiffType.DELETE, d) :: r2)
      exact ⟨noEmpty_cons ht h1, noAdj_cons_cons.mpr ⟨by simp, h2⟩⟩
    | (DiffType.INSERT, i) :: r2 =>
      unfold pushEqual
      rw [if_neg ht]
      show noEmptyEntries ((DiffType.EQUAL, t) :: (DiffType.INSERT, i) :: r2) ∧
        noAdjacentSameKind ((DiffType.EQUAL, t) :: (DiffType.INSERT, i) :: r2)
      exact ⟨noEmpty_cons ht h1, noAdj_cons_cons.mpr ⟨by simp, h2⟩⟩

/-- Every grouping pass output satisfies the merge-cleanup invariants. -/
theorem normalizeDiffs_inv (l : List Diff) :
    noEmptyEntries (normalizeDiffs l) ∧ noAdjacentSameKind (normalizeDiffs l) := by
  induction l with
  | nil =>
    refine ⟨?_, ?_⟩
    · intro x hx; cases hx
    · simp [normalizeDiffs, noAdjacentSameKind]
  | cons d rest ih =>
    obtain ⟨k, t⟩ := d
    rw [show normalizeDiffs ((k, t) :: rest)
        = (match ((k, t) : Diff) with
          | (DiffType.DELETE, t) => pushDelete t (normalizeDiffs rest)
          | (DiffType.INSERT, t) => pushInsert t (normalizeDiffs rest)
          | (DiffType.EQUAL, t) => pushEqual t (normalizeDiffs rest)) from rfl]
    cases k with
    | DELETE => exact pushDelete_inv t _ ih.1 ih.2
    | INSERT => exact pushInsert_inv t _ ih.1 ih.2
    | EQUAL => exact pushEqual_inv t _ ih.1 ih.2

/-- The merge-cleanup loop always returns a grouping-pass output. -/
theorem cleanupMergeLoop_inv (fuel : Nat) (l : List Diff) :
    noEmptyEntries (cleanupMergeLoop fuel l) ∧
      noAdjacentSameKind (cleanupMergeLoop fuel l) := by
  induction fuel generalizing l with
  | zero => exact normalizeDiffs_inv l
  | succ fuel ih =>
    rw [cleanupMergeLoop]
    split
    · exact normalizeDiffs_inv l
    · exact ih _

/-- C5 core: `cleanupMerge` output has no empty entry and no two adjacent
entries of the same kind. -/
theorem cleanupMerge_inv (diffs : List Diff) :
    noEmptyEntries (cleanupMerge diffs) ∧ noAdjacentSameKind (cleanupMerge diffs) :=
  cleanupMergeLoop_inv _ diffs

/-! ## Compute dispatch helpers (spec-modelled)

`diff/compute.ts` (`compute_`) and its helpers are not part of the provided
sources (only the import in `diff/diff.ts` is).  They are modelled from the
spec §4.3–§4.6. -/

/-- First index at or after 0 where `needle` occurs in the list scanned. -/
def indexOfAux (needle : Str) : Str → Nat → Option Nat
  | [], i => if needle = [] then some i else none
  | c :: rest, i =>
    if needle.isPrefixOf (c :: rest) then some i else indexOfAux needle rest (i + 1)

/-- `hay.indexOf(needle)`. -/
def indexOfSub (hay needle : Str) : Option Nat := indexOfAux needle hay 0

/-- `hay.indexOf(needle, start)`. -/
def indexOfFrom (hay needle : Str) (start : Nat) : Option Nat :=
  (indexOfAux needle (hay.drop start) 0).map (· + start)

/-- Modelled from the spec §4.6: scan every occurrence of the quarter-length
seed in the shorter text, tracking the longest common substring anchored
there (prefix forward from the anchor plus suffix backward). -/
def halfMatchILoop (long short : Str) (i : Nat) (seed : Str) :
    Nat → Nat → Str × Str × Str × Str × Str → Str × Str × Str × Str × Str
  | 0, _, best => best
  | fuel + 1, searchFrom, best =>
    match indexOfFrom short seed searchFrom with
    | none => best
    | some j =>
      let pl := commonPrefixLength (long.drop i) (short.drop j)
      let sl := commonSuffixLength (long.take i) (short.take j)
      let best2 :=
        if best.2.2.2.2.length < sl + pl then
          (long.take (i - sl), long.drop (i + pl),
            short.take (j - sl), short.drop (j + pl),
            (short.drop (j - sl)).take sl ++ (short.drop j).take pl)
        else best
      halfMatchILoop long short i seed fuel (j + 1) best2

/-- Modelled from the spec §4.6: does a substring of `short` at least half
the length of `long` exist around the seed at offset `i`? -/
def halfMatchI (long short : Str) (i : Nat) : Option (Str × Str × Str × Str × Str) :=
  let seed := (long.drop i).take (long.length / 4)
  let best := halfMatchILoop long short i seed (short.length + 2) 0 ([], [], [], [], [])
  if long.length ≤ best.2.2.2.2.length * 2 then some best else none

/-- Modelled from the spec §4.6: half-match of the two texts — applicable
only when both texts exceed a minimum length, trying the second-quarter and
third-quarter offsets of the longer text and keeping the longer common
middle; the result is oriented as
(prefix1, suffix1, prefix2, suffix2, common-middle). -/
def halfMatch (t1 t2 : Str) : Option (Str × Str × Str × Str × Str) :=
  let long := if t2.length < t1.length then t1 else t2
  let short := if t2.length < t1.length then t2 else t1
  if long.length < 4 || short.length * 2 < long.length then none
  else
    let hm1 := halfMatchI long short ((long.length + 3) / 4)
    let hm2 := halfMatchI long short ((long.length + 1) / 2)
    let hm :=
      match hm1, hm2 with
      | none, none => none
      | some a, none => some a
      | none, some b => some b
      | some a, some b =>
        if b.2.2.2.2.length < a.2.2.2.2.length then some a else some b
    match hm with
    | none => none
    | some (a, b, c, d, mid) =>
      if t2.length < t1.length then some (a, b, c, d, mid) else some (c, d, a, b, mid)

/-! Line-mode preprocessing, modelled from the spec §4.5. -/

/-- Split a text into lines, each including its trailing newline. -/
def splitLinesGo (cur : Str) : Str → List Str
  | [] => if cur = [] then [] else [cur.reverse]
  | c :: rest =>
    if c = 10 then (c :: cur).reverse :: splitLinesGo [] rest
    else splitLinesGo (c :: cur) rest

/-- All lines of a text, trailing line terminators included. -/
def splitLines (t : Str) : List Str := splitLinesGo [] t

/-- Index of a line in the line table. -/
def findLineIdx : List Str → Str → Nat → Option Nat
  | [], _, _ => none
  | x :: rest, line, i => if x = line then some i else findLineIdx rest line (i + 1)

/-- Encode each line as its (possibly fresh) index in the line table. -/
def encodeLinesGo : List Str → List Str → List Str × Str
  | [], arr => (arr, [])
  | line :: rest, arr =>
    match findLineIdx arr line 0 with
    | some k =>
      let (arr2, codes) := encodeLinesGo rest arr
      (arr2, k :: codes)
    | none =>
      let (arr2, codes) := encodeLinesGo rest (arr ++ [line])
      (arr2, arr.length :: codes)

/-- Modelled from the spec §4.5: encode both texts line-by-line with a
shared table whose index 0 is reserved/unused. -/
def linesToChars (t1 t2 : Str) : Str × Str × List Str :=
  let (arr1, e1) := encodeLinesGo (splitLines t1) [[]]
  let (arr2, e2) := encodeLinesGo (splitLines t2) arr1
  (e1, e2, arr2)

/-- Modelled from the spec §4.5: expand each entry text from line codes back
to real line content. -/
def charsToLines (diffs : List Diff) (arr : List Str) : List Diff :=
  diffs.map (fun d => (d.1, (d.2.map (fun code => arr.getD code [])).flatten))

/-- Threshold above which an adjacent DELETE/INSERT pair produced by
line-mode is re-diffed at character granularity (any non-degenerate pair
qualifies). -/
def lineModeRediffThreshold : Nat := 0

/-! Bisection engine, modelled from the spec §4.4 (the classic Myers
forward/backward frontier search for the middle snake). -/

/-- Walk a forward diagonal while the texts agree. -/
def advanceFwd (a1 a2 : Array Nat) (n m : Int) : Nat → Int → Int → Int × Int
  | 0, x, y => (x, y)
  | fuel + 1, x, y =>
    if x < n ∧ y < m ∧ a1.getD x.toNat 0 = a2.getD y.toNat 0 then
      advanceFwd a1 a2 n m fuel (x + 1) (y + 1)
    else (x, y)

/-- Walk a reverse diagonal while the texts agree (mirrored indices). -/
def advanceBwd (a1 a2 : Array Nat) (n m : Int) : Nat → Int → Int → Int × Int
  | 0, x, y => (x, y)
  | fuel + 1, x, y =>
    if x < n ∧ y < m ∧ a1.getD (n - x - 1).toNat 0 = a2.getD (m - y - 1).toNat 0 then
      advanceBwd a1 a2 n m fuel (x + 1) (y + 1)
    else (x, y)

/-- One pass over the forward frontier for a given edit depth `d`:
either an overlap with the reverse frontier (the middle snake) or the
updated frontier state. -/
def bisectFwdLoop (a1 a2 : Array Nat) (n m delta : Int) (front : Bool)
    (voffset vlength : Int) (v2 : Array Int) (d : Int) :
    Nat → Int → Array Int → Int → Int → (Array Int × Int × Int) ⊕ (Nat × Nat)
  | 0, _, v1, k1start, k1end => .inl (v1, k1start, k1end)
  | fuel + 1, k1, v1, k1start, k1end =>
    if k1 ≤ d - k1end then
      let k1o := voffset + k1
      let x1 : Int :=
        if k1 = -d ∨ (k1 ≠ d ∧ v1.getD (k1o - 1).toNat 0 < v1.getD (k1o + 1).toNat 0) then
          v1.getD (k1o + 1).toNat 0
        else v1.getD (k1o - 1).toNat 0 + 1
      let xy := advanceFwd a1 a2 n m (n + m + 1).toNat x1 (x1 - k1)
      let v1b := v1.setD k1o.toNat xy.1
      if n < xy.1 then
        bisectFwdLoop a1 a2 n m delta front voffset vlength v2 d fuel (k1 + 2) v1b
          k1start (k1end + 2)
      else if m < xy.2 then
        bisectFwdLoop a1 a2 n m delta front voffset vlength v2 d fuel (k1 + 2) v1b
          (k1start + 2) k1end
      else if front then
        let k2o := voffset + delta - k1
        if 0 ≤ k2o ∧ k2o < vlength ∧ v2.getD k2o.toNat 0 ≠ -1 then
          if n - v2.getD k2o.toNat 0 ≤ xy.1 then .inr (xy.1.toNat, xy.2.toNat)
          else
            bisectFwdLoop a1 a2 n m delta front voffset vlength v2 d fuel (k1 + 2) v1b
              k1start k1end
        else
          bisectFwdLoop a1 a2 n m delta front voffset vlength v2 d fuel (k1 + 2) v1b
            k1start k1end
      else
        bisectFwdLoop a1 a2 n m delta front voffset vlength v2 d fuel (k1 + 2) v1b
          k1start k1end
    else .inl (v1, k1start, k1end)

/-- One pass over the reverse frontier for a given edit depth `d`. -/
def bisectBwdLoop (a1 a2 : Array Nat) (n m delta : Int) (front : Bool)
    (voffset vlength : Int) (v1 : Array Int) (d : Int) :
    Nat → Int → Array Int → Int → Int → (Array Int × Int × Int) ⊕ (Nat × Nat)
  | 0, _, v2, k2start, k2end => .inl (v2, k2start, k2end)
  | fuel + 1, k2, v2, k2start, k2end =>
    if k2 ≤ d - k2end then
      let k2o := voffset + k2
      let x2 : Int :=
        if k2 = -d ∨ (k2 ≠ d ∧ v2.getD (k2o - 1).toNat 0 < v2.getD (k2o + 1).toNat 0) then
          v2.getD (k2o + 1).toNat 0
        else v2.getD (k2o - 1).toNat 0 + 1
      let xy := advanceBwd a1 a2 n m (n + m + 1).toNat x2 (x2 - k2)
      let v2b := v2.setD k2o.toNat xy.1
      if n < xy.1 then
        bisectBwdLoop a1 a2 n m delta front voffset vlength v1 d fuel (k2 + 2) v2b
          k2start (k2end + 2)
      else if m < xy.2 then
        bisectBwdLoop a1 a2 n m delta front voffset vlength v1 d fuel (k2 + 2) v2b
          (k2start + 2) k2end
      else if !front then
        let k1o := voffset + delta - k2
        if 0 ≤ k1o ∧ k1o < vlength ∧ v1.getD k1o.toNat 0 ≠ -1 then
          let x1 := v1.getD k1o.toNat 0
          if n - xy.1 ≤ x1 then .inr (x1.toNat, (voffset + x1 - k1o).toNat)
          else
            bisectBwdLoop a1 a2 n m delta front voffset vlength v1 d fuel (k2 + 2) v2b
              k2start k2end
        else
          bisectBwdLoop a1 a2 n m delta front voffset vlength v1 d fuel (k2 + 2) v2b
            k2start k2end
      else
        bisectBwdLoop a1 a2 n m delta front voffset vlength v1 d fuel (k2 + 2) v2b
          k2start k2end
    else .inl (v2, k2start, k2end)

/-- Expand the edit depth `d` until the fronts cross; the crossing yields
the middle snake `(x, y)`. -/
def bisectOuter (a1 a2 : Array Nat) (n m delta : Int) (front : Bool)
    (voffset vlength maxD : Int) :
    Nat → Int → Array Int → Array Int → Int → Int → Int → Int → Option (Nat × Nat)
  | 0, _, _, _, _, _, _, _ => none
  | fuel + 1, d, v1, v2, k1start, k1end, k2start, k2end =>
    if d < maxD then
      match bisectFwdLoop a1 a2 n m delta front voffset vlength v2 d
          (d + 2).toNat (-d + k1start) v1 k1start k1end with
      | .inr xy => some xy
      | .inl (v1b, k1startb, k1endb) =>
        match bisectBwdLoop a1 a2 n m delta front voffset vlength v1b d
            (d + 2).toNat (-d + k2start) v2 k2start k2end with
        | .inr xy => some xy
        | .inl (v2b, k2startb, k2endb) =>
          bisectOuter a1 a2 n m delta front voffset vlength maxD fuel (d + 1)
            v1b v2b k1startb k1endb k2startb k2endb
    else none

/-- Modelled from the spec §4.4: search for the middle snake of the two
texts; `none` means no crossing was found (the caller falls back to a plain
DELETE + INSERT pair, as it also does on deadline expiry). -/
def bisectSearch (t1 t2 : Str) : Option (Nat × Nat) :=
  let n := t1.length
  let m := t2.length
  let maxD := (n + m + 1) / 2
  let voffset := maxD
  let vlength := 2 * maxD
  let v0 : Array Int := (Array.mkArray vlength (-1)).setD (voffset + 1) 0
  bisectOuter t1.toArray t2.toArray n m ((n : Int) - (m : Int))
    (((n : Int) - (m : Int)) % 2 ≠ 0) voffset vlength maxD
    (maxD + 1) 0 v0 v0 0 0 0 0

/-- `_diff` from `diff/diff.ts`, with the missing `compute_`
(`diff/compute.ts`) modelled inline from the spec §4.3: equality shortcut,
affix stripping, ordered compute dispatch (empty text, substring
containment, single characters, half-match, line mode, bisection), affix
re-attachment and merge cleanup.  The fuel parameter stands in for the
wall-clock deadline: on exhaustion the computation degrades to the same
DELETE + INSERT fallback the deadline produces. -/
def _diff : Nat → Str → Str → Bool → List Diff
  | 0, t1, t2, _ => cleanupMerge [(DiffType.DELETE, t1), (DiffType.INSERT, t2)]
  | fuel + 1, t1, t2, checkLines =>
    if t1 = t2 then (if t1 = [] then [] else [(DiffType.EQUAL, t1)])
    else
      let pl := commonPrefixLength t1 t2
      let pre := t1.take pl
      let t1a := t1.drop pl
      let t2a := t2.drop pl
      let sl := commonSuffixLength t1a t2a
      let suf := t1a.drop (t1a.length - sl)
      let t1b := t1a.take (t1a.length - sl)
      let t2b := t2a.take (t2a.length - sl)
      let mid : List Diff :=
        if t1b = [] then [(DiffType.INSERT, t2b)]
        else if t2b = [] then [(DiffType.DELETE, t1b)]
        else
          let long := if t2b.length < t1b.length then t1b else t2b
          let short := if t2b.length < t1b.length then t2b else t1b
          match indexOfSub long short with
          | some idx =>
            let op := if t2b.length < t1b.length then DiffType.DELETE else DiffType.INSERT
            [(op, long.take idx), (DiffType.EQUAL, short),
              (op, long.drop (idx + short.length))]
          | none =>
            if t1b.length = 1 ∧ t2b.length = 1 then
              [(DiffType.DELETE, t1b), (DiffType.INSERT, t2b)]
            else
              match halfMatch t1b t2b with
              | some (p1, s1, p2, s2, midc) =>
                _diff fuel p1 p2 checkLines ++ [(DiffType.EQUAL, midc)] ++
                  _diff fuel s1 s2 checkLines
              | none =>
                if checkLines ∧ 100 < t1b.length ∧ 100 < t2b.length then
                  let enc := linesToChars t1b t2b
                  let expanded := charsToLines (_diff fuel enc.1 enc.2.1 false) enc.2.2
                  expanded.foldr
                    (fun d acc =>
                      match d, acc with
                      | (DiffType.DELETE, dt), (DiffType.INSERT, it) :: restAcc =>
                        if lineModeRediffThreshold < dt.length + it.length then
                          _diff fuel dt it false ++ restAcc
                        else d :: acc
                      | _, _ => d :: acc)
                    []
                else
                  match bisectSearch t1b t2b with
                  | some (x, y) =>
                    _diff fuel (t1b.take x) (t2b.take y) false ++
                      _diff fuel (t1b.drop x) (t2b.drop y) false
                  | none => [(DiffType.DELETE, t1b), (DiffType.INSERT, t2b)]
      cleanupMerge ((if pre = [] then [] else [(DiffType.EQUAL, pre)]) ++ mid ++
        (if suf = [] then [] else [(DiffType.EQUAL, suf)]))

/-- Fuel supplied by the public entry point. -/
def diffFuel (t1 t2 : Str) : Nat := 2 * (t1.length + t2.length) + 8

instance : DecidableEq (Except String (List Diff)) := fun a b =>
  match a, b with
  | .ok x, .ok y =>
    if h : x = y then isTrue (by rw [h]) else isFalse (by simp [h])
  | .error x, .error y =>
    if h : x = y then isTrue (by rw [h]) else isFalse (by simp [h])
  | .ok _, .error _ => isFalse (by simp)
  | .error _, .ok _ => isFalse (by simp)

/-! ## Surrogate-pair repair (from `diff/diff.ts`)

Faithful translation of `combineChar`, `splitChar`, `hasSharedChar`,
`deisolateChar` and `adjustDiffForSurrogatePairs`.  The moved characters are
represented as lists of length ≤ 1 (`data[i]` on an empty string is
`undefined` in JavaScript; that degenerate read never happens on the inputs
these functions see, and is modelled as the empty list). -/

/-- `combineChar(data, char, dir)`. -/
def combineChar (data ch : Str) (dir : Int) : Str :=
  if dir = 1 then data ++ ch else ch ++ data

/-- `splitChar(data, dir)`: split off the last (dir = 1) or first
(dir = -1) character. -/
def splitChar (data : Str) (dir : Int) : Str × Str :=
  if dir = 1 then (data.take (data.length - 1), data.drop (data.length - 1))
  else (data.drop 1, data.take 1)

/-- `hasSharedChar(diffs, i, j, dir)`: for dir = 1 compares the *last*
characters of entries `i` and `j`, for dir = -1 the *first* characters. -/
def hasSharedChar (diffs : List Diff) (i j : Nat) (dir : Int) : Bool :=
  let ti := (diffs.getD i (DiffType.EQUAL, [])).2
  let tj := (diffs.getD j (DiffType.EQUAL, [])).2
  if dir = 1 then ti.getLast? == tj.getLast? else ti.head? == tj.head?

/-- JavaScript `splice(j, 0, x)` insertion: a negative index counts from the
end, an index past the end appends. -/
def spliceInsert (l : List Diff) (j : Int) (x : Diff) : List Diff :=
  l.insertIdx (if j < 0 then ((l.length : Int) + j).toNat else min j.toNat l.length) x

/-- Outcome of the scan loop at the top of `deisolateChar`. -/
inductive ScanResult where
  | moveToEqual (j : Int)
  | stopped (j : Int) (insertIdx deleteIdx : Option Nat)

/-- The scan loop of `deisolateChar`: walk from `i + dir` in direction
`dir`, recording the first non-empty INSERT and DELETE; an EQUAL found
before either ends the scan (and when neither was found, the character is
moved directly into that EQUAL). -/
def deisolateScan (diffs : List Diff) (dir : Int) :
    Nat → Int → Option Nat → Option Nat → ScanResult
  | 0, j, ins, del => .stopped j ins del
  | fuel + 1, j, ins, del =>
    if 0 ≤ j ∧ j < (diffs.length : Int) ∧ (ins = none ∨ del = none) then
      let e := diffs.getD j.toNat (DiffType.EQUAL, [])
      if e.2 = [] then deisolateScan diffs dir fuel (j + dir) ins del
      else
        match e.1 with
        | DiffType.INSERT =>
          deisolateScan diffs dir fuel (j + dir)
            (if ins = none then some j.toNat else ins) del
        | DiffType.DELETE =>
          deisolateScan diffs dir fuel (j + dir) ins
            (if del = none then some j.toNat else del)
        | DiffType.EQUAL =>
          if ins = none ∧ del = none then .moveToEqual j else .stopped j ins del
    else .stopped j ins del

/-- Replace the text of entry `i`, keeping its kind. -/
def setEntryText (l : List Diff) (i : Nat) (t : Str) : List Diff :=
  l.set i ((l.getD i (DiffType.EQUAL, [])).1, t)

/-- Lines 162–178 of `diff/diff.ts`: split the boundary character off the
EQUAL at `i` and feed it to the found INSERT/DELETE entries, splicing in a
fresh single-character entry when one of them is missing (adjusting
`deleteIdx` when the INSERT splice shifted it). -/
def deisolateGeneral (diffs : List Diff) (i : Nat) (dir inv : Int) (j : Int)
    (ins del : Option Nat) : List Diff :=
  let s := splitChar (diffs.getD i (DiffType.EQUAL, [])).2 dir
  let d1 := setEntryText diffs i s.1
  let ch := s.2
  match ins with
  | none =>
    let d2 := spliceInsert d1 j (DiffType.INSERT, ch)
    let del2 :=
      match del with
      | some dIdx => some (if j ≤ (dIdx : Int) then dIdx + 1 else dIdx)
      | none => none
    match del2 with
    | none => spliceInsert d2 j (DiffType.DELETE, ch)
    | some dIdx => setEntryText d2 dIdx (combineChar (d2.getD dIdx (DiffType.EQUAL, [])).2 ch inv)
  | some iIdx =>
    let d2 := setEntryText d1 iIdx (combineChar (d1.getD iIdx (DiffType.EQUAL, [])).2 ch inv)
    match del with
    | none => spliceInsert d2 j (DiffType.DELETE, ch)
    | some dIdx => setEntryText d2 dIdx (combineChar (d2.getD dIdx (DiffType.EQUAL, [])).2 ch inv)

/-- `deisolateChar(diffs, i, dir)` from `diff/diff.ts`. -/
def deisolateChar (diffs : List Diff) (i : Nat) (dir : Int) : List Diff :=
  let inv : Int := if dir = 1 then -1 else 1
  match deisolateScan diffs dir (diffs.length + 2) ((i : Int) + dir) none none with
  | .moveToEqual j =>
    let s := splitChar (diffs.getD i (DiffType.EQUAL, [])).2 dir
    let d1 := setEntryText diffs i s.1
    setEntryText d1 j.toNat (combineChar (d1.getD j.toNat (DiffType.EQUAL, [])).2 s.2 inv)
  | .stopped j ins del =>
    match ins, del with
    | some insIdx, some delIdx =>
      if hasSharedChar diffs insIdx delIdx dir then
        let si := splitChar (diffs.getD insIdx (DiffType.EQUAL, [])).2 inv
        let sd := splitChar (diffs.getD delIdx (DiffType.EQUAL, [])).2 inv
        let d1 := setEntryText diffs insIdx si.1
        let d2 := setEntryText d1 delIdx sd.1
        setEntryText d2 i (combineChar (d2.getD i (DiffType.EQUAL, [])).2 si.2 dir)
      else deisolateGeneral diffs i dir inv j ins del
    | _, _ => deisolateGeneral diffs i dir inv j ins del

/-- The scanning loop of `adjustDiffForSurrogatePairs`: both surrogate
checks use the first/last characters read before the first repair. -/
def adjustLoop : Nat → Nat → List Diff → List Diff
  | 0, _, diffs => diffs
  | fuel + 1, i, diffs =>
    if i < diffs.length then
      let e := diffs.getD i (DiffType.EQUAL, [])
      if e.2 = [] then adjustLoop fuel (i + 1) diffs
      else
        let firstChar := e.2.headD 0
        let lastChar := e.2.getLastD 0
        let d1 :=
          if isHighSurrogate lastChar ∧ e.1 = DiffType.EQUAL then deisolateChar diffs i 1
          else diffs
        let d2 :=
          if isLowSurrogate firstChar ∧ e.1 = DiffType.EQUAL then deisolateChar d1 i (-1)
          else d1
        adjustLoop fuel (i + 1) d2
    else diffs

/-- The removal loop at the end of `adjustDiffForSurrogatePairs`: splice out
empty entries (the index is not decremented after a removal, exactly as in
the source). -/
def removeEmptiesLoop : Nat → Nat → List Diff → List Diff
  | 0, _, diffs => diffs
  | fuel + 1, i, diffs =>
    if i < diffs.length then
      if (diffs.getD i (DiffType.EQUAL, [])).2 = [] then
        removeEmptiesLoop fuel (i + 1) (diffs.eraseIdx i)
      else removeEmptiesLoop fuel (i + 1) diffs
    else diffs

/-- `adjustDiffForSurrogatePairs(diffs)` from `diff/diff.ts`. -/
def adjustDiffForSurrogatePairs (diffs : List Diff) : List Diff :=
  let d1 := adjustLoop (4 * (totalTextLen diffs + diffs.length) + 16) 0 diffs
  removeEmptiesLoop (d1.length + 1) 0 d1

/-- `text1(diffs)`: concatenation of all EQUAL and DELETE texts (the source
reconstruction declared in the headers; modelled from the spec §3/§4.8). -/
def text1 (diffs : List Diff) : Str :=
  (diffs.map (fun d => if d.1 = DiffType.INSERT then [] else d.2)).flatten

/-- `text2(diffs)`: concatenation of all EQUAL and INSERT texts (modelled
from the spec §3/§4.8). -/
def text2 (diffs : List Diff) : Str :=
  (diffs.map (fun d => if d.1 = DiffType.DELETE then [] else d.2)).flatten

/-- `diff(textA, textB, opts)` from `diff/diff.ts`: null check, `_diff`,
surrogate repair. -/
def diff (textA textB : Option Str) (opts : DiffOptions) : Except String (List Diff) :=
  match textA, textB with
  | some t1, some t2 =>
    .ok (adjustDiffForSurrogatePairs
      (_diff (diffFuel t1 t2) t1 t2 (createInternalOpts 0 opts).checkLines))
  | _, _ => .error "Null input. (diff)"

/-! ## Claim theorems -/

/-- Is a diff result the error outcome? -/
def isErrorResult : Except String (List Diff) → Bool
  | .error _ => true
  | .ok _ => false

/-- C4: `diff` fails with an input error exactly when at least one text is
null/absent; on any two non-null texts it returns an edit script. -/
theorem diff_error_iff_null_input (a b : Option Str) (opts : DiffOptions) :
    isErrorResult (diff a b opts) = (a.isNone || b.isNone) := by
  cases a <;> cases b <;> rfl

/-- Boundary cleanliness of one entry text as the surrogate-pair claim
defines it: it does not start with an (necessarily unmatched) low surrogate
and does not end with an (necessarily unmatched) high surrogate. -/
def entryBoundaryClean (t : Str) : Bool :=
  t = [] || (!(isLowSurrogate (t.headD 0)) && !(isHighSurrogate (t.getLastD 0)))

/-- C2 counterexample: both input texts contain the supplementary-plane
character U+1F600 (and a trailing unpaired high surrogate); the returned
script has a DELETE entry that ends with an unmatched high surrogate. -/
theorem diff_boundary_split_counterexample :
    diff (some [0xD83D, 0xDE00, 0xD800]) (some [0xD83D, 0xDE00, 0xD800]) {} =
      .ok [(DiffType.EQUAL, [0xD83D, 0xDE00]), (DiffType.DELETE, [0xD800]),
        (DiffType.INSERT, [0xD800])] ∧
    ([(DiffType.EQUAL, [0xD83D, 0xDE00]), (DiffType.DELETE, [0xD800]),
        (DiffType.INSERT, [0xD800])] : List Diff).all
      (fun d => entryBoundaryClean d.2) = false := by
  decide

/-- C1 (code bug): on these two well-formed texts the script returned by
`diff` no longer reconstructs the source text — the shared-character branch
of `deisolateChar` replaces the DELETE side's code unit 0xD83C with the
INSERT side's 0xD83E — while the destination text survives. -/
theorem diff_text1_not_reconstructed :
    diff (some [97, 0xD83D, 0xDE01, 0xD83C, 0xDF09, 98])
        (some [97, 0xD83D, 0xDE02, 0xD83E, 0xDF09, 98]) {} =
      .ok [(DiffType.EQUAL, [97]), (DiffType.DELETE, [0xD83D, 0xDE01]),
        (DiffType.INSERT, [0xD83D, 0xDE02]), (DiffType.EQUAL, [0xD83E, 0xDF09, 98])] ∧
    text1 [(DiffType.EQUAL, [97]), (DiffType.DELETE, [0xD83D, 0xDE01]),
        (DiffType.INSERT, [0xD83D, 0xDE02]), (DiffType.EQUAL, [0xD83E, 0xDF09, 98])] ≠
      [97, 0xD83D, 0xDE01, 0xD83C, 0xDF09, 98] ∧
    text2 [(DiffType.EQUAL, [97]), (DiffType.DELETE, [0xD83D, 0xDE01]),
        (DiffType.INSERT, [0xD83D, 0xDE02]), (DiffType.EQUAL, [0xD83E, 0xDF09, 98])] =
      [97, 0xD83D, 0xDE02, 0xD83E, 0xDF09, 98] := by
  decide

/-- C9 (code bug): the surrogate repair does not preserve the EQUAL+DELETE
concatenation.  `hasSharedChar` with `dir = 1` compares the *last*
characters of the INSERT/DELETE pair, but the rewrite then moves their
*first* characters, so the DELETE text `ye` turns into `e` while the EQUAL
gains the INSERT's `x`. -/
theorem adjust_changes_text1 :
    adjustDiffForSurrogatePairs
        [(DiffType.EQUAL, [97, 0xD83D]), (DiffType.DELETE, [121, 101]),
          (DiffType.INSERT, [120, 101])] =
      [(DiffType.EQUAL, [97, 0xD83D, 120]), (DiffType.DELETE, [101]),
        (DiffType.INSERT, [101])] ∧
    text1 [(DiffType.EQUAL, [97, 0xD83D, 120]), (DiffType.DELETE, [101]),
        (DiffType.INSERT, [101])] ≠
      text1 [(DiffType.EQUAL, [97, 0xD83D]), (DiffType.DELETE, [121, 101]),
        (DiffType.INSERT, [120, 101])] ∧
    text2 [(DiffType.EQUAL, [97, 0xD83D, 120]), (DiffType.DELETE, [101]),
        (DiffType.INSERT, [101])] =
      text2 [(DiffType.EQUAL, [97, 0xD83D]), (DiffType.DELETE, [121, 101]),
        (DiffType.INSERT, [120, 101])] := by
  decide

/-- C5 counterexample: a script returned by `diff` with two adjacent INSERT
entries — the surrogate repair splices entries after the merge cleanup and
nothing re-merges them. -/
theorem diff_adjacent_same_kind :
    diff (some [0xD83D]) (some [97, 0xD83D, 102]) {} =
      .ok [(DiffType.INSERT, [97]), (DiffType.INSERT, [0xD83D, 102]),
        (DiffType.DELETE, [0xD83D])] ∧
    ¬ noAdjacentSameKind [(DiffType.INSERT, [97]), (DiffType.INSERT, [0xD83D, 102]),
        (DiffType.DELETE, [0xD83D])] := by
  constructor
  · decide
  · intro h
    exact absurd rfl (List.chain'_cons.mp h).1

/-- C5 (amended): every `_diff` result — the script before surrogate
repair, i.e. after merge cleanup — has no empty entry and no two adjacent
entries of the same kind. -/
theorem _diff_no_empty_no_adjacent (fuel : Nat) (t1 t2 : Str) (cl : Bool) :
    noEmptyEntries (_diff fuel t1 t2 cl) ∧ noAdjacentSameKind (_diff fuel t1 t2 cl) := by
  match fuel with
  | 0 => exact cleanupMerge_inv _
  | fuel + 1 =>
    rw [_diff]
    split
    · split
      · refine ⟨?_, ?_⟩
        · intro x hx; cases hx
        · simp [noAdjacentSameKind]
      · rename_i ht
        refine ⟨?_, ?_⟩
        · intro x hx
          rcases List.mem_cons.mp hx with hx | hx
          · subst hx; exact ht
          · cases hx
        · simp [noAdjacentSameKind]
    · exact cleanupMerge_inv _

/-- C6 counterexample: for `a` a lone high surrogate, `diff(a, a)` is not
`[(EQUAL, a)]`: the surrogate repair rewrites it into a DELETE + INSERT
pair. -/
theorem diff_self_lone_high_surrogate :
    diff (some [0xD83D]) (some [0xD83D]) {} =
      .ok [(DiffType.DELETE, [0xD83D]), (DiffType.INSERT, [0xD83D])] ∧
    ((.ok [(DiffType.DELETE, [0xD83D]), (DiffType.INSERT, [0xD83D])] : Except String (List Diff)) ≠
      .ok [(DiffType.EQUAL, [0xD83D])]) := by
  decide

theorem adjustLoop_single_clean (a : Str) (ha : a ≠ [])
    (h1 : isLowSurrogate (a.headD 0) = false)
    (h2 : isHighSurrogate (a.getLastD 0) = false) :
    ∀ fuel, 2 ≤ fuel → adjustLoop fuel 0 [(DiffType.EQUAL, a)] = [(DiffType.EQUAL, a)] := by
  intro fuel hf
  obtain ⟨f, rfl⟩ : ∃ f, fuel = f + 2 := ⟨fuel - 2, by omega⟩
  rw [show f + 2 = (f + 1) + 1 from rfl, adjustLoop]
  rw [if_pos (by simp)]
  simp only [List.getD_cons_zero, ha, h1, h2]
  simp only [Bool.false_eq_true, false_and, if_false, ite_false, if_neg, not_false_iff]
  simp
  rw [adjustLoop]
  simp

theorem removeEmptiesLoop_single (a : Str) (ha : a ≠ []) :
    ∀ fuel, 2 ≤ fuel →
      removeEmptiesLoop fuel 0 [(DiffType.EQUAL, a)] = [(DiffType.EQUAL, a)] := by
  intro fuel hf
  obtain ⟨f, rfl⟩ : ∃ f, fuel = f + 2 := ⟨fuel - 2, by omega⟩
  rw [show f + 2 = (f + 1) + 1 from rfl, removeEmptiesLoop]
  rw [if_pos (by simp), if_neg (by simpa using ha), removeEmptiesLoop]
  rw [if_neg (by simp)]

theorem adjust_single_clean (a : Str) (ha : a ≠ [])
    (h1 : isLowSurrogate (a.headD 0) = false)
    (h2 : isHighSurrogate (a.getLastD 0) = false) :
    adjustDiffForSurrogatePairs [(DiffType.EQUAL, a)] = [(DiffType.EQUAL, a)] := by
  rw [adjustDiffForSurrogatePairs]
  rw [adjustLoop_single_clean a ha h1 h2 _ (by omega)]
  rw [removeEmptiesLoop_single a ha _ (by simp only [List.length_cons, List.length_nil]; omega)]

/-- C6 (amended): `diff(a, a) = [(EQUAL, a)]` for every non-empty `a` that
does not start with a low surrogate and does not end with a high surrogate
(otherwise the surrogate repair rewrites the entry), and
`diff("", "") = []`. -/
theorem diff_self_eq (a : Str) (opts : DiffOptions) (ha : a ≠ [])
    (h1 : isLowSurrogate (a.headD 0) = false)
    (h2 : isHighSurrogate (a.getLastD 0) = false) :
    diff (some a) (some a) opts = .ok [(DiffType.EQUAL, a)] ∧
      diff (some []) (some []) opts = .ok [] := by
  constructor
  · rw [diff]
    have hd : _diff (diffFuel a a) a a (createInternalOpts 0 opts).checkLines
        = [(DiffType.EQUAL, a)] := by
      obtain ⟨f, hf⟩ : ∃ f, diffFuel a a = f + 1 :=
        ⟨2 * (a.length + a.length) + 7, by unfold diffFuel; omega⟩
      rw [hf, _diff, if_pos rfl, if_neg ha]
    rw [hd, adjust_single_clean a ha h1 h2]
  · rw [diff]
    have hd : _diff (diffFuel [] []) [] [] (createInternalOpts 0 opts).checkLines
        = [] := by
      obtain ⟨f, hf⟩ : ∃ f, diffFuel [] [] = f + 1 := ⟨7, rfl⟩
      rw [hf, _diff, if_pos rfl, if_pos rfl]
    rw [hd]
    rfl

theorem diff_self_eq_witness :
    diff (some [97]) (some [97]) {} = .ok [(DiffType.EQUAL, [97])] ∧
      diff (some []) (some []) {} = .ok [] :=
  diff_self_eq [97] {} (by decide) (by decide) (by decide)

/-! ## Well-formedness of UTF-16 code-unit sequences

For claim C2 we track well-formedness (every high surrogate immediately
followed by a low surrogate, every low surrogate immediately preceded by a
high surrogate) with a two-state automaton: the state records whether the
previous code unit was a high surrogate (a low surrogate is then due). -/

/-- Run the well-formedness automaton from a state; `none` = rejected. -/
def runWf : Bool → Str → Option Bool
  | s, [] => some s
  | true, c :: r => if isLowSurrogate c then runWf false r else none
  | false, c :: r =>
    if isHighSurrogate c then runWf true r
    else if isLowSurrogate c then none
    else runWf false r

/-- A whole text is well formed when the automaton accepts from the idle
state and ends idle (no dangling high surrogate). -/
def wellFormed (t : Str) : Bool := runWf false t == some false

theorem runWf_append (s : Bool) (a b : Str) :
    runWf s (a ++ b) = (runWf s a).bind (fun s2 => runWf s2 b) := by
  induction a generalizing s with
  | nil => simp [runWf]
  | cons c r ih =>
    cases s with
    | true =>
      by_cases hl : isLowSurrogate c
      · simp [runWf, hl, ih]
      · simp [runWf, hl]
    | false =>
      by_cases hh : isHighSurrogate c
      · simp [runWf, hh, ih]
      · by_cases hl : isLowSurrogate c
        · simp [runWf, hh, hl]
        · simp [runWf, hh, hl, ih]

theorem high_not_low (c : Nat) (h : isHighSurrogate c = true) :
    isLowSurrogate c = false := by
  unfold isHighSurrogate at h
  unfold isLowSurrogate
  simp only [Bool.and_eq_true, decide_eq_true_eq] at h
  simp only [Bool.and_eq_false_iff]
  left
  simp only [decide_eq_false_iff_not]
  omega

theorem runWf_head_not_low (c : Nat) (r : Str) (s2 : Bool)
    (h : runWf false (c :: r) = some s2) : isLowSurrogate c = false := by
  rw [runWf] at h
  by_cases hh : isHighSurrogate c
  · exact high_not_low c hh
  · rw [if_neg hh] at h
    by_cases hl : isLowSurrogate c
    · rw [if_pos hl] at h; cases h
    · simpa using hl

theorem runWf_last_high (s : Bool) (t : Str) (h : runWf s t = some true) :
    t = [] ∨ isHighSurrogate (t.getLastD 0) = true := by
  induction t generalizing s with
  | nil => exact Or.inl rfl
  | cons c r ih =>
    cases r with
    | nil =>
      right
      cases s with
      | true =>
        rw [runWf] at h
        split at h
        · rw [runWf] at h; cases h
        · cases h
      | false =>
        rw [runWf] at h
        split at h
        · rename_i hc; simpa using hc
        · split at h
          · cases h
          · rw [runWf] at h; cases h
    | cons c2 r2 =>
      have step : ∃ s2, runWf s2 (c2 :: r2) = some true := by
        cases s with
        | true =>
          rw [runWf] at h
          split at h
          · exact ⟨false, h⟩
          · cases h
        | false =>
          rw [runWf] at h
          split at h
          · exact ⟨true, h⟩
          · split at h
            · cases h
            · exact ⟨false, h⟩
      obtain ⟨s2, hs2⟩ := step
      rcases ih s2 hs2 with hnil | hlast
      · cases hnil
      · right
        simpa using hlast

/-- Run-structure check: between two (non-empty) EQUAL entries there is at
most one non-empty DELETE and at most one non-empty INSERT; the two flags
record whether the current run already contains one.  Empty entries are
transparent, as they are for the repair's scan loop. -/
def runStructOk : Bool → Bool → List Diff → Bool
  | _, _, [] => true
  | sd, si, (DiffType.DELETE, t) :: r =>
    if t = [] then runStructOk sd si r else !sd && runStructOk true si r
  | sd, si, (DiffType.INSERT, t) :: r =>
    if t = [] then runStructOk sd si r else !si && runStructOk sd true r
  | sd, si, (DiffType.EQUAL, t) :: r =>
    if t = [] then runStructOk sd si r else runStructOk false false r

/-- All EQUAL entries of the script are boundary-clean. -/
def allEqualClean (d : List Diff) : Prop :=
  ∀ e ∈ d, e.1 = DiffType.EQUAL → entryBoundaryClean e.2 = true

theorem text1_nil : text1 [] = [] := rfl

theorem text1_cons (e : Diff) (l : List Diff) :
    text1 (e :: l) = (if e.1 = DiffType.INSERT then [] else e.2) ++ text1 l := by
  simp [text1]

theorem text2_nil : text2 [] = [] := rfl

theorem text2_cons (e : Diff) (l : List Diff) :
    text2 (e :: l) = (if e.1 = DiffType.DELETE then [] else e.2) ++ text2 l := by
  simp [text2]

theorem text1_append (a b : List Diff) : text1 (a ++ b) = text1 a ++ text1 b := by
  simp [text1]

theorem text2_append (a b : List Diff) : text2 (a ++ b) = text2 a ++ text2 b := by
  simp [text2]

theorem runWf_high_last (s s2 : Bool) (t : Str) (h : runWf s t = some s2)
    (ht : t ≠ []) (hh : isHighSurrogate (t.getLastD 0) = true) : s2 = true := by
  induction t generalizing s with
  | nil => exact absurd rfl ht
  | cons c r ih =>
    cases r with
    | nil =>
      have hh2 : isHighSurrogate c = true := by simpa [List.getLastD] using hh
      cases s with
      | true =>
        rw [runWf] at h
        split at h
        · rename_i hl
          rw [high_not_low c hh2] at hl
          cases hl
        · cases h
      | false =>
        rw [runWf, if_pos hh2, runWf] at h
        cases h
        rfl
    | cons c2 r2 =>
      have step : ∃ s3, runWf s3 (c2 :: r2) = some s2 := by
        cases s with
        | true =>
          rw [runWf] at h
          split at h
          · exact ⟨false, h⟩
          · cases h
        | false =>
          rw [runWf] at h
          split at h
          · exact ⟨true, h⟩
          · split at h
            · cases h
            · exact ⟨false, h⟩
      obtain ⟨s3, hs3⟩ := step
      exact ih s3 hs3 (by simp) (by simpa using hh)

theorem allEqualClean_tail {e : Diff} {l : List Diff} (h : allEqualClean (e :: l)) :
    allEqualClean l := fun x hx => h x (List.mem_cons_of_mem _ hx)

theorem clean_head_not_low {t : Str} (hc : entryBoundaryClean t = true) (ht : t ≠ []) :
    isLowSurrogate (t.headD 0) = false := by
  unfold entryBoundaryClean at hc
  rcases Bool.or_eq_true_iff.mp hc with hc | hc
  · exact absurd (by simpa using hc) ht
  · exact by simpa using (Bool.and_eq_true_iff.mp hc).1

theorem clean_last_not_high {t : Str} (hc : entryBoundaryClean t = true) (ht : t ≠ []) :
    isHighSurrogate (t.getLastD 0) = false := by
  unfold entryBoundaryClean at hc
  rcases Bool.or_eq_true_iff.mp hc with hc | hc
  · exact absurd (by simpa using hc) ht
  · exact by simpa using (Bool.and_eq_true_iff.mp hc).2

/-- After a DELETE whose text left the automaton expecting a low surrogate,
the rest of a structurally valid script with clean EQUAL entries cannot
complete the source text: the low would have to open the next EQUAL. -/
theorem no_pending_del (r : List Diff) : ∀ si, runStructOk true si r = true →
    allEqualClean r → runWf true (text1 r) ≠ some false := by
  induction r with
  | nil =>
    intro si _ _ h
    rw [text1_nil, runWf] at h
    cases h
  | cons e rest ih =>
    intro si hS hC h
    obtain ⟨k, t⟩ := e
    by_cases ht : t = []
    · subst ht
      have h2 : runWf true (text1 rest) = some false := by
        rw [text1_cons] at h
        cases k <;> simpa using h
      cases k with
      | DELETE =>
        rw [runStructOk, if_pos rfl] at hS
        exact ih si hS (allEqualClean_tail hC) h2
      | INSERT =>
        rw [runStructOk, if_pos rfl] at hS
        exact ih si hS (allEqualClean_tail hC) h2
      | EQUAL =>
        rw [runStructOk, if_pos rfl] at hS
        exact ih si hS (allEqualClean_tail hC) h2
    · cases k with
      | DELETE =>
        rw [runStructOk, if_neg ht] at hS
        simp at hS
      | INSERT =>
        rw [runStructOk, if_neg ht] at hS
        obtain ⟨hsi, hS2⟩ := Bool.and_eq_true_iff.mp hS
        rw [text1_cons] at h
        simp only [if_pos rfl, List.nil_append] at h
        exact ih true hS2 (allEqualClean_tail hC) h
      | EQUAL =>
        have hclean : entryBoundaryClean t = true := hC (DiffType.EQUAL, t) (by simp) rfl
        have hnl : isLowSurrogate (t.headD 0) = false := clean_head_not_low hclean ht
        obtain ⟨c, t2, rfl⟩ : ∃ c t2, t = c :: t2 := by
          cases t with
          | nil => exact absurd rfl ht
          | cons c t2 => exact ⟨c, t2, rfl⟩
        simp only [List.headD_cons] at hnl
        rw [text1_cons] at h
        rw [show ((if ((DiffType.EQUAL, c :: t2) : Diff).1 = DiffType.INSERT then []
          else c :: t2) : Str) = c :: t2 from rfl] at h
        rw [List.cons_append, runWf, if_neg (by simp [hnl])] at h
        cases h

/-- Mirror image of `no_pending_del` for an INSERT and the destination
text. -/
theorem no_pending_ins (r : List Diff) : ∀ sd, runStructOk sd true r = true →
    allEqualClean r → runWf true (text2 r) ≠ some false := by
  induction r with
  | nil =>
    intro sd _ _ h
    rw [text2_nil, runWf] at h
    cases h
  | cons e rest ih =>
    intro sd hS hC h
    obtain ⟨k, t⟩ := e
    by_cases ht : t = []
    · subst ht
      have h2 : runWf true (text2 rest) = some false := by
        rw [text2_cons] at h
        cases k <;> simpa using h
      cases k with
      | DELETE =>
        rw [runStructOk, if_pos rfl] at hS
        exact ih sd hS (allEqualClean_tail hC) h2
      | INSERT =>
        rw [runStructOk, if_pos rfl] at hS
        exact ih sd hS (allEqualClean_tail hC) h2
      | EQUAL =>
        rw [runStructOk, if_pos rfl] at hS
        exact ih sd hS (allEqualClean_tail hC) h2
    · cases k with
      | INSERT =>
        rw [runStructOk, if_neg ht] at hS
        simp at hS
      | DELETE =>
        rw [runStructOk, if_neg ht] at hS
        obtain ⟨hsd, hS2⟩ := Bool.and_eq_true_iff.mp hS
        rw [text2_cons] at h
        simp only [if_pos rfl, List.nil_append] at h
        exact ih true hS2 (allEqualClean_tail hC) h
      | EQUAL =>
        have hclean : entryBoundaryClean t = true := hC (DiffType.EQUAL, t) (by simp) rfl
        have hnl : isLowSurrogate (t.headD 0) = false := clean_head_not_low hclean ht
        obtain ⟨c, t2, rfl⟩ : ∃ c t2, t = c :: t2 := by
          cases t with
          | nil => exact absurd rfl ht
          | cons c t2 => exact ⟨c, t2, rfl⟩
        simp only [List.headD_cons] at hnl
        rw [text2_cons] at h
        rw [show ((if ((DiffType.EQUAL, c :: t2) : Diff).1 = DiffType.DELETE then []
          else c :: t2) : Str) = c :: t2 from rfl] at h
        rw [List.cons_append, runWf, if_neg (by simp [hnl])] at h
        cases h

theorem cons_of_ne_nil {t : Str} (ht : t ≠ []) : ∃ c t2, t = c :: t2 := by
  cases t with
  | nil => exact absurd rfl ht
  | cons c t2 => exact ⟨c, t2, rfl⟩

theorem bind_eq_some_false {o : Option Bool} {f : Bool → Option Bool}
    (h : o.bind f = some false) : ∃ s, o = some s ∧ f s = some false := by
  cases o with
  | none => cases h
  | some s => exact ⟨s, rfl, h⟩

/-- Static cleanliness: a script whose source and destination
reconstructions are well formed, whose runs hold at most one non-empty
DELETE and INSERT, and whose EQUAL entries are boundary-clean, is
boundary-clean in every entry. -/
theorem allClean_of (d : List Diff) : ∀ sd si p1 p2,
    runStructOk sd si d = true →
    allEqualClean d →
    runWf p1 (text1 d) = some false →
    runWf p2 (text2 d) = some false →
    (p1 = true → sd = true) →
    (p2 = true → si = true) →
    ∀ e ∈ d, entryBoundaryClean e.2 = true := by
  induction d with
  | nil =>
    intro _ _ _ _ _ _ _ _ _ _ e he
    cases he
  | cons ent rest ih =>
    intro sd si p1 p2 hS hC h1 h2 hp1 hp2 e he
    obtain ⟨k, t⟩ := ent
    by_cases ht : t = []
    · subst ht
      have h1b : runWf p1 (text1 rest) = some false := by
        rw [text1_cons] at h1
        cases k <;> simpa using h1
      have h2b : runWf p2 (text2 rest) = some false := by
        rw [text2_cons] at h2
        cases k <;> simpa using h2
      have hS2 : runStructOk sd si rest = true := by
        cases k <;> (rw [runStructOk, if_pos rfl] at hS; exact hS)
      rcases List.mem_cons.mp he with he | he
      · subst he; rfl
      · exact ih sd si p1 p2 hS2 (allEqualClean_tail hC) h1b h2b hp1 hp2 e he
    · cases k with
      | DELETE =>
        rw [runStructOk, if_neg ht] at hS
        obtain ⟨hsd, hS2⟩ := Bool.and_eq_true_iff.mp hS
        have hsd2 : sd = false := by simpa using hsd
        have hp1b : p1 = false := by
          cases p1
          · rfl
          · rw [hp1 rfl] at hsd2; cases hsd2
        subst hp1b
        rw [text1_cons,
          show (if ((DiffType.DELETE, t) : Diff).1 = DiffType.INSERT then [] else t) = t
            from rfl, runWf_append] at h1
        obtain ⟨s1, hs1, hrest1⟩ := bind_eq_some_false h1
        have hs1f : s1 = false := by
          cases s1
          · rfl
          · exact absurd hrest1 (no_pending_del rest si hS2 (allEqualClean_tail hC))
        subst hs1f
        have h2b : runWf p2 (text2 rest) = some false := by
          rw [text2_cons] at h2
          simpa using h2
        rcases List.mem_cons.mp he with he | he
        · subst he
          show entryBoundaryClean t = true
          obtain ⟨c, t2, rfl⟩ := cons_of_ne_nil ht
          have hhead : isLowSurrogate c = false := runWf_head_not_low c t2 false hs1
          have hlast : isHighSurrogate ((c :: t2).getLastD 0) = false := by
            cases hq : isHighSurrogate ((c :: t2).getLastD 0)
            · rfl
            · cases runWf_high_last false false (c :: t2) hs1 (by simp) hq
          rw [List.getLastD_eq_getLast?] at hlast
          simp [entryBoundaryClean, hhead, hlast]
        · exact ih true si false p2 hS2 (allEqualClean_tail hC) hrest1 h2b
            (fun _ => rfl) hp2 e he
      | INSERT =>
        rw [runStructOk, if_neg ht] at hS
        obtain ⟨hsi, hS2⟩ := Bool.and_eq_true_iff.mp hS
        have hsi2 : si = false := by simpa using hsi
        have hp2b : p2 = false := by
          cases p2
          · rfl
          · rw [hp2 rfl] at hsi2; cases hsi2
        subst hp2b
        rw [text2_cons,
          show (if ((DiffType.INSERT, t) : Diff).1 = DiffType.DELETE then [] else t) = t
            from rfl, runWf_append] at h2
        obtain ⟨s2, hs2, hrest2⟩ := bind_eq_some_false h2
        have hs2f : s2 = false := by
          cases s2
          · rfl
          · exact absurd hrest2 (no_pending_ins rest sd hS2 (allEqualClean_tail hC))
        subst hs2f
        have h1b : runWf p1 (text1 rest) = some false := by
          rw [text1_cons] at h1
          simpa using h1
        rcases List.mem_cons.mp he with he | he
        · subst he
          show entryBoundaryClean t = true
          obtain ⟨c, t2, rfl⟩ := cons_of_ne_nil ht
          have hhead : isLowSurrogate c = false := runWf_head_not_low c t2 false hs2
          have hlast : isHighSurrogate ((c :: t2).getLastD 0) = false := by
            cases hq : isHighSurrogate ((c :: t2).getLastD 0)
            · rfl
            · cases runWf_high_last false false (c :: t2) hs2 (by simp) hq
          rw [List.getLastD_eq_getLast?] at hlast
          simp [entryBoundaryClean, hhead, hlast]
        · exact ih sd true p1 false hS2 (allEqualClean_tail hC) h1b hrest2
            hp1 (fun _ => rfl) e he
      | EQUAL =>
        rw [runStructOk, if_neg ht] at hS
        have hclean : entryBoundaryClean t = true := hC (DiffType.EQUAL, t) (by simp) rfl
        rw [text1_cons,
          show (if ((DiffType.EQUAL, t) : Diff).1 = DiffType.INSERT then [] else t) = t
            from rfl, runWf_append] at h1
        obtain ⟨s1, hs1, hrest1⟩ := bind_eq_some_false h1
        have hs1f : s1 = false := by
          cases s1
          · rfl
          · rcases runWf_last_high p1 t hs1 with hnil | hhigh
            · exact absurd hnil ht
            · rw [clean_last_not_high hclean ht] at hhigh; cases hhigh
        subst hs1f
        rw [text2_cons,
          show (if ((DiffType.EQUAL, t) : Diff).1 = DiffType.DELETE then [] else t) = t
            from rfl, runWf_append] at h2
        obtain ⟨s2, hs2, hrest2⟩ := bind_eq_some_false h2
        have hs2f : s2 = false := by
          cases s2
          · rfl
          · rcases runWf_last_high p2 t hs2 with hnil | hhigh
            · exact absurd hnil ht
            · rw [clean_last_not_high hclean ht] at hhigh; cases hhigh
        subst hs2f
        rcases List.mem_cons.mp he with he | he
        · subst he; exact hclean
        · exact ih false false false false hS (allEqualClean_tail hC) hrest1 hrest2
            (fun h => by cases h) (fun h => by cases h) e he

/-! State-machine form of the run-structure check, for composing across
list surgery. -/

/-- Run the run-structure automaton; `none` = a run with two non-empty
DELETEs or two non-empty INSERTs. -/
def runRS : Bool × Bool → List Diff → Option (Bool × Bool)
  | st, [] => some st
  | st, (DiffType.DELETE, t) :: r =>
    if t = [] then runRS st r
    else if st.1 then none else runRS (true, st.2) r
  | st, (DiffType.INSERT, t) :: r =>
    if t = [] then runRS st r
    else if st.2 then none else runRS (st.1, true) r
  | st, (DiffType.EQUAL, t) :: r =>
    if t = [] then runRS st r else runRS (false, false) r

theorem runRS_append (st : Bool × Bool) (a b : List Diff) :
    runRS st (a ++ b) = (runRS st a).bind (fun st2 => runRS st2 b) := by
  induction a generalizing st with
  | nil => simp [runRS]
  | cons e r ih =>
    obtain ⟨k, t⟩ := e
    by_cases ht : t = []
    · cases k <;> simp [runRS, ht, ih]
    · cases k with
      | DELETE =>
        by_cases h1 : st.1 <;> simp [runRS, ht, h1, ih]
      | INSERT =>
        by_cases h2 : st.2 <;> simp [runRS, ht, h2, ih]
      | EQUAL => simp [runRS, ht, ih]

theorem runStructOk_eq_runRS (sd si : Bool) (l : List Diff) :
    runStructOk sd si l = (runRS (sd, si) l).isSome := by
  induction l generalizing sd si with
  | nil => simp [runStructOk, runRS]
  | cons e r ih =>
    obtain ⟨k, t⟩ := e
    by_cases ht : t = []
    · cases k <;> simp [runStructOk, runRS, ht, ih]
    · cases k with
      | DELETE => cases sd <;> simp [runStructOk, runRS, ht, ih]
      | INSERT => cases si <;> simp [runStructOk, runRS, ht, ih]
      | EQUAL => simp [runStructOk, runRS, ht, ih]

/-- Every entry of the run prefix is empty. -/
def allEmpty (l : List Diff) : Prop := ∀ e ∈ l, e.2 = []

theorem text1_allEmpty {l : List Diff} (h : allEmpty l) : text1 l = [] := by
  induction l with
  | nil => rfl
  | cons e r ih =>
    rw [text1_cons, h e (by simp), ih (fun x hx => h x (by simp [hx]))]
    split <;> rfl

theorem text2_allEmpty {l : List Diff} (h : allEmpty l) : text2 l = [] := by
  induction l with
  | nil => rfl
  | cons e r ih =>
    rw [text2_cons, h e (by simp), ih (fun x hx => h x (by simp [hx]))]
    split <;> rfl

theorem runRS_allEmpty {l : List Diff} (h : allEmpty l) (st : Bool × Bool) :
    runRS st l = some st := by
  induction l generalizing st with
  | nil => rfl
  | cons e r ih =>
    obtain ⟨k, t⟩ := e
    have ht : t = [] := h (k, t) (by simp)
    cases k <;> simp [runRS, ht, ih (fun x hx => h x (by simp [hx]))]

/-- First-non-empty decomposition of a diff list. -/
theorem first_nonempty_decomp (B : List Diff) :
    allEmpty B ∨ ∃ E0 e B1, B = E0 ++ e :: B1 ∧ allEmpty E0 ∧ e.2 ≠ [] := by
  induction B with
  | nil =>
    left
    intro x hx
    cases hx
  | cons e r ih =>
    by_cases he : e.2 = []
    · rcases ih with h | ⟨E0, x, B1, rfl, hE0, hx⟩
      · left
        intro x hx
        rcases List.mem_cons.mp hx with hx | hx
        · subst hx; exact he
        · exact h x hx
      · right
        refine ⟨e :: E0, x, B1, by simp, ?_, hx⟩
        intro y hy
        rcases List.mem_cons.mp hy with hy | hy
        · subst hy; exact he
        · exact hE0 y hy
    · refine Or.inr ⟨[], e, r, by simp, ?_, he⟩
      intro x hx
      cases hx

/-! Structural forms of the `deisolateChar` scan loop, recursing on the
portion of the script still to be visited. -/

/-- Forward scan (`dir = 1`), recursing on the entries after the cursor. -/
def scanF : List Diff → Nat → Option Nat → Option Nat → ScanResult
  | [], j, ins, del => .stopped (j : Int) ins del
  | e :: r, j, ins, del =>
    if ins ≠ none ∧ del ≠ none then .stopped (j : Int) ins del
    else if e.2 = [] then scanF r (j + 1) ins del
    else
      match e.1 with
      | DiffType.INSERT => scanF r (j + 1) (if ins = none then some j else ins) del
      | DiffType.DELETE => scanF r (j + 1) ins (if del = none then some j else del)
      | DiffType.EQUAL =>
        if ins = none ∧ del = none then .moveToEqual (j : Int)
        else .stopped (j : Int) ins del

/-- Backward scan (`dir = -1`), recursing on the reversed entries before the
cursor. -/
def scanB : List Diff → Int → Option Nat → Option Nat → ScanResult
  | [], j, ins, del => .stopped j ins del
  | e :: r, j, ins, del =>
    if ins ≠ none ∧ del ≠ none then .stopped j ins del
    else if e.2 = [] then scanB r (j - 1) ins del
    else
      match e.1 with
      | DiffType.INSERT => scanB r (j - 1) (if ins = none then some j.toNat else ins) del
      | DiffType.DELETE => scanB r (j - 1) ins (if del = none then some j.toNat else del)
      | DiffType.EQUAL =>
        if ins = none ∧ del = none then .moveToEqual j else .stopped j ins del

theorem deisolateScan_eq_scanF (d : List Diff) :
    ∀ fuel i0 ins del, i0 ≤ d.length → d.length - i0 < fuel →
      deisolateScan d 1 fuel (i0 : Int) ins del = scanF (d.drop i0) i0 ins del := by
  intro fuel
  induction fuel with
  | zero => intro i0 ins del h1 h2; omega
  | succ fuel ih =>
    intro i0 ins del h1 h2
    rcases Nat.lt_or_ge i0 d.length with hlt | hge
    · rw [List.drop_eq_getElem_cons hlt]
      by_cases hb : ins ≠ none ∧ del ≠ none
      · rw [deisolateScan, if_neg (by push_neg; intro _ hlen; tauto), scanF, if_pos hb]
      · have hcond : (0 : Int) ≤ (i0 : Int) ∧ (i0 : Int) < (d.length : Int) ∧
            (ins = none ∨ del = none) := by
          refine ⟨by positivity, by exact_mod_cast hlt, ?_⟩
          by_cases hi : ins = none
          · exact Or.inl hi
          · right
            by_contra hd
            exact hb ⟨hi, hd⟩
        rw [deisolateScan, if_pos hcond, scanF, if_neg hb]
        have hget : d.getD ((i0 : Int)).toNat (DiffType.EQUAL, []) = d[i0] := by
          rw [Int.toNat_natCast]
          exact List.getD_eq_getElem d _ hlt
        rw [hget]
        have hstep : ((i0 : Int) + 1) = ((i0 + 1 : Nat) : Int) := by push_cast; ring
        have htoNat : ((i0 : Int)).toNat = i0 := Int.toNat_natCast i0
        by_cases he : (d[i0]).2 = []
        · simp only [if_pos he]
          rw [hstep]
          exact ih (i0 + 1) ins del (by omega) (by omega)
        · simp only [if_neg he]
          cases hk : (d[i0]).1 with
          | INSERT =>
            show deisolateScan d 1 fuel ((i0 : Int) + 1)
                (if ins = none then some ((i0 : Int)).toNat else ins) del =
              scanF (d.drop (i0 + 1)) (i0 + 1) (if ins = none then some i0 else ins) del
            rw [htoNat, hstep]
            exact ih (i0 + 1) _ del (by omega) (by omega)
          | DELETE =>
            show deisolateScan d 1 fuel ((i0 : Int) + 1) ins
                (if del = none then some ((i0 : Int)).toNat else del) =
              scanF (d.drop (i0 + 1)) (i0 + 1) ins (if del = none then some i0 else del)
            rw [htoNat, hstep]
            exact ih (i0 + 1) ins _ (by omega) (by omega)
          | EQUAL => rfl
    · have hdrop : d.drop i0 = [] := List.drop_eq_nil_of_le hge
      have hi0 : i0 = d.length := by omega
      rw [hdrop, deisolateScan, if_neg ?_, scanF]
      push_neg
      intro _ hlen
      exfalso
      rw [hi0] at hlen
      exact absurd hlen (by omega)

theorem deisolateScan_eq_scanB (d : List Diff) :
    ∀ fuel k ins del, k ≤ d.length → k < fuel →
      deisolateScan d (-1) fuel ((k : Int) - 1) ins del =
        scanB ((d.take k).reverse) ((k : Int) - 1) ins del := by
  intro fuel
  induction fuel with
  | zero => intro k ins del h1 h2; omega
  | succ fuel ih =>
    intro k ins del h1 h2
    cases k with
    | zero =>
      rw [deisolateScan, if_neg (by push_neg; intro h; omega)]
      rfl
    | succ k2 =>
      have hlt : k2 < d.length := by omega
      have hrev : (d.take (k2 + 1)).reverse = d[k2] :: (d.take k2).reverse := by
        rw [List.take_succ, List.getElem?_eq_getElem hlt]
        simp
      have hj : ((k2 + 1 : Nat) : Int) - 1 = (k2 : Int) := by push_cast; ring
      rw [hrev, hj]
      by_cases hb : ins ≠ none ∧ del ≠ none
      · rw [deisolateScan, if_neg (by push_neg; intro _ _; tauto), scanB, if_pos hb]
      · have hcond : (0 : Int) ≤ (k2 : Int) ∧ (k2 : Int) < (d.length : Int) ∧
            (ins = none ∨ del = none) := by
          refine ⟨by positivity, by exact_mod_cast hlt, ?_⟩
          by_cases hi : ins = none
          · exact Or.inl hi
          · right
            by_contra hd
            exact hb ⟨hi, hd⟩
        rw [deisolateScan, if_pos hcond, scanB, if_neg hb]
        have hget : d.getD ((k2 : Int)).toNat (DiffType.EQUAL, []) = d[k2] := by
          rw [Int.toNat_natCast]
          exact List.getD_eq_getElem d _ hlt
        rw [hget]
        have hstep : ((k2 : Int) + (-1)) = ((k2 : Nat) : Int) - 1 := by ring
        by_cases he : (d[k2]).2 = []
        · simp only [if_pos he]
          rw [hstep]
          exact ih k2 ins del (by omega) (by omega)
        · simp only [if_neg he]
          cases hk : (d[k2]).1 with
          | INSERT =>
            show deisolateScan d (-1) fuel ((k2 : Int) + (-1))
                (if ins = none then some ((k2 : Int)).toNat else ins) del =
              scanB ((d.take k2).reverse) ((k2 : Int) - 1)
                (if ins = none then some ((k2 : Int)).toNat else ins) del
            rw [hstep]
            exact ih k2 _ del (by omega) (by omega)
          | DELETE =>
            show deisolateScan d (-1) fuel ((k2 : Int) + (-1)) ins
                (if del = none then some ((k2 : Int)).toNat else del) =
              scanB ((d.take k2).reverse) ((k2 : Int) - 1) ins
                (if del = none then some ((k2 : Int)).toNat else del)
            rw [hstep]
            exact ih k2 ins _ (by omega) (by omega)
          | EQUAL => rfl

/-! Combined script automaton for the adjust-loop invariant: it threads the
well-formedness state of the source text (`p1`), of the destination text
(`p2`), and the run-structure flags (`sd`, `si`: the current run between
EQUAL barriers already holds a non-empty DELETE / INSERT).  An *empty* EQUAL
acts as a barrier too, but only at a position where both text states are
idle — exactly the situation in which the repair empties an EQUAL entry. -/

structure CState where
  p1 : Bool
  p2 : Bool
  sd : Bool
  si : Bool
deriving DecidableEq, Repr

def runC : CState → List Diff → Option CState
  | st, [] => some st
  | st, (DiffType.DELETE, t) :: r =>
    if t = [] then runC st r
    else
      (runWf st.p1 t).bind fun q1 =>
        if st.sd then none else runC ⟨q1, st.p2, true, st.si⟩ r
  | st, (DiffType.INSERT, t) :: r =>
    if t = [] then runC st r
    else
      (runWf st.p2 t).bind fun q2 =>
        if st.si then none else runC ⟨st.p1, q2, st.sd, true⟩ r
  | st, (DiffType.EQUAL, t) :: r =>
    if t = [] then
      if st.p1 = false ∧ st.p2 = false then runC ⟨st.p1, st.p2, false, false⟩ r
      else none
    else
      (runWf st.p1 t).bind fun q1 =>
        (runWf st.p2 t).bind fun q2 => runC ⟨q1, q2, false, false⟩ r

theorem runC_append (st : CState) (a b : List Diff) :
    runC st (a ++ b) = (runC st a).bind (fun st2 => runC st2 b) := by
  induction a generalizing st with
  | nil => simp [runC]
  | cons e r ih =>
    obtain ⟨k, t⟩ := e
    by_cases ht : t = []
    · cases k with
      | DELETE => simp [runC, ht, ih]
      | INSERT => simp [runC, ht, ih]
      | EQUAL =>
        by_cases hp : st.p1 = false ∧ st.p2 = false
        · simp [runC, ht, hp, ih]
        · simp [runC, ht, hp]
    · cases k with
      | DELETE =>
        cases h1 : runWf st.p1 t with
        | none => simp [runC, ht, h1]
        | some q1 =>
          by_cases hsd : st.sd
          · simp [runC, ht, h1, hsd]
          · simp [runC, ht, h1, hsd, ih]
      | INSERT =>
        cases h2 : runWf st.p2 t with
        | none => simp [runC, ht, h2]
        | some q2 =>
          by_cases hsi : st.si
          · simp [runC, ht, h2, hsi]
          · simp [runC, ht, h2, hsi, ih]
      | EQUAL =>
        cases h1 : runWf st.p1 t with
        | none => simp [runC, ht, h1]
        | some q1 =>
          cases h2 : runWf st.p2 t with
          | none => simp [runC, ht, h1, h2]
          | some q2 => simp [runC, ht, h1, h2, ih]

theorem bind_eq_some_state {o : Option Bool} {f : Bool → Option CState} {stf : CState}
    (h : o.bind f = some stf) : ∃ q, o = some q ∧ f q = some stf := by
  cases o with
  | none => cases h
  | some q => exact ⟨q, rfl, h⟩

/-- The `p1` thread of `runC` is the well-formedness automaton run over the
source reconstruction. -/
theorem runC_text1 (d : List Diff) : ∀ st stf, runC st d = some stf →
    runWf st.p1 (text1 d) = some stf.p1 := by
  induction d with
  | nil =>
    intro st stf h
    rw [runC] at h
    cases h
    simp [text1, runWf]
  | cons e r ih =>
    intro st stf h
    obtain ⟨k, t⟩ := e
    by_cases ht : t = []
    · subst ht
      rw [text1_cons]
      cases k with
      | DELETE => rw [runC, if_pos rfl] at h; simpa using ih _ _ h
      | INSERT => rw [runC, if_pos rfl] at h; simpa using ih _ _ h
      | EQUAL =>
        rw [runC, if_pos rfl] at h
        split at h
        · simpa using ih _ _ h
        · cases h
    · rw [text1_cons]
      cases k with
      | DELETE =>
        rw [runC, if_neg ht] at h
        obtain ⟨q1, h1, h⟩ := bind_eq_some_state h
        rw [if_neg ?hsd] at h
        case hsd =>
          intro hsd
          rw [if_pos hsd] at h
          cases h
        · have := ih _ _ h
          rw [show (if ((DiffType.DELETE, t) : Diff).1 = DiffType.INSERT then ([] : Str)
            else t) = t from rfl, runWf_append, h1]
          simpa using this
      | INSERT =>
        rw [runC, if_neg ht] at h
        obtain ⟨q2, h2, h⟩ := bind_eq_some_state h
        rw [if_neg ?hsi] at h
        case hsi =>
          intro hsi
          rw [if_pos hsi] at h
          cases h
        · have := ih _ _ h
          simpa using this
      | EQUAL =>
        rw [runC, if_neg ht] at h
        obtain ⟨q1, h1, h⟩ := bind_eq_some_state h
        obtain ⟨q2, h2, h⟩ := bind_eq_some_state h
        have := ih _ _ h
        rw [show (if ((DiffType.EQUAL, t) : Diff).1 = DiffType.INSERT then ([] : Str)
          else t) = t from rfl, runWf_append, h1]
        simpa using this

/-- The `p2` thread of `runC` is the well-formedness automaton run over the
destination reconstruction. -/
theorem runC_text2 (d : List Diff) : ∀ st stf, runC st d = some stf →
    runWf st.p2 (text2 d) = some stf.p2 := by
  induction d with
  | nil =>
    intro st stf h
    rw [runC] at h
    cases h
    simp [text2, runWf]
  | cons e r ih =>
    intro st stf h
    obtain ⟨k, t⟩ := e
    by_cases ht : t = []
    · subst ht
      rw [text2_cons]
      cases k with
      | DELETE => rw [runC, if_pos rfl] at h; simpa using ih _ _ h
      | INSERT => rw [runC, if_pos rfl] at h; simpa using ih _ _ h
      | EQUAL =>
        rw [runC, if_pos rfl] at h
        split at h
        · simpa using ih _ _ h
        · cases h
    · rw [text2_cons]
      cases k with
      | INSERT =>
        rw [runC, if_neg ht] at h
        obtain ⟨q2, h2, h⟩ := bind_eq_some_state h
        rw [if_neg ?hsi] at h
        case hsi =>
          intro hsi
          rw [if_pos hsi] at h
          cases h
        · have := ih _ _ h
          rw [show (if ((DiffType.INSERT, t) : Diff).1 = DiffType.DELETE then ([] : Str)
            else t) = t from rfl, runWf_append, h2]
          simpa using this
      | DELETE =>
        rw [runC, if_neg ht] at h
        obtain ⟨q1, h1, h⟩ := bind_eq_some_state h
        rw [if_neg ?hsd] at h
        case hsd =>
          intro hsd
          rw [if_pos hsd] at h
          cases h
        · have := ih _ _ h
          simpa using this
      | EQUAL =>
        rw [runC, if_neg ht] at h
        obtain ⟨q1, h1, h⟩ := bind_eq_some_state h
        obtain ⟨q2, h2, h⟩ := bind_eq_some_state h
        have := ih _ _ h
        rw [show (if ((DiffType.EQUAL, t) : Diff).1 = DiffType.DELETE then ([] : Str)
          else t) = t from rfl, runWf_append, h2]
        simpa using this

/-- A pending source-text state (inside a run that already has its DELETE)
can never return to idle: the low surrogate would have to open an EQUAL or
a second DELETE, both excluded. -/
theorem no_pending_del_C (d : List Diff) : ∀ st stf, st.p1 = true → st.sd = true →
    runC st d = some stf → allEqualClean d → stf.p1 = true := by
  induction d with
  | nil =>
    intro st stf hp hsd h _
    rw [runC] at h
    cases h
    exact hp
  | cons e r ih =>
    intro st stf hp hsd h hC
    obtain ⟨k, t⟩ := e
    by_cases ht : t = []
    · subst ht
      cases k with
      | DELETE => rw [runC, if_pos rfl] at h; exact ih st stf hp hsd h (allEqualClean_tail hC)
      | INSERT => rw [runC, if_pos rfl] at h; exact ih st stf hp hsd h (allEqualClean_tail hC)
      | EQUAL =>
        rw [runC, if_pos rfl] at h
        rw [if_neg (by rw [hp]; simp)] at h
        cases h
    · cases k with
      | DELETE =>
        rw [runC, if_neg ht] at h
        obtain ⟨q1, h1, h⟩ := bind_eq_some_state h
        rw [if_pos hsd] at h
        cases h
      | INSERT =>
        rw [runC, if_neg ht] at h
        obtain ⟨q2, h2, h⟩ := bind_eq_some_state h
        by_cases hsi : st.si
        · rw [if_pos hsi] at h; cases h
        · rw [if_neg hsi] at h
          exact ih ⟨st.p1, q2, st.sd, true⟩ stf hp hsd h (allEqualClean_tail hC)
      | EQUAL =>
        rw [runC, if_neg ht] at h
        obtain ⟨q1, h1, h⟩ := bind_eq_some_state h
        exfalso
        have hclean : entryBoundaryClean t = true := hC (DiffType.EQUAL, t) (by simp) rfl
        obtain ⟨c, t2, rfl⟩ := cons_of_ne_nil ht
        have hnl : isLowSurrogate c = false := by
          simpa using clean_head_not_low hclean ht
        rw [hp, runWf, if_neg (by simp [hnl])] at h1
        cases h1

/-- Mirror image of `no_pending_del_C` for the destination text. -/
theorem no_pending_ins_C (d : List Diff) : ∀ st stf, st.p2 = true → st.si = true →
    runC st d = some stf → allEqualClean d → stf.p2 = true := by
  induction d with
  | nil =>
    intro st stf hp hsi h _
    rw [runC] at h
    cases h
    exact hp
  | cons e r ih =>
    intro st stf hp hsi h hC
    obtain ⟨k, t⟩ := e
    by_cases ht : t = []
    · subst ht
      cases k with
      | DELETE => rw [runC, if_pos rfl] at h; exact ih st stf hp hsi h (allEqualClean_tail hC)
      | INSERT => rw [runC, if_pos rfl] at h; exact ih st stf hp hsi h (allEqualClean_tail hC)
      | EQUAL =>
        rw [runC, if_pos rfl] at h
        rw [if_neg (by rw [hp]; simp)] at h
        cases h
    · cases k with
      | INSERT =>
        rw [runC, if_neg ht] at h
        obtain ⟨q2, h2, h⟩ := bind_eq_some_state h
        rw [if_pos hsi] at h
        cases h
      | DELETE =>
        rw [runC, if_neg ht] at h
        obtain ⟨q1, h1, h⟩ := bind_eq_some_state h
        by_cases hsd : st.sd
        · rw [if_pos hsd] at h; cases h
        · rw [if_neg hsd] at h
          exact ih ⟨q1, st.p2, true, st.si⟩ stf hp hsi h (allEqualClean_tail hC)
      | EQUAL =>
        rw [runC, if_neg ht] at h
        obtain ⟨q1, h1, h⟩ := bind_eq_some_state h
        obtain ⟨q2, h2, h⟩ := bind_eq_some_state h
        exfalso
        have hclean : entryBoundaryClean t = true := hC (DiffType.EQUAL, t) (by simp) rfl
        obtain ⟨c, t2, rfl⟩ := cons_of_ne_nil ht
        have hnl : isLowSurrogate c = false := by
          simpa using clean_head_not_low hclean ht
        rw [hp, runWf, if_neg (by simp [hnl])] at h2
        cases h2

/-- Static cleanliness: a script accepted by the combined automaton from an
idle-compatible state, ending idle, with all EQUAL entries boundary-clean,
is boundary-clean in every entry. -/
theorem allCleanC (d : List Diff) : ∀ st stf, runC st d = some stf →
    stf.p1 = false → stf.p2 = false → allEqualClean d →
    (st.p1 = true → st.sd = true) → (st.p2 = true → st.si = true) →
    ∀ e ∈ d, entryBoundaryClean e.2 = true := by
  induction d with
  | nil =>
    intro _ _ _ _ _ _ _ _ e he
    cases he
  | cons ent r ih =>
    intro st stf h hf1 hf2 hC hp1 hp2 e he
    obtain ⟨k, t⟩ := ent
    by_cases ht : t = []
    · subst ht
      rcases List.mem_cons.mp he with hme | hme
      · subst hme; rfl
      · cases k with
        | DELETE =>
          rw [runC, if_pos rfl] at h
          exact ih st stf h hf1 hf2 (allEqualClean_tail hC) hp1 hp2 e hme
        | INSERT =>
          rw [runC, if_pos rfl] at h
          exact ih st stf h hf1 hf2 (allEqualClean_tail hC) hp1 hp2 e hme
        | EQUAL =>
          rw [runC, if_pos rfl] at h
          by_cases hp : st.p1 = false ∧ st.p2 = false
          · rw [if_pos hp] at h
            exact ih _ stf h hf1 hf2 (allEqualClean_tail hC)
              (by intro hq; rw [hp.1] at hq; cases hq)
              (by intro hq; rw [hp.2] at hq; cases hq) e hme
          · rw [if_neg hp] at h
            cases h
    · cases k with
      | DELETE =>
        rw [runC, if_neg ht] at h
        obtain ⟨q1, h1, h⟩ := bind_eq_some_state h
        by_cases hsd : st.sd
        · rw [if_pos hsd] at h; cases h
        · rw [if_neg hsd] at h
          have hp1f : st.p1 = false := by
            cases hq : st.p1
            · rfl
            · exact absurd (hp1 hq) hsd
          rw [hp1f] at h1
          have hq1 : q1 = false := by
            cases hq : q1
            · rfl
            · subst hq
              have := no_pending_del_C r ⟨true, st.p2, true, st.si⟩ stf rfl rfl h
                (allEqualClean_tail hC)
              rw [hf1] at this
              cases this
          subst hq1
          rcases List.mem_cons.mp he with hme | hme
          · subst hme
            show entryBoundaryClean t = true
            obtain ⟨c, t2, rfl⟩ := cons_of_ne_nil ht
            have hhead : isLowSurrogate c = false := runWf_head_not_low c t2 false h1
            have hlast : isHighSurrogate ((c :: t2).getLastD 0) = false := by
              cases hq : isHighSurrogate ((c :: t2).getLastD 0)
              · rfl
              · cases runWf_high_last false false (c :: t2) h1 (by simp) hq
            rw [List.getLastD_eq_getLast?] at hlast
            simp [entryBoundaryClean, hhead, hlast]
          · exact ih _ stf h hf1 hf2 (allEqualClean_tail hC) (fun _ => rfl) hp2 e hme
      | INSERT =>
        rw [runC, if_neg ht] at h
        obtain ⟨q2, h2, h⟩ := bind_eq_some_state h
        by_cases hsi : st.si
        · rw [if_pos hsi] at h; cases h
        · rw [if_neg hsi] at h
          have hp2f : st.p2 = false := by
            cases hq : st.p2
            · rfl
            · exact absurd (hp2 hq) hsi
          rw [hp2f] at h2
          have hq2 : q2 = false := by
            cases hq : q2
            · rfl
            · subst hq
              have := no_pending_ins_C r ⟨st.p1, true, st.sd, true⟩ stf rfl rfl h
                (allEqualClean_tail hC)
              rw [hf2] at this
              cases this
          subst hq2
          rcases List.mem_cons.mp he with hme | hme
          · subst hme
            show entryBoundaryClean t = true
            obtain ⟨c, t2, rfl⟩ := cons_of_ne_nil ht
            have hhead : isLowSurrogate c = false := runWf_head_not_low c t2 false h2
            have hlast : isHighSurrogate ((c :: t2).getLastD 0) = false := by
              cases hq : isHighSurrogate ((c :: t2).getLastD 0)
              · rfl
              · cases runWf_high_last false false (c :: t2) h2 (by simp) hq
            rw [List.getLastD_eq_getLast?] at hlast
            simp [entryBoundaryClean, hhead, hlast]
          · exact ih _ stf h hf1 hf2 (allEqualClean_tail hC) hp1 (fun _ => rfl) e hme
      | EQUAL =>
        rw [runC, if_neg ht] at h
        obtain ⟨q1, h1, h⟩ := bind_eq_some_state h
        obtain ⟨q2, h2, h⟩ := bind_eq_some_state h
        have hclean : entryBoundaryClean t = true := hC (DiffType.EQUAL, t) (by simp) rfl
        have hq1 : q1 = false := by
          cases hq : q1
          · rfl
          · subst hq
            rcases runWf_last_high st.p1 t h1 with hnil | hhigh
            · exact absurd hnil ht
            · rw [clean_last_not_high hclean ht] at hhigh
              cases hhigh
        have hq2 : q2 = false := by
          cases hq : q2
          · rfl
          · subst hq
            rcases runWf_last_high st.p2 t h2 with hnil | hhigh
            · exact absurd hnil ht
            · rw [clean_last_not_high hclean ht] at hhigh
              cases hhigh
        subst hq1
        subst hq2
        rcases List.mem_cons.mp he with hme | hme
        · subst hme
          exact hclean
        · exact ih _ stf h hf1 hf2 (allEqualClean_tail hC)
            (by intro hq; cases hq) (by intro hq; cases hq) e hme

/-! Shape classification of the region a `deisolateChar` scan walks, and
the scan results on each shape. -/

/-- Every entry is empty or of kind `k` (the scan passes them without
changing its findings once `k` was found). -/
def emptyOrKind (k : DiffType) (l : List Diff) : Prop :=
  ∀ e ∈ l, e.2 = [] ∨ e.1 = k

theorem after_first_decomp (k : DiffType) (B1 : List Diff) :
    emptyOrKind k B1 ∨
    ∃ M y B2, B1 = M ++ y :: B2 ∧ emptyOrKind k M ∧ y.2 ≠ [] ∧ y.1 ≠ k := by
  induction B1 with
  | nil =>
    left
    intro x hx
    cases hx
  | cons e r ih =>
    by_cases he : e.2 = [] ∨ e.1 = k
    · rcases ih with h | ⟨M, y, B2, rfl, hM, hy, hyk⟩
      · left
        intro x hx
        rcases List.mem_cons.mp hx with hx | hx
        · subst hx; exact he
        · exact h x hx
      · right
        refine ⟨e :: M, y, B2, by simp, ?_, hy, hyk⟩
        intro x hx
        rcases List.mem_cons.mp hx with hx | hx
        · subst hx; exact he
        · exact hM x hx
    · push_neg at he
      right
      refine ⟨[], e, r, by simp, ?_, he.1, he.2⟩
      intro x hx
      cases hx

theorem scanShape (B : List Diff) :
    allEmpty B
  ∨ (∃ E0 u B2, B = E0 ++ (DiffType.EQUAL, u) :: B2 ∧ allEmpty E0 ∧ u ≠ [])
  ∨ (∃ E0 x M, B = E0 ++ x :: M ∧ allEmpty E0 ∧ x.2 ≠ [] ∧
      (x.1 = DiffType.DELETE ∨ x.1 = DiffType.INSERT) ∧ emptyOrKind x.1 M)
  ∨ (∃ E0 x M u B2, B = E0 ++ x :: (M ++ (DiffType.EQUAL, u) :: B2) ∧ allEmpty E0 ∧
      x.2 ≠ [] ∧ (x.1 = DiffType.DELETE ∨ x.1 = DiffType.INSERT) ∧
      emptyOrKind x.1 M ∧ u ≠ [])
  ∨ (∃ E0 x M y B2, B = E0 ++ x :: (M ++ y :: B2) ∧ allEmpty E0 ∧
      x.2 ≠ [] ∧ y.2 ≠ [] ∧ emptyOrKind x.1 M ∧
      ((x.1 = DiffType.DELETE ∧ y.1 = DiffType.INSERT) ∨
       (x.1 = DiffType.INSERT ∧ y.1 = DiffType.DELETE))) := by
  rcases first_nonempty_decomp B with h | ⟨E0, x, B1, rfl, hE0, hx⟩
  · exact Or.inl h
  · obtain ⟨kx, tx⟩ := x
    cases kx with
    | EQUAL => exact Or.inr (Or.inl ⟨E0, tx, B1, rfl, hE0, hx⟩)
    | DELETE =>
      rcases after_first_decomp DiffType.DELETE B1 with h | ⟨M, y, B2, rfl, hM, hy, hyk⟩
      · exact Or.inr (Or.inr (Or.inl ⟨E0, (DiffType.DELETE, tx), B1, rfl, hE0, hx,
          Or.inl rfl, h⟩))
      · obtain ⟨ky, ty⟩ := y
        cases ky with
        | EQUAL =>
          exact Or.inr (Or.inr (Or.inr (Or.inl ⟨E0, (DiffType.DELETE, tx), M, ty, B2,
            rfl, hE0, hx, Or.inl rfl, hM, hy⟩)))
        | DELETE => exact absurd rfl hyk
        | INSERT =>
          exact Or.inr (Or.inr (Or.inr (Or.inr ⟨E0, (DiffType.DELETE, tx), M,
            (DiffType.INSERT, ty), B2, rfl, hE0, hx, hy, hM, Or.inl ⟨rfl, rfl⟩⟩)))
    | INSERT =>
      rcases after_first_decomp DiffType.INSERT B1 with h | ⟨M, y, B2, rfl, hM, hy, hyk⟩
      · exact Or.inr (Or.inr (Or.inl ⟨E0, (DiffType.INSERT, tx), B1, rfl, hE0, hx,
          Or.inr rfl, h⟩))
      · obtain ⟨ky, ty⟩ := y
        cases ky with
        | EQUAL =>
          exact Or.inr (Or.inr (Or.inr (Or.inl ⟨E0, (DiffType.INSERT, tx), M, ty, B2,
            rfl, hE0, hx, Or.inr rfl, hM, hy⟩)))
        | INSERT => exact absurd rfl hyk
        | DELETE =>
          exact Or.inr (Or.inr (Or.inr (Or.inr ⟨E0, (DiffType.INSERT, tx), M,
            (DiffType.DELETE, ty), B2, rfl, hE0, hx, hy, hM, Or.inr ⟨rfl, rfl⟩⟩)))

theorem scanF_allEmpty_skip (E : List Diff) : ∀ (rest : List Diff) (j : Nat)
    (ins del : Option Nat), allEmpty E → (ins = none ∨ del = none) →
    scanF (E ++ rest) j ins del = scanF rest (j + E.length) ins del := by
  induction E with
  | nil => intro rest j ins del _ _; simp
  | cons e E2 ih =>
    intro rest j ins del hE hid
    rw [List.cons_append, scanF, if_neg (by tauto),
      if_pos (hE e (by simp)), ih rest (j + 1) ins del
        (fun x hx => hE x (by simp [hx])) hid]
    congr 1
    simp
    omega

theorem scanF_skip_found_del (M : List Diff) : ∀ (rest : List Diff) (j pd : Nat),
    emptyOrKind DiffType.DELETE M →
    scanF (M ++ rest) j none (some pd) = scanF rest (j + M.length) none (some pd) := by
  induction M with
  | nil => intro rest j pd _; simp
  | cons e M2 ih =>
    intro rest j pd hM
    have htail : emptyOrKind DiffType.DELETE M2 := fun x hx => hM x (by simp [hx])
    have hstep : scanF (e :: (M2 ++ rest)) j none (some pd) =
        scanF (M2 ++ rest) (j + 1) none (some pd) := by
      rcases hM e (by simp) with he | he
      · rw [scanF, if_neg (by simp), if_pos he]
      · obtain ⟨k, t⟩ := e
        by_cases ht : t = []
        · rw [scanF, if_neg (by simp), if_pos ht]
        · rw [scanF, if_neg (by simp), if_neg ht]
          simp only at he
          subst he
          rfl
    rw [List.cons_append, hstep, ih rest (j + 1) pd htail]
    congr 1
    simp
    omega

theorem scanF_skip_found_ins (M : List Diff) : ∀ (rest : List Diff) (j pi : Nat),
    emptyOrKind DiffType.INSERT M →
    scanF (M ++ rest) j (some pi) none = scanF rest (j + M.length) (some pi) none := by
  induction M with
  | nil => intro rest j pi _; simp
  | cons e M2 ih =>
    intro rest j pi hM
    have htail : emptyOrKind DiffType.INSERT M2 := fun x hx => hM x (by simp [hx])
    have hstep : scanF (e :: (M2 ++ rest)) j (some pi) none =
        scanF (M2 ++ rest) (j + 1) (some pi) none := by
      rcases hM e (by simp) with he | he
      · rw [scanF, if_neg (by simp), if_pos he]
      · obtain ⟨k, t⟩ := e
        by_cases ht : t = []
        · rw [scanF, if_neg (by simp), if_pos ht]
        · rw [scanF, if_neg (by simp), if_neg ht]
          simp only at he
          subst he
          rfl
    rw [List.cons_append, hstep, ih rest (j + 1) pi htail]
    congr 1
    simp
    omega

theorem scanF_both_found (L : List Diff) (j : Nat) (a b : Nat) :
    scanF L j (some a) (some b) = .stopped (j : Int) (some a) (some b) := by
  cases L with
  | nil => rfl
  | cons e r => rw [scanF, if_pos (by simp)]

theorem scanB_allEmpty_skip (E : List Diff) : ∀ (rest : List Diff) (j : Int)
    (ins del : Option Nat), allEmpty E → (ins = none ∨ del = none) →
    scanB (E ++ rest) j ins del = scanB rest (j - E.length) ins del := by
  induction E with
  | nil => intro rest j ins del _ _; simp
  | cons e E2 ih =>
    intro rest j ins del hE hid
    rw [List.cons_append, scanB, if_neg (by tauto),
      if_pos (hE e (by simp)), ih rest (j - 1) ins del
        (fun x hx => hE x (by simp [hx])) hid]
    congr 1
    simp
    ring

theorem scanB_skip_found_del (M : List Diff) : ∀ (rest : List Diff) (j : Int) (pd : Nat),
    emptyOrKind DiffType.DELETE M →
    scanB (M ++ rest) j none (some pd) = scanB rest (j - M.length) none (some pd) := by
  induction M with
  | nil => intro rest j pd _; simp
  | cons e M2 ih =>
    intro rest j pd hM
    have htail : emptyOrKind DiffType.DELETE M2 := fun x hx => hM x (by simp [hx])
    have hstep : scanB (e :: (M2 ++ rest)) j none (some pd) =
        scanB (M2 ++ rest) (j - 1) none (some pd) := by
      rcases hM e (by simp) with he | he
      · rw [scanB, if_neg (by simp), if_pos he]
      · obtain ⟨k, t⟩ := e
        by_cases ht : t = []
        · rw [scanB, if_neg (by simp), if_pos ht]
        · rw [scanB, if_neg (by simp), if_neg ht]
          simp only at he
          subst he
          rfl
    rw [List.cons_append, hstep, ih rest (j - 1) pd htail]
    congr 1
    simp
    ring

theorem scanB_skip_found_ins (M : List Diff) : ∀ (rest : List Diff) (j : Int) (pi : Nat),
    emptyOrKind DiffType.INSERT M →
    scanB (M ++ rest) j (some pi) none = scanB rest (j - M.length) (some pi) none := by
  induction M with
  | nil => intro rest j pi _; simp
  | cons e M2 ih =>
    intro rest j pi hM
    have htail : emptyOrKind DiffType.INSERT M2 := fun x hx => hM x (by simp [hx])
    have hstep : scanB (e :: (M2 ++ rest)) j (some pi) none =
        scanB (M2 ++ rest) (j - 1) (some pi) none := by
      rcases hM e (by simp) with he | he
      · rw [scanB, if_neg (by simp), if_pos he]
      · obtain ⟨k, t⟩ := e
        by_cases ht : t = []
        · rw [scanB, if_neg (by simp), if_pos ht]
        · rw [scanB, if_neg (by simp), if_neg ht]
          simp only at he
          subst he
          rfl
    rw [List.cons_append, hstep, ih rest (j - 1) pi htail]
    congr 1
    simp
    ring

theorem scanB_both_found (L : List Diff) (j : Int) (a b : Nat) :
    scanB L j (some a) (some b) = .stopped j (some a) (some b) := by
  cases L with
  | nil => rfl
  | cons e r => rw [scanB, if_pos (by simp)]

/-! Positional helpers for rewriting the repair surgery on a decomposed
script. -/

theorem getD_at_length (A : List Diff) (e : Diff) (B : List Diff) :
    (A ++ e :: B).getD A.length (DiffType.EQUAL, []) = e := by
  induction A with
  | nil => rfl
  | cons a A2 ih => simpa using ih

theorem set_at_length (A : List Diff) (e x : Diff) (B : List Diff) :
    (A ++ e :: B).set A.length x = A ++ x :: B := by
  induction A with
  | nil => rfl
  | cons a A2 ih => simpa using ih

theorem setEntryText_at_length (A : List Diff) (e : Diff) (B : List Diff) (t : Str) :
    setEntryText (A ++ e :: B) A.length t = A ++ (e.1, t) :: B := by
  unfold setEntryText
  rw [getD_at_length, set_at_length]

theorem insertIdx_at_length (A B : List Diff) (x : Diff) :
    (A ++ B).insertIdx A.length x = A ++ x :: B := by
  induction A with
  | nil => rfl
  | cons a A2 ih => simpa using ih

theorem spliceInsert_at (A B : List Diff) (x : Diff) :
    spliceInsert (A ++ B) (A.length : Int) x = A ++ x :: B := by
  unfold spliceInsert
  rw [if_neg (by omega), Int.toNat_natCast,
    min_eq_left (by simp), insertIdx_at_length]

theorem append_cons_assoc {α : Type} (A : List α) (x : α) (B C : List α) :
    A ++ x :: (B ++ C) = (A ++ x :: B) ++ C := by simp

theorem drop_length_sub_one (t : Str) (ht : t ≠ []) :
    t.drop (t.length - 1) = [t.getLastD 0] := by
  induction t with
  | nil => exact absurd rfl ht
  | cons c t2 ih =>
    cases t2 with
    | nil => simp [List.getLastD]
    | cons c2 r =>
      have := ih (by simp)
      rw [show (c :: c2 :: r).length - 1 = ((c2 :: r).length - 1) + 1 by simp,
        List.drop_succ_cons, this]
      simp [List.getLastD]

/-- The split of a non-empty text in the forward direction: everything but
the last character, and the last character alone. -/
theorem splitChar_fwd (t : Str) (ht : t ≠ []) :
    splitChar t 1 = (t.dropLast, [t.getLastD 0]) := by
  unfold splitChar
  rw [if_pos rfl, ← List.dropLast_eq_take, drop_length_sub_one t ht]

theorem splitChar_bwd (t : Str) :
    splitChar t (-1) = (t.drop 1, t.take 1) := by
  unfold splitChar
  rw [if_neg (by decide)]

theorem low_not_high (c : Nat) (h : isLowSurrogate c = true) :
    isHighSurrogate c = false := by
  unfold isLowSurrogate at h
  unfold isHighSurrogate
  simp only [Bool.and_eq_true, decide_eq_true_eq] at h
  simp only [Bool.and_eq_false_iff]
  right
  simp only [decide_eq_false_iff_not]
  omega

theorem runWf_single_high {s s2 : Bool} {c : Nat} (h : runWf s [c] = some s2)
    (hh : isHighSurrogate c = true) : s = false ∧ s2 = true := by
  cases s with
  | true =>
    rw [runWf, if_neg (by simp [high_not_low c hh])] at h
    cases h
  | false =>
    rw [runWf, if_pos hh, runWf] at h
    cases h
    exact ⟨rfl, rfl⟩

theorem runWf_true_head {c : Nat} {r : Str} {s2 : Bool}
    (h : runWf true (c :: r) = some s2) : isLowSurrogate c = true := by
  by_cases hl : isLowSurrogate c
  · exact hl
  · rw [runWf, if_neg hl] at h
    cases h

theorem runWf_true_cons {c : Nat} {r : Str} (hl : isLowSurrogate c = true) :
    runWf true (c :: r) = runWf false r := by
  rw [runWf, if_pos hl]

theorem runWf_false_cons_high {c : Nat} {r : Str} (hh : isHighSurrogate c = true) :
    runWf false (c :: r) = runWf true r := by
  rw [runWf, if_pos hh]

theorem dropLast_append_getLastD (t : Str) (ht : t ≠ []) :
    t.dropLast ++ [t.getLastD 0] = t := by
  rw [List.getLastD_eq_getLast?, List.getLast?_eq_getLast t ht]
  exact List.dropLast_append_getLast ht

/-- Peeling a trailing high surrogate off an accepted text leaves the
automaton idle just before it. -/
theorem peel_last {s : Bool} {t : Str} (h : runWf s t = some true) (ht : t ≠ [])
    (hh : isHighSurrogate (t.getLastD 0) = true) : runWf s t.dropLast = some false := by
  have hsplit := dropLast_append_getLastD t ht
  rw [← hsplit, runWf_append] at h
  cases hq : runWf s t.dropLast with
  | none => rw [hq] at h; cases h
  | some s1 =>
    rw [hq] at h
    simp only [Option.some_bind] at h
    rcases runWf_single_high h hh with ⟨hf, _⟩
    rw [hf]

theorem take_one_head (t : Str) (ht : t ≠ []) : t.take 1 = [t.headD 0] := by
  cases t with
  | nil => exact absurd rfl ht
  | cons c r => simp

theorem head_cons_drop (t : Str) (ht : t ≠ []) : t.headD 0 :: t.drop 1 = t := by
  cases t with
  | nil => exact absurd rfl ht
  | cons c r => simp

/-- Number of EQUAL-kind entries (the adjust loop's fuel accounting: only
EQUAL entries can trigger splices, and splices never add EQUAL entries). -/
def countEq (l : List Diff) : Nat :=
  (l.filter (fun e => e.1 = DiffType.EQUAL)).length

theorem countEq_append (a b : List Diff) : countEq (a ++ b) = countEq a + countEq b := by
  unfold countEq
  rw [List.filter_append, List.length_append]

theorem countEq_cons (e : Diff) (l : List Diff) :
    countEq (e :: l) = (if e.1 = DiffType.EQUAL then 1 else 0) + countEq l := by
  unfold countEq
  by_cases h : e.1 = DiffType.EQUAL
  · simp [List.filter_cons, h, Nat.add_comm]
  · simp [List.filter_cons, h]

/-- Empty entries keep both text threads of the combined automaton. -/
theorem runC_allEmpty_p (E : List Diff) : ∀ st st2, allEmpty E →
    runC st E = some st2 → st2.p1 = st.p1 ∧ st2.p2 = st.p2 := by
  induction E with
  | nil =>
    intro st st2 _ h
    rw [runC] at h
    cases h
    exact ⟨rfl, rfl⟩
  | cons e r ih =>
    intro st st2 hE h
    obtain ⟨k, t⟩ := e
    have ht : t = [] := hE (k, t) (by simp)
    subst ht
    have htail : allEmpty r := fun x hx => hE x (by simp [hx])
    cases k with
    | DELETE => rw [runC, if_pos rfl] at h; exact ih st st2 htail h
    | INSERT => rw [runC, if_pos rfl] at h; exact ih st st2 htail h
    | EQUAL =>
      rw [runC, if_pos rfl] at h
      by_cases hp : st.p1 = false ∧ st.p2 = false
      · rw [if_pos hp] at h
        exact ih ⟨st.p1, st.p2, false, false⟩ st2 htail h
      · rw [if_neg hp] at h
        cases h

/-- From the fully idle state, empty entries are fully transparent. -/
theorem runC_allEmpty_idle (E : List Diff) (hE : allEmpty E) :
    runC ⟨false, false, false, false⟩ E = some ⟨false, false, false, false⟩ := by
  induction E with
  | nil => rfl
  | cons e r ih =>
    obtain ⟨k, t⟩ := e
    have ht : t = [] := hE (k, t) (by simp)
    subst ht
    have htail : allEmpty r := fun x hx => hE x (by simp [hx])
    cases k with
    | DELETE => rw [runC, if_pos rfl]; exact ih htail
    | INSERT => rw [runC, if_pos rfl]; exact ih htail
    | EQUAL =>
      rw [runC, if_pos rfl, if_pos (by exact ⟨rfl, rfl⟩)]
      exact ih htail

/-- Entries that are empty and not EQUAL barriers pass any state through
unchanged. -/
theorem transparent_runC (M : List Diff) : ∀ st,
    (∀ e ∈ M, e.2 = [] ∧ e.1 ≠ DiffType.EQUAL) → runC st M = some st := by
  induction M with
  | nil => intro st _; rfl
  | cons e r ih =>
    intro st hM
    obtain ⟨k, t⟩ := e
    obtain ⟨ht, hk⟩ := hM (k, t) (by simp)
    simp only at ht hk
    subst ht
    have htail : ∀ e ∈ r, e.2 = [] ∧ e.1 ≠ DiffType.EQUAL :=
      fun x hx => hM x (by simp [hx])
    cases k with
    | DELETE => rw [runC, if_pos rfl]; exact ih st htail
    | INSERT => rw [runC, if_pos rfl]; exact ih st htail
    | EQUAL => exact absurd rfl hk

/-- Inside a run that already holds its DELETE, with the destination thread
pending, a stretch of empty-or-DELETE entries accepted by the automaton must
be fully transparent. -/
theorem runC_kindTransD (M : List Diff) : ∀ st st2, emptyOrKind DiffType.DELETE M →
    st.sd = true → st.p2 = true → runC st M = some st2 →
    st2 = st ∧ ∀ e ∈ M, e.2 = [] ∧ e.1 ≠ DiffType.EQUAL := by
  induction M with
  | nil =>
    intro st st2 _ _ _ h
    rw [runC] at h
    cases h
    exact ⟨rfl, fun x hx => by cases hx⟩
  | cons e r ih =>
    intro st st2 hM hsd hp2 h
    obtain ⟨k, t⟩ := e
    have htail : emptyOrKind DiffType.DELETE r := fun x hx => hM x (by simp [hx])
    by_cases ht : t = []
    · subst ht
      cases k with
      | DELETE =>
        rw [runC, if_pos rfl] at h
        obtain ⟨h1, h2⟩ := ih st st2 htail hsd hp2 h
        exact ⟨h1, fun x hx => by
          rcases List.mem_cons.mp hx with hx | hx
          · subst hx; exact ⟨rfl, by simp⟩
          · exact h2 x hx⟩
      | INSERT =>
        rw [runC, if_pos rfl] at h
        obtain ⟨h1, h2⟩ := ih st st2 htail hsd hp2 h
        exact ⟨h1, fun x hx => by
          rcases List.mem_cons.mp hx with hx | hx
          · subst hx; exact ⟨rfl, by simp⟩
          · exact h2 x hx⟩
      | EQUAL =>
        rw [runC, if_pos rfl, if_neg (by rw [hp2]; simp)] at h
        cases h
    · rcases hM (k, t) (by simp) with he | he
      · exact absurd he ht
      · simp only at he
        subst he
        rw [runC, if_neg ht] at h
        obtain ⟨q1, h1, h⟩ := bind_eq_some_state h
        rw [if_pos hsd] at h
        cases h

/-- Mirror image of `runC_kindTransD` for empty-or-INSERT stretches. -/
theorem runC_kindTransI (M : List Diff) : ∀ st st2, emptyOrKind DiffType.INSERT M →
    st.si = true → st.p1 = true → runC st M = some st2 →
    st2 = st ∧ ∀ e ∈ M, e.2 = [] ∧ e.1 ≠ DiffType.EQUAL := by
  induction M with
  | nil =>
    intro st st2 _ _ _ h
    rw [runC] at h
    cases h
    exact ⟨rfl, fun x hx => by cases hx⟩
  | cons e r ih =>
    intro st st2 hM hsi hp1 h
    obtain ⟨k, t⟩ := e
    have htail : emptyOrKind DiffType.INSERT r := fun x hx => hM x (by simp [hx])
    by_cases ht : t = []
    · subst ht
      cases k with
      | DELETE =>
        rw [runC, if_pos rfl] at h
        obtain ⟨h1, h2⟩ := ih st st2 htail hsi hp1 h
        exact ⟨h1, fun x hx => by
          rcases List.mem_cons.mp hx with hx | hx
          · subst hx; exact ⟨rfl, by simp⟩
          · exact h2 x hx⟩
      | INSERT =>
        rw [runC, if_pos rfl] at h
        obtain ⟨h1, h2⟩ := ih st st2 htail hsi hp1 h
        exact ⟨h1, fun x hx => by
          rcases List.mem_cons.mp hx with hx | hx
          · subst hx; exact ⟨rfl, by simp⟩
          · exact h2 x hx⟩
      | EQUAL =>
        rw [runC, if_pos rfl, if_neg (by rw [hp1]; simp)] at h
        cases h
    · rcases hM (k, t) (by simp) with he | he
      · exact absurd he ht
      · simp only at he
        subst he
        rw [runC, if_neg ht] at h
        obtain ⟨q2, h2, h⟩ := bind_eq_some_state h
        rw [if_pos hsi] at h
        cases h

/-- Acceptance by the combined automaton is monotone in the run flags: a
state with the same text threads but fewer flags set accepts at least as
much, with the same final text threads. -/
theorem runC_mono (d : List Diff) : ∀ (p1 p2 sd si sd2 si2 : Bool) stf,
    runC ⟨p1, p2, sd, si⟩ d = some stf →
    (sd2 = true → sd = true) → (si2 = true → si = true) →
    ∃ stf2, runC ⟨p1, p2, sd2, si2⟩ d = some stf2 ∧
      stf2.p1 = stf.p1 ∧ stf2.p2 = stf.p2 := by
  induction d with
  | nil =>
    intro p1 p2 sd si sd2 si2 stf h _ _
    rw [runC] at h
    cases h
    exact ⟨⟨p1, p2, sd2, si2⟩, rfl, rfl, rfl⟩
  | cons e r ih =>
    intro p1 p2 sd si sd2 si2 stf h hsd hsi
    obtain ⟨k, t⟩ := e
    by_cases ht : t = []
    · subst ht
      cases k with
      | DELETE =>
        rw [runC, if_pos rfl] at h
        obtain ⟨stf2, h2, hp⟩ := ih p1 p2 sd si sd2 si2 stf h hsd hsi
        exact ⟨stf2, by rw [runC, if_pos rfl]; exact h2, hp⟩
      | INSERT =>
        rw [runC, if_pos rfl] at h
        obtain ⟨stf2, h2, hp⟩ := ih p1 p2 sd si sd2 si2 stf h hsd hsi
        exact ⟨stf2, by rw [runC, if_pos rfl]; exact h2, hp⟩
      | EQUAL =>
        rw [runC, if_pos rfl] at h
        by_cases hp : p1 = false ∧ p2 = false
        · rw [if_pos (by simpa using hp)] at h
          obtain ⟨stf2, h2, hpr⟩ := ih p1 p2 false false false false stf h
            (fun q => q) (fun q => q)
          exact ⟨stf2, by rw [runC, if_pos rfl, if_pos (by simpa using hp)]; exact h2, hpr⟩
        · rw [if_neg (by simpa using hp)] at h
          cases h
    · cases k with
      | DELETE =>
        rw [runC, if_neg ht] at h
        obtain ⟨q1, h1, h⟩ := bind_eq_some_state h
        by_cases hq : sd
        · rw [if_pos (by simpa using hq)] at h
          cases h
        · rw [if_neg (by simpa using hq)] at h
          have hq2 : sd2 = false := by
            cases hv : sd2
            · rfl
            · exact absurd (hsd hv) (by simpa using hq)
          obtain ⟨stf2, h2, hpr⟩ := ih q1 p2 true si true si2 stf h
            (fun q => q) hsi
          refine ⟨stf2, ?_, hpr⟩
          rw [runC, if_neg ht]
          show ((runWf p1 t).bind fun q =>
            if sd2 = true then none else runC ⟨q, p2, true, si2⟩ r) = some stf2
          rw [h1]
          simp only [Option.some_bind]
          rw [if_neg (by rw [hq2]; simp)]
          exact h2
      | INSERT =>
        rw [runC, if_neg ht] at h
        obtain ⟨q2, h1, h⟩ := bind_eq_some_state h
        by_cases hq : si
        · rw [if_pos (by simpa using hq)] at h
          cases h
        · rw [if_neg (by simpa using hq)] at h
          have hq2 : si2 = false := by
            cases hv : si2
            · rfl
            · exact absurd (hsi hv) (by simpa using hq)
          obtain ⟨stf2, h2, hpr⟩ := ih p1 q2 sd true sd2 true stf h
            hsd (fun q => q)
          refine ⟨stf2, ?_, hpr⟩
          rw [runC, if_neg ht]
          show ((runWf p2 t).bind fun q =>
            if si2 = true then none else runC ⟨p1, q, sd2, true⟩ r) = some stf2
          rw [h1]
          simp only [Option.some_bind]
          rw [if_neg (by rw [hq2]; simp)]
          exact h2
      | EQUAL =>
        rw [runC, if_neg ht] at h
        obtain ⟨q1, h1, h⟩ := bind_eq_some_state h
        obtain ⟨q2, h2, h⟩ := bind_eq_some_state h
        obtain ⟨stf2, h3, hpr⟩ := ih q1 q2 false false false false stf h
          (fun q => q) (fun q => q)
        refine ⟨stf2, ?_, hpr⟩
        rw [runC, if_neg ht]
        show ((runWf p1 t).bind fun qa => (runWf p2 t).bind fun qb =>
          runC ⟨qa, qb, false, false⟩ r) = some stf2
        rw [h1]
        simp only [Option.some_bind]
        rw [h2]
        simp only [Option.some_bind]
        exact h3

theorem bind_eq_some_opt {α β : Type} {o : Option α} {f : α → Option β} {b : β}
    (h : o.bind f = some b) : ∃ a, o = some a ∧ f a = some b := by
  cases o with
  | none => cases h
  | some a => exact ⟨a, rfl, h⟩

/-- Postcondition of a forward repair step at an EQUAL entry: the prefix is
untouched, the entry keeps its kind and either lost its last character or
gained a trailing low surrogate, the tail grew by at most two entries and no
EQUAL entries, and the combined automaton still accepts, ending idle. -/
def FwdPost (A : List Diff) (t : Str) (B : List Diff) (st : CState) : Prop :=
  ∃ t2 B2,
    deisolateChar (A ++ (DiffType.EQUAL, t) :: B) A.length 1 =
      A ++ (DiffType.EQUAL, t2) :: B2 ∧
    (t2 = t.dropLast ∨ ∃ c, t2 = t ++ [c] ∧ isLowSurrogate c = true) ∧
    B2.length ≤ B.length + 2 ∧
    countEq B2 = countEq B ∧
    ∃ stf2, runC st ((DiffType.EQUAL, t2) :: B2) = some stf2 ∧
      stf2.p1 = false ∧ stf2.p2 = false

theorem fwd_contra_allEmpty (t : Str) (B : List Diff) (st stf : CState)
    (ht : t ≠ []) (hhigh : isHighSurrogate (t.getLastD 0) = true)
    (hrun : runC st ((DiffType.EQUAL, t) :: B) = some stf) (hf1 : stf.p1 = false)
    (hB : allEmpty B) : False := by
  rw [runC, if_neg ht] at hrun
  obtain ⟨q1, hq1, hrun⟩ := bind_eq_some_opt hrun
  obtain ⟨q2, hq2, hrun⟩ := bind_eq_some_opt hrun
  have hq1t : q1 = true := runWf_high_last st.p1 q1 t hq1 ht hhigh
  obtain ⟨hp1, _⟩ := runC_allEmpty_p B ⟨q1, q2, false, false⟩ stf hB hrun
  rw [hf1, hq1t] at hp1
  cases hp1

theorem fwd_contra_delOnly (t : Str) (E0 M : List Diff) (tx : Str) (st stf : CState)
    (ht : t ≠ []) (hhigh : isHighSurrogate (t.getLastD 0) = true)
    (hrun : runC st ((DiffType.EQUAL, t) ::
      (E0 ++ (DiffType.DELETE, tx) :: M)) = some stf)
    (hf2 : stf.p2 = false) (hE0 : allEmpty E0) (htx : tx ≠ [])
    (hM : emptyOrKind DiffType.DELETE M) : False := by
  rw [runC, if_neg ht] at hrun
  obtain ⟨q1, hq1, hrun⟩ := bind_eq_some_opt hrun
  obtain ⟨q2, hq2, hrun⟩ := bind_eq_some_opt hrun
  have hq2t : q2 = true := runWf_high_last st.p2 q2 t hq2 ht hhigh
  rw [runC_append] at hrun
  obtain ⟨stE, hE, hrun⟩ := bind_eq_some_opt hrun
  obtain ⟨_, hp2E⟩ := runC_allEmpty_p E0 ⟨q1, q2, false, false⟩ stE hE0 hE
  rw [runC, if_neg htx] at hrun
  obtain ⟨q1b, hq1b, hrun⟩ := bind_eq_some_opt hrun
  by_cases hsd : stE.sd
  · rw [if_pos hsd] at hrun
    cases hrun
  · rw [if_neg hsd] at hrun
    obtain ⟨hst, _⟩ := runC_kindTransD M ⟨q1b, stE.p2, true, stE.si⟩ stf hM rfl
      (by rw [hp2E, hq2t]) hrun
    have : stf.p2 = stE.p2 := by rw [hst]
    rw [hf2, hp2E, hq2t] at this
    cases this

theorem fwd_contra_insOnly (t : Str) (E0 M : List Diff) (tx : Str) (st stf : CState)
    (ht : t ≠ []) (hhigh : isHighSurrogate (t.getLastD 0) = true)
    (hrun : runC st ((DiffType.EQUAL, t) ::
      (E0 ++ (DiffType.INSERT, tx) :: M)) = some stf)
    (hf1 : stf.p1 = false) (hE0 : allEmpty E0) (htx : tx ≠ [])
    (hM : emptyOrKind DiffType.INSERT M) : False := by
  rw [runC, if_neg ht] at hrun
  obtain ⟨q1, hq1, hrun⟩ := bind_eq_some_opt hrun
  obtain ⟨q2, hq2, hrun⟩ := bind_eq_some_opt hrun
  have hq1t : q1 = true := runWf_high_last st.p1 q1 t hq1 ht hhigh
  rw [runC_append] at hrun
  obtain ⟨stE, hE, hrun⟩ := bind_eq_some_opt hrun
  obtain ⟨hp1E, _⟩ := runC_allEmpty_p E0 ⟨q1, q2, false, false⟩ stE hE0 hE
  rw [runC, if_neg htx] at hrun
  obtain ⟨q2b, hq2b, hrun⟩ := bind_eq_some_opt hrun
  by_cases hsi : stE.si
  · rw [if_pos hsi] at hrun
    cases hrun
  · rw [if_neg hsi] at hrun
    obtain ⟨hst, _⟩ := runC_kindTransI M ⟨stE.p1, q2b, stE.sd, true⟩ stf hM rfl
      (by rw [hp1E, hq1t]) hrun
    have : stf.p1 = stE.p1 := by rw [hst]
    rw [hf1, hp1E, hq1t] at this
    cases this

/-- The moveToEqual branch of `deisolateChar` (two consecutive EQUAL
entries). -/
def moveBranch (d : List Diff) (i : Nat) (dir inv : Int) (j : Int) : List Diff :=
  let s := splitChar (d.getD i (DiffType.EQUAL, [])).2 dir
  let d1 := setEntryText d i s.1
  setEntryText d1 j.toNat (combineChar (d1.getD j.toNat (DiffType.EQUAL, [])).2 s.2 inv)

/-- The shared-character branch of `deisolateChar`. -/
def sharedBranch (d : List Diff) (i insIdx delIdx : Nat) (dir inv : Int) : List Diff :=
  let si := splitChar (d.getD insIdx (DiffType.EQUAL, [])).2 inv
  let sd := splitChar (d.getD delIdx (DiffType.EQUAL, [])).2 inv
  let d1 := setEntryText d insIdx si.1
  let d2 := setEntryText d1 delIdx sd.1
  setEntryText d2 i (combineChar (d2.getD i (DiffType.EQUAL, [])).2 si.2 dir)

theorem deisolateChar_fwd_eq (d : List Diff) (i : Nat) :
    deisolateChar d i 1 =
      match deisolateScan d 1 (d.length + 2) ((i : Int) + 1) none none with
      | .moveToEqual j => moveBranch d i 1 (-1) j
      | .stopped j ins del =>
        match ins, del with
        | some insIdx, some delIdx =>
          if hasSharedChar d insIdx delIdx 1 then sharedBranch d i insIdx delIdx 1 (-1)
          else deisolateGeneral d i 1 (-1) j ins del
        | _, _ => deisolateGeneral d i 1 (-1) j ins del := by
  unfold deisolateChar moveBranch sharedBranch
  cases h : deisolateScan d 1 (d.length + 2) ((i : Int) + 1) none none with
  | moveToEqual j => rfl
  | stopped j ins del => cases ins <;> cases del <;> rfl

theorem deisolateChar_bwd_eq (d : List Diff) (i : Nat) :
    deisolateChar d i (-1) =
      match deisolateScan d (-1) (d.length + 2) ((i : Int) - 1) none none with
      | .moveToEqual j => moveBranch d i (-1) 1 j
      | .stopped j ins del =>
        match ins, del with
        | some insIdx, some delIdx =>
          if hasSharedChar d insIdx delIdx (-1) then sharedBranch d i insIdx delIdx (-1) 1
          else deisolateGeneral d i (-1) 1 j ins del
        | _, _ => deisolateGeneral d i (-1) 1 j ins del := by
  unfold deisolateChar moveBranch sharedBranch
  rw [show ((i : Int) + (-1)) = ((i : Int) - 1) by ring]
  cases h : deisolateScan d (-1) (d.length + 2) ((i : Int) - 1) none none with
  | moveToEqual j => rfl
  | stopped j ins del => cases ins <;> cases del <;> rfl

theorem fwd_moveToEqual_post (A : List Diff) (t : Str) (E0 : List Diff) (u : Str)
    (B2C : List Diff) (st stf : CState)
    (ht : t ≠ []) (hhigh : isHighSurrogate (t.getLastD 0) = true)
    (hrun : runC st ((DiffType.EQUAL, t) ::
      (E0 ++ (DiffType.EQUAL, u) :: B2C)) = some stf)
    (hf1 : stf.p1 = false) (hf2 : stf.p2 = false)
    (hE0 : allEmpty E0) (hu : u ≠ []) :
    FwdPost A t (E0 ++ (DiffType.EQUAL, u) :: B2C) st := by
  rw [runC, if_neg ht] at hrun
  obtain ⟨q1, hq1, hrun⟩ := bind_eq_some_opt hrun
  obtain ⟨q2, hq2, hrun⟩ := bind_eq_some_opt hrun
  have hq1t : q1 = true := runWf_high_last st.p1 q1 t hq1 ht hhigh
  have hq2t : q2 = true := runWf_high_last st.p2 q2 t hq2 ht hhigh
  subst hq1t
  subst hq2t
  rw [runC_append] at hrun
  obtain ⟨stE, hE, hrun⟩ := bind_eq_some_opt hrun
  obtain ⟨hp1E, hp2E⟩ := runC_allEmpty_p E0 ⟨true, true, false, false⟩ stE hE0 hE
  rw [runC, if_neg hu] at hrun
  obtain ⟨qu1, hqu1, hrun⟩ := bind_eq_some_opt hrun
  obtain ⟨qu2, hqu2, hrun⟩ := bind_eq_some_opt hrun
  rw [hp1E] at hqu1
  rw [hp2E] at hqu2
  have hqu12 : qu1 = qu2 := by
    rw [hqu1] at hqu2
    cases hqu2
    rfl
  subst hqu12
  have hpeel1 : runWf st.p1 t.dropLast = some false := peel_last hq1 ht hhigh
  have hpeel2 : runWf st.p2 t.dropLast = some false := peel_last hq2 ht hhigh
  have hdrop : (A ++ (DiffType.EQUAL, t) :: (E0 ++ (DiffType.EQUAL, u) :: B2C)).drop
      (A.length + 1) = E0 ++ (DiffType.EQUAL, u) :: B2C := by
    rw [show A ++ (DiffType.EQUAL, t) :: (E0 ++ (DiffType.EQUAL, u) :: B2C) =
      (A ++ [(DiffType.EQUAL, t)]) ++ (E0 ++ (DiffType.EQUAL, u) :: B2C) by simp,
      show A.length + 1 = (A ++ [(DiffType.EQUAL, t)]).length by simp,
      List.drop_left]
  have hscan : deisolateScan
      (A ++ (DiffType.EQUAL, t) :: (E0 ++ (DiffType.EQUAL, u) :: B2C)) 1
      ((A ++ (DiffType.EQUAL, t) :: (E0 ++ (DiffType.EQUAL, u) :: B2C)).length + 2)
      ((A.length : Int) + 1) none none =
      ScanResult.moveToEqual ((A.length + 1 + E0.length : Nat) : Int) := by
    rw [show ((A.length : Int) + 1) = ((A.length + 1 : Nat) : Int) by push_cast; ring]
    rw [deisolateScan_eq_scanF _ _ (A.length + 1) none none (by simp) (by omega)]
    rw [hdrop]
    rw [scanF_allEmpty_skip E0 _ (A.length + 1) none none hE0 (Or.inl rfl)]
    rw [scanF, if_neg (by simp), if_neg hu]
    show (if (none : Option Nat) = none ∧ (none : Option Nat) = none then
        ScanResult.moveToEqual ((A.length + 1 + E0.length : Nat) : Int)
      else ScanResult.stopped ((A.length + 1 + E0.length : Nat) : Int) none none) = _
    rw [if_pos (And.intro rfl rfl)]
  have hstep : deisolateChar
      (A ++ (DiffType.EQUAL, t) :: (E0 ++ (DiffType.EQUAL, u) :: B2C)) A.length 1 =
      A ++ (DiffType.EQUAL, t.dropLast) ::
        (E0 ++ (DiffType.EQUAL, [t.getLastD 0] ++ u) :: B2C) := by
    rw [deisolateChar_fwd_eq, hscan]
    show moveBranch _ A.length 1 (-1) ((A.length + 1 + E0.length : Nat) : Int) = _
    unfold moveBranch
    rw [getD_at_length, splitChar_fwd t ht]
    simp only []
    rw [setEntryText_at_length, Int.toNat_natCast]
    rw [append_cons_assoc]
    rw [show A.length + 1 + E0.length =
      (A ++ (DiffType.EQUAL, t.dropLast) :: E0).length by
        simp only [List.length_append, List.length_cons]
        omega]
    rw [getD_at_length, setEntryText_at_length]
    rw [combineChar, if_neg (by decide)]
    rw [← append_cons_assoc]
  refine ⟨t.dropLast, E0 ++ (DiffType.EQUAL, [t.getLastD 0] ++ u) :: B2C, hstep,
    Or.inl rfl, by simp, ?_, ?_⟩
  · rw [countEq_append, countEq_append, countEq_cons, countEq_cons]
  · refine ⟨stf, ?_, hf1, hf2⟩
    have hcons : ([t.getLastD 0] ++ u : Str) ≠ [] := by simp
    have hbody : runC ⟨false, false, false, false⟩
        (E0 ++ (DiffType.EQUAL, [t.getLastD 0] ++ u) :: B2C) = some stf := by
      rw [runC_append, runC_allEmpty_idle E0 hE0]
      simp only [Option.some_bind]
      rw [runC, if_neg hcons]
      rw [show ([t.getLastD 0] ++ u : Str) = t.getLastD 0 :: u from by simp]
      show ((runWf false (t.getLastD 0 :: u)).bind fun qa =>
        (runWf false (t.getLastD 0 :: u)).bind fun qb =>
          runC ⟨qa, qb, false, false⟩ B2C) = some stf
      rw [runWf_false_cons_high hhigh, hqu1]
      simp only [Option.some_bind]
      exact hrun
    by_cases htd : t.dropLast = []
    · have hsingle : t = [t.getLastD 0] := by
        conv_lhs => rw [← dropLast_append_getLastD t ht]
        rw [htd]
        simp
      have hst1 : st.p1 = false := by
        rw [hsingle] at hq1
        exact (runWf_single_high hq1 hhigh).1
      have hst2 : st.p2 = false := by
        rw [hsingle] at hq2
        exact (runWf_single_high hq2 hhigh).1
      rw [runC, if_pos htd, if_pos ⟨hst1, hst2⟩, hst1, hst2]
      exact hbody
    · rw [runC, if_neg htd]
      show ((runWf st.p1 t.dropLast).bind fun qa =>
        (runWf st.p2 t.dropLast).bind fun qb =>
          runC ⟨qa, qb, false, false⟩
            (E0 ++ (DiffType.EQUAL, [t.getLastD 0] ++ u) :: B2C)) = some stf
      rw [hpeel1, hpeel2]
      simp only [Option.some_bind]
      exact hbody

theorem fwd_spliceIns_post (A : List Diff) (t : Str) (E0 : List Diff) (tx : Str)
    (M : List Diff) (u : Str) (B2C : List Diff) (st stf : CState)
    (ht : t ≠ []) (hhigh : isHighSurrogate (t.getLastD 0) = true)
    (hrun : runC st ((DiffType.EQUAL, t) ::
      (E0 ++ (DiffType.DELETE, tx) :: (M ++ (DiffType.EQUAL, u) :: B2C))) = some stf)
    (hf1 : stf.p1 = false) (hf2 : stf.p2 = false)
    (hE0 : allEmpty E0) (htx : tx ≠ []) (hM : emptyOrKind DiffType.DELETE M)
    (hu : u ≠ []) :
    FwdPost A t (E0 ++ (DiffType.DELETE, tx) :: (M ++ (DiffType.EQUAL, u) :: B2C)) st := by
  rw [runC, if_neg ht] at hrun
  obtain ⟨q1, hq1, hrun⟩ := bind_eq_some_opt hrun
  obtain ⟨q2, hq2, hrun⟩ := bind_eq_some_opt hrun
  have hq1t : q1 = true := runWf_high_last st.p1 q1 t hq1 ht hhigh
  have hq2t : q2 = true := runWf_high_last st.p2 q2 t hq2 ht hhigh
  subst hq1t
  subst hq2t
  rw [runC_append] at hrun
  obtain ⟨stE, hE, hrun⟩ := bind_eq_some_opt hrun
  obtain ⟨hp1E, hp2E⟩ := runC_allEmpty_p E0 ⟨true, true, false, false⟩ stE hE0 hE
  have hp1E2 : stE.p1 = true := hp1E
  have hp2E2 : stE.p2 = true := hp2E
  rw [runC, if_neg htx] at hrun
  obtain ⟨q1b, hq1b, hrun⟩ := bind_eq_some_opt hrun
  by_cases hsd : stE.sd
  · rw [if_pos hsd] at hrun
    cases hrun
  rw [if_neg hsd] at hrun
  rw [runC_append] at hrun
  obtain ⟨stM, hMr, hrun⟩ := bind_eq_some_opt hrun
  obtain ⟨hstM, hMtrans⟩ := runC_kindTransD M ⟨q1b, stE.p2, true, stE.si⟩ stM hM rfl
    hp2E2 hMr
  subst hstM
  rw [runC, if_neg hu] at hrun
  obtain ⟨qu1, hqu1, hrun⟩ := bind_eq_some_opt hrun
  obtain ⟨qu2, hqu2, hrun⟩ := bind_eq_some_opt hrun
  rw [hp1E2] at hq1b
  have hqu2b : runWf true u = some qu2 := by
    rw [← hp2E2]
    exact hqu2
  have hpeel1 : runWf st.p1 t.dropLast = some false := peel_last hq1 ht hhigh
  have hpeel2 : runWf st.p2 t.dropLast = some false := peel_last hq2 ht hhigh
  have hdrop : (A ++ (DiffType.EQUAL, t) ::
      (E0 ++ (DiffType.DELETE, tx) :: (M ++ (DiffType.EQUAL, u) :: B2C))).drop
      (A.length + 1) = E0 ++ (DiffType.DELETE, tx) :: (M ++ (DiffType.EQUAL, u) :: B2C) := by
    rw [show A ++ (DiffType.EQUAL, t) ::
        (E0 ++ (DiffType.DELETE, tx) :: (M ++ (DiffType.EQUAL, u) :: B2C)) =
      (A ++ [(DiffType.EQUAL, t)]) ++
        (E0 ++ (DiffType.DELETE, tx) :: (M ++ (DiffType.EQUAL, u) :: B2C)) by simp,
      show A.length + 1 = (A ++ [(DiffType.EQUAL, t)]).length by simp,
      List.drop_left]
  have hscan : deisolateScan (A ++ (DiffType.EQUAL, t) ::
      (E0 ++ (DiffType.DELETE, tx) :: (M ++ (DiffType.EQUAL, u) :: B2C))) 1
      ((A ++ (DiffType.EQUAL, t) ::
        (E0 ++ (DiffType.DELETE, tx) :: (M ++ (DiffType.EQUAL, u) :: B2C))).length + 2)
      ((A.length : Int) + 1) none none =
      ScanResult.stopped ((A.length + 1 + E0.length + 1 + M.length : Nat) : Int)
        none (some (A.length + 1 + E0.length)) := by
    rw [show ((A.length : Int) + 1) = ((A.length + 1 : Nat) : Int) by push_cast; ring]
    rw [deisolateScan_eq_scanF _ _ (A.length + 1) none none (by simp) (by omega)]
    rw [hdrop]
    rw [scanF_allEmpty_skip E0 _ (A.length + 1) none none hE0 (Or.inl rfl)]
    rw [scanF, if_neg (by simp), if_neg htx]
    show scanF (M ++ (DiffType.EQUAL, u) :: B2C) (A.length + 1 + E0.length + 1) none
      (if (none : Option Nat) = none then some (A.length + 1 + E0.length) else none) = _
    rw [if_pos rfl]
    rw [scanF_skip_found_del M _ (A.length + 1 + E0.length + 1) (A.length + 1 + E0.length) hM]
    rw [scanF, if_neg (by simp), if_neg hu]
    show (if (none : Option Nat) = none ∧ (some (A.length + 1 + E0.length) : Option Nat) = none
      then ScanResult.moveToEqual ((A.length + 1 + E0.length + 1 + M.length : Nat) : Int)
      else ScanResult.stopped ((A.length + 1 + E0.length + 1 + M.length : Nat) : Int) none
        (some (A.length + 1 + E0.length))) = _
    rw [if_neg (by simp)]
  have hstep : deisolateChar (A ++ (DiffType.EQUAL, t) ::
      (E0 ++ (DiffType.DELETE, tx) :: (M ++ (DiffType.EQUAL, u) :: B2C))) A.length 1 =
      A ++ (DiffType.EQUAL, t.dropLast) ::
        (E0 ++ (DiffType.DELETE, [t.getLastD 0] ++ tx) ::
          (M ++ (DiffType.INSERT, [t.getLastD 0]) :: (DiffType.EQUAL, u) :: B2C)) := by
    rw [deisolateChar_fwd_eq, hscan]
    show deisolateGeneral _ A.length 1 (-1)
      ((A.length + 1 + E0.length + 1 + M.length : Nat) : Int) none
      (some (A.length + 1 + E0.length)) = _
    unfold deisolateGeneral
    rw [getD_at_length, splitChar_fwd t ht]
    simp only []
    rw [setEntryText_at_length]
    rw [if_neg (show ¬(((A.length + 1 + E0.length + 1 + M.length : Nat) : Int) ≤
      ((A.length + 1 + E0.length : Nat) : Int)) by push_cast; omega)]
    simp only []
    rw [append_cons_assoc, append_cons_assoc]
    rw [show ((A.length + 1 + E0.length + 1 + M.length : Nat) : Int) =
      (((A ++ (DiffType.EQUAL, t.dropLast) :: E0) ++ (DiffType.DELETE, tx) :: M).length : Int) by
        simp only [List.length_append, List.length_cons]
        push_cast
        ring]
    rw [spliceInsert_at]
    rw [← append_cons_assoc (A ++ (DiffType.EQUAL, t.dropLast) :: E0) (DiffType.DELETE, tx) M]
    rw [show A.length + 1 + E0.length = (A ++ (DiffType.EQUAL, t.dropLast) :: E0).length by
      simp only [List.length_append, List.length_cons]
      omega]
    rw [getD_at_length, setEntryText_at_length]
    rw [combineChar, if_neg (by decide)]
    rw [← append_cons_assoc]
  refine ⟨t.dropLast,
    E0 ++ (DiffType.DELETE, [t.getLastD 0] ++ tx) ::
      (M ++ (DiffType.INSERT, [t.getLastD 0]) :: (DiffType.EQUAL, u) :: B2C), hstep,
    Or.inl rfl, by simp; omega, ?_, ?_⟩
  · simp only [countEq_append, countEq_cons]
    simp
  · refine ⟨stf, ?_, hf1, hf2⟩
    have hbody : runC ⟨false, false, false, false⟩
        (E0 ++ (DiffType.DELETE, [t.getLastD 0] ++ tx) ::
          (M ++ (DiffType.INSERT, [t.getLastD 0]) :: (DiffType.EQUAL, u) :: B2C)) =
        some stf := by
      rw [runC_append, runC_allEmpty_idle E0 hE0]
      simp only [Option.some_bind]
      rw [runC, if_neg (by simp)]
      show ((runWf false ([t.getLastD 0] ++ tx)).bind fun q =>
        if false = true then none else runC ⟨q, false, true, false⟩
          (M ++ (DiffType.INSERT, [t.getLastD 0]) :: (DiffType.EQUAL, u) :: B2C)) = some stf
      rw [show ([t.getLastD 0] ++ tx : Str) = t.getLastD 0 :: tx from by simp]
      rw [runWf_false_cons_high hhigh, hq1b]
      simp only [Option.some_bind]
      rw [if_neg (by simp)]
      rw [runC_append, transparent_runC M ⟨q1b, false, true, false⟩ hMtrans]
      simp only [Option.some_bind]
      rw [runC, if_neg (by simp)]
      show ((runWf false [t.getLastD 0]).bind fun q =>
        if false = true then none else runC ⟨q1b, q, true, true⟩
          ((DiffType.EQUAL, u) :: B2C)) = some stf
      rw [show runWf false [t.getLastD 0] = some true from by
        rw [runWf_false_cons_high hhigh]; rfl]
      simp only [Option.some_bind]
      rw [if_neg (by simp)]
      rw [runC, if_neg hu]
      show ((runWf q1b u).bind fun qa => (runWf true u).bind fun qb =>
        runC ⟨qa, qb, false, false⟩ B2C) = some stf
      rw [hqu1]
      simp only [Option.some_bind]
      rw [hqu2b]
      simp only [Option.some_bind]
      exact hrun
    by_cases htd : t.dropLast = []
    · have hsingle : t = [t.getLastD 0] := by
        conv_lhs => rw [← dropLast_append_getLastD t ht]
        rw [htd]
        simp
      have hst1 : st.p1 = false := by
        rw [hsingle] at hq1
        exact (runWf_single_high hq1 hhigh).1
      have hst2 : st.p2 = false := by
        rw [hsingle] at hq2
        exact (runWf_single_high hq2 hhigh).1
      rw [runC, if_pos htd, if_pos ⟨hst1, hst2⟩, hst1, hst2]
      exact hbody
    · rw [runC, if_neg htd]
      show ((runWf st.p1 t.dropLast).bind fun qa =>
        (runWf st.p2 t.dropLast).bind fun qb =>
          runC ⟨qa, qb, false, false⟩
            (E0 ++ (DiffType.DELETE, [t.getLastD 0] ++ tx) ::
              (M ++ (DiffType.INSERT, [t.getLastD 0]) ::
                (DiffType.EQUAL, u) :: B2C))) = some stf
      rw [hpeel1, hpeel2]
      simp only [Option.some_bind]
      exact hbody

theorem fwd_spliceDel_post (A : List Diff) (t : Str) (E0 : List Diff) (tx : Str)
    (M : List Diff) (u : Str) (B2C : List Diff) (st stf : CState)
    (ht : t ≠ []) (hhigh : isHighSurrogate (t.getLastD 0) = true)
    (hrun : runC st ((DiffType.EQUAL, t) ::
      (E0 ++ (DiffType.INSERT, tx) :: (M ++ (DiffType.EQUAL, u) :: B2C))) = some stf)
    (hf1 : stf.p1 = false) (hf2 : stf.p2 = false)
    (hE0 : allEmpty E0) (htx : tx ≠ []) (hM : emptyOrKind DiffType.INSERT M)
    (hu : u ≠ []) :
    FwdPost A t (E0 ++ (DiffType.INSERT, tx) :: (M ++ (DiffType.EQUAL, u) :: B2C)) st := by
  rw [runC, if_neg ht] at hrun
  obtain ⟨q1, hq1, hrun⟩ := bind_eq_some_opt hrun
  obtain ⟨q2, hq2, hrun⟩ := bind_eq_some_opt hrun
  have hq1t : q1 = true := runWf_high_last st.p1 q1 t hq1 ht hhigh
  have hq2t : q2 = true := runWf_high_last st.p2 q2 t hq2 ht hhigh
  subst hq1t
  subst hq2t
  rw [runC_append] at hrun
  obtain ⟨stE, hE, hrun⟩ := bind_eq_some_opt hrun
  obtain ⟨hp1E, hp2E⟩ := runC_allEmpty_p E0 ⟨true, true, false, false⟩ stE hE0 hE
  have hp1E2 : stE.p1 = true := hp1E
  have hp2E2 : stE.p2 = true := hp2E
  rw [runC, if_neg htx] at hrun
  obtain ⟨q2b, hq2b, hrun⟩ := bind_eq_some_opt hrun
  by_cases hsi : stE.si
  · rw [if_pos hsi] at hrun
    cases hrun
  rw [if_neg hsi] at hrun
  rw [runC_append] at hrun
  obtain ⟨stM, hMr, hrun⟩ := bind_eq_some_opt hrun
  obtain ⟨hstM, hMtrans⟩ := runC_kindTransI M ⟨stE.p1, q2b, stE.sd, true⟩ stM hM rfl
    hp1E2 hMr
  subst hstM
  rw [runC, if_neg hu] at hrun
  obtain ⟨qu1, hqu1, hrun⟩ := bind_eq_some_opt hrun
  obtain ⟨qu2, hqu2, hrun⟩ := bind_eq_some_opt hrun
  rw [hp2E2] at hq2b
  have hqu1b : runWf true u = some qu1 := by
    rw [← hp1E2]
    exact hqu1
  have hpeel1 : runWf st.p1 t.dropLast = some false := peel_last hq1 ht hhigh
  have hpeel2 : runWf st.p2 t.dropLast = some false := peel_last hq2 ht hhigh
  have hdrop : (A ++ (DiffType.EQUAL, t) ::
      (E0 ++ (DiffType.INSERT, tx) :: (M ++ (DiffType.EQUAL, u) :: B2C))).drop
      (A.length + 1) = E0 ++ (DiffType.INSERT, tx) :: (M ++ (DiffType.EQUAL, u) :: B2C) := by
    rw [show A ++ (DiffType.EQUAL, t) ::
        (E0 ++ (DiffType.INSERT, tx) :: (M ++ (DiffType.EQUAL, u) :: B2C)) =
      (A ++ [(DiffType.EQUAL, t)]) ++
        (E0 ++ (DiffType.INSERT, tx) :: (M ++ (DiffType.EQUAL, u) :: B2C)) by simp,
      show A.length + 1 = (A ++ [(DiffType.EQUAL, t)]).length by simp,
      List.drop_left]
  have hscan : deisolateScan (A ++ (DiffType.EQUAL, t) ::
      (E0 ++ (DiffType.INSERT, tx) :: (M ++ (DiffType.EQUAL, u) :: B2C))) 1
      ((A ++ (DiffType.EQUAL, t) ::
        (E0 ++ (DiffType.INSERT, tx) :: (M ++ (DiffType.EQUAL, u) :: B2C))).length + 2)
      ((A.length : Int) + 1) none none =
      ScanResult.stopped ((A.length + 1 + E0.length + 1 + M.length : Nat) : Int)
        (some (A.length + 1 + E0.length)) none := by
    rw [show ((A.length : Int) + 1) = ((A.length + 1 : Nat) : Int) by push_cast; ring]
    rw [deisolateScan_eq_scanF _ _ (A.length + 1) none none (by simp) (by omega)]
    rw [hdrop]
    rw [scanF_allEmpty_skip E0 _ (A.length + 1) none none hE0 (Or.inl rfl)]
    rw [scanF, if_neg (by simp), if_neg htx]
    show scanF (M ++ (DiffType.EQUAL, u) :: B2C) (A.length + 1 + E0.length + 1)
      (if (none : Option Nat) = none then some (A.length + 1 + E0.length) else none)
      none = _
    rw [if_pos rfl]
    rw [scanF_skip_found_ins M _ (A.length + 1 + E0.length + 1) (A.length + 1 + E0.length) hM]
    rw [scanF, if_neg (by simp), if_neg hu]
    show (if (some (A.length + 1 + E0.length) : Option Nat) = none ∧
        (none : Option Nat) = none
      then ScanResult.moveToEqual ((A.length + 1 + E0.length + 1 + M.length : Nat) : Int)
      else ScanResult.stopped ((A.length + 1 + E0.length + 1 + M.length : Nat) : Int)
        (some (A.length + 1 + E0.length)) none) = _
    rw [if_neg (by simp)]
  have hstep : deisolateChar (A ++ (DiffType.EQUAL, t) ::
      (E0 ++ (DiffType.INSERT, tx) :: (M ++ (DiffType.EQUAL, u) :: B2C))) A.length 1 =
      A ++ (DiffType.EQUAL, t.dropLast) ::
        (E0 ++ (DiffType.INSERT, [t.getLastD 0] ++ tx) ::
          (M ++ (DiffType.DELETE, [t.getLastD 0]) :: (DiffType.EQUAL, u) :: B2C)) := by
    rw [deisolateChar_fwd_eq, hscan]
    show deisolateGeneral _ A.length 1 (-1)
      ((A.length + 1 + E0.length + 1 + M.length : Nat) : Int)
      (some (A.length + 1 + E0.length)) none = _
    unfold deisolateGeneral
    rw [getD_at_length, splitChar_fwd t ht]
    simp only []
    rw [setEntryText_at_length]
    rw [append_cons_assoc]
    rw [show A.length + 1 + E0.length = (A ++ (DiffType.EQUAL, t.dropLast) :: E0).length by
      simp only [List.length_append, List.length_cons]
      omega]
    rw [getD_at_length, setEntryText_at_length]
    rw [combineChar, if_neg (by decide)]
    rw [append_cons_assoc]
    rw [show ((A ++ (DiffType.EQUAL, t.dropLast) :: E0).length + 1 + M.length : Nat) =
      (((A ++ (DiffType.EQUAL, t.dropLast) :: E0) ++
        (DiffType.INSERT, [t.getLastD 0] ++ tx) :: M)).length by
      simp only [List.length_append, List.length_cons]
      omega]
    rw [spliceInsert_at]
    rw [← append_cons_assoc, ← append_cons_assoc]
  refine ⟨t.dropLast,
    E0 ++ (DiffType.INSERT, [t.getLastD 0] ++ tx) ::
      (M ++ (DiffType.DELETE, [t.getLastD 0]) :: (DiffType.EQUAL, u) :: B2C), hstep,
    Or.inl rfl, by simp; omega, ?_, ?_⟩
  · simp only [countEq_append, countEq_cons]
    simp
  · refine ⟨stf, ?_, hf1, hf2⟩
    have hbody : runC ⟨false, false, false, false⟩
        (E0 ++ (DiffType.INSERT, [t.getLastD 0] ++ tx) ::
          (M ++ (DiffType.DELETE, [t.getLastD 0]) :: (DiffType.EQUAL, u) :: B2C)) =
        some stf := by
      rw [runC_append, runC_allEmpty_idle E0 hE0]
      simp only [Option.some_bind]
      rw [runC, if_neg (by simp)]
      show ((runWf false ([t.getLastD 0] ++ tx)).bind fun q =>
        if false = true then none else runC ⟨false, q, false, true⟩
          (M ++ (DiffType.DELETE, [t.getLastD 0]) :: (DiffType.EQUAL, u) :: B2C)) = some stf
      rw [show ([t.getLastD 0] ++ tx : Str) = t.getLastD 0 :: tx from by simp]
      rw [runWf_false_cons_high hhigh, hq2b]
      simp only [Option.some_bind]
      rw [if_neg (by simp)]
      rw [runC_append, transparent_runC M ⟨false, q2b, false, true⟩ hMtrans]
      simp only [Option.some_bind]
      rw [runC, if_neg (by simp)]
      show ((runWf false [t.getLastD 0]).bind fun q =>
        if false = true then none else runC ⟨q, q2b, true, true⟩
          ((DiffType.EQUAL, u) :: B2C)) = some stf
      rw [show runWf false [t.getLastD 0] = some true from by
        rw [runWf_false_cons_high hhigh]; rfl]
      simp only [Option.some_bind]
      rw [if_neg (by simp)]
      rw [runC, if_neg hu]
      show ((runWf true u).bind fun qa => (runWf q2b u).bind fun qb =>
        runC ⟨qa, qb, false, false⟩ B2C) = some stf
      rw [hqu1b]
      simp only [Option.some_bind]
      rw [show runWf q2b u = some qu2 from hqu2]
      simp only [Option.some_bind]
      exact hrun
    by_cases htd : t.dropLast = []
    · have hsingle : t = [t.getLastD 0] := by
        conv_lhs => rw [← dropLast_append_getLastD t ht]
        rw [htd]
        simp
      have hst1 : st.p1 = false := by
        rw [hsingle] at hq1
        exact (runWf_single_high hq1 hhigh).1
      have hst2 : st.p2 = false := by
        rw [hsingle] at hq2
        exact (runWf_single_high hq2 hhigh).1
      rw [runC, if_pos htd, if_pos ⟨hst1, hst2⟩, hst1, hst2]
      exact hbody
    · rw [runC, if_neg htd]
      show ((runWf st.p1 t.dropLast).bind fun qa =>
        (runWf st.p2 t.dropLast).bind fun qb =>
          runC ⟨qa, qb, false, false⟩
            (E0 ++ (DiffType.INSERT, [t.getLastD 0] ++ tx) ::
              (M ++ (DiffType.DELETE, [t.getLastD 0]) ::
                (DiffType.EQUAL, u) :: B2C))) = some stf
      rw [hpeel1, hpeel2]
      simp only [Option.some_bind]
      exact hbody

theorem runC_del_entry (w : Str) (rest : List Diff) (p2 si : Bool) (qw : Bool)
    (hw : runWf false w = some qw) (hqw : w = [] → qw = false) :
    runC ⟨false, p2, false, si⟩ ((DiffType.DELETE, w) :: rest) =
      runC ⟨qw, p2, (if w = [] then false else true), si⟩ rest := by
  by_cases hempty : w = []
  · rw [runC, if_pos hempty, if_pos hempty]
    rw [hqw hempty]
  · rw [runC, if_neg hempty]
    show ((runWf false w).bind fun q =>
      if false = true then none else runC ⟨q, p2, true, si⟩ rest) = _
    rw [hw]
    simp only [Option.some_bind]
    rw [if_neg (by simp), if_neg hempty]

theorem runC_ins_entry (w : Str) (rest : List Diff) (p1 sd : Bool) (qw : Bool)
    (hw : runWf false w = some qw) (hqw : w = [] → qw = false) :
    runC ⟨p1, false, sd, false⟩ ((DiffType.INSERT, w) :: rest) =
      runC ⟨p1, qw, sd, (if w = [] then false else true)⟩ rest := by
  by_cases hempty : w = []
  · rw [runC, if_pos hempty, if_pos hempty]
    rw [hqw hempty]
  · rw [runC, if_neg hempty]
    show ((runWf false w).bind fun q =>
      if false = true then none else runC ⟨p1, q, sd, true⟩ rest) = _
    rw [hw]
    simp only [Option.some_bind]
    rw [if_neg (by simp), if_neg hempty]

theorem runWf_true_single_low {c : Nat} (hl : isLowSurrogate c = true) :
    runWf true [c] = some false := by
  rw [runWf_true_cons hl]
  rfl

theorem getD_second (A : List Diff) (e : Diff) (Bm : List Diff) (f : Diff)
    (C : List Diff) :
    (A ++ e :: (Bm ++ f :: C)).getD (A.length + 1 + Bm.length) (DiffType.EQUAL, []) = f := by
  rw [append_cons_assoc]
  rw [show A.length + 1 + Bm.length = (A ++ e :: Bm).length by
    simp only [List.length_append, List.length_cons]
    omega]
  exact getD_at_length _ _ _

theorem setEntryText_second (A : List Diff) (e : Diff) (Bm : List Diff) (f : Diff)
    (C : List Diff) (w : Str) :
    setEntryText (A ++ e :: (Bm ++ f :: C)) (A.length + 1 + Bm.length) w =
      A ++ e :: (Bm ++ (f.1, w) :: C) := by
  rw [append_cons_assoc]
  rw [show A.length + 1 + Bm.length = (A ++ e :: Bm).length by
    simp only [List.length_append, List.length_cons]
    omega]
  rw [setEntryText_at_length, ← append_cons_assoc]

theorem getD_third (A : List Diff) (e1 : Diff) (E : List Diff) (e2 : Diff)
    (M : List Diff) (e3 : Diff) (C : List Diff) :
    (A ++ e1 :: (E ++ e2 :: (M ++ e3 :: C))).getD
      (A.length + 1 + E.length + 1 + M.length) (DiffType.EQUAL, []) = e3 := by
  rw [append_cons_assoc, append_cons_assoc]
  rw [show A.length + 1 + E.length + 1 + M.length =
    ((A ++ e1 :: E) ++ e2 :: M).length by
    simp only [List.length_append, List.length_cons]
    omega]
  exact getD_at_length _ _ _

theorem setEntryText_third (A : List Diff) (e1 : Diff) (E : List Diff) (e2 : Diff)
    (M : List Diff) (e3 : Diff) (C : List Diff) (w : Str) :
    setEntryText (A ++ e1 :: (E ++ e2 :: (M ++ e3 :: C)))
      (A.length + 1 + E.length + 1 + M.length) w =
      A ++ e1 :: (E ++ e2 :: (M ++ (e3.1, w) :: C)) := by
  rw [append_cons_assoc, append_cons_assoc]
  rw [show A.length + 1 + E.length + 1 + M.length =
    ((A ++ e1 :: E) ++ e2 :: M).length by
    simp only [List.length_append, List.length_cons]
    omega]
  rw [setEntryText_at_length, ← append_cons_assoc, ← append_cons_assoc]

theorem fwd_both_delIns_post (A : List Diff) (t : Str) (E0 : List Diff) (tx : Str)
    (M : List Diff) (ty : Str) (B2C : List Diff) (st stf : CState)
    (ht : t ≠ []) (hhigh : isHighSurrogate (t.getLastD 0) = true)
    (hrun : runC st ((DiffType.EQUAL, t) ::
      (E0 ++ (DiffType.DELETE, tx) :: (M ++ (DiffType.INSERT, ty) :: B2C))) = some stf)
    (hf1 : stf.p1 = false) (hf2 : stf.p2 = false)
    (hE0 : allEmpty E0) (htx : tx ≠ []) (hM : emptyOrKind DiffType.DELETE M)
    (hty : ty ≠ []) :
    FwdPost A t (E0 ++ (DiffType.DELETE, tx) :: (M ++ (DiffType.INSERT, ty) :: B2C)) st := by
  rw [runC, if_neg ht] at hrun
  obtain ⟨q1, hq1, hrun⟩ := bind_eq_some_opt hrun
  obtain ⟨q2, hq2, hrun⟩ := bind_eq_some_opt hrun
  have hq1t : q1 = true := runWf_high_last st.p1 q1 t hq1 ht hhigh
  have hq2t : q2 = true := runWf_high_last st.p2 q2 t hq2 ht hhigh
  subst hq1t
  subst hq2t
  rw [runC_append] at hrun
  obtain ⟨stE, hE, hrun⟩ := bind_eq_some_opt hrun
  obtain ⟨hp1E, hp2E⟩ := runC_allEmpty_p E0 ⟨true, true, false, false⟩ stE hE0 hE
  have hp1E2 : stE.p1 = true := hp1E
  have hp2E2 : stE.p2 = true := hp2E
  rw [runC, if_neg htx] at hrun
  obtain ⟨q1b, hq1b, hrun⟩ := bind_eq_some_opt hrun
  by_cases hsd : stE.sd
  · rw [if_pos hsd] at hrun
    cases hrun
  rw [if_neg hsd] at hrun
  rw [runC_append] at hrun
  obtain ⟨stM, hMr, hrun⟩ := bind_eq_some_opt hrun
  obtain ⟨hstM, hMtrans⟩ := runC_kindTransD M ⟨q1b, stE.p2, true, stE.si⟩ stM hM rfl
    hp2E2 hMr
  subst hstM
  rw [runC, if_neg hty] at hrun
  obtain ⟨q2b, hq2b, hrun⟩ := bind_eq_some_opt hrun
  by_cases hsi : stE.si
  · rw [if_pos hsi] at hrun
    cases hrun
  rw [if_neg hsi] at hrun
  rw [hp1E2] at hq1b
  have hq2bt : runWf true ty = some q2b := by
    rw [← hp2E2]
    exact hq2b
  have hpeel1 : runWf st.p1 t.dropLast = some false := peel_last hq1 ht hhigh
  have hpeel2 : runWf st.p2 t.dropLast = some false := peel_last hq2 ht hhigh
  have hdrop : (A ++ (DiffType.EQUAL, t) ::
      (E0 ++ (DiffType.DELETE, tx) :: (M ++ (DiffType.INSERT, ty) :: B2C))).drop
      (A.length + 1) = E0 ++ (DiffType.DELETE, tx) :: (M ++ (DiffType.INSERT, ty) :: B2C) := by
    rw [show A ++ (DiffType.EQUAL, t) ::
        (E0 ++ (DiffType.DELETE, tx) :: (M ++ (DiffType.INSERT, ty) :: B2C)) =
      (A ++ [(DiffType.EQUAL, t)]) ++
        (E0 ++ (DiffType.DELETE, tx) :: (M ++ (DiffType.INSERT, ty) :: B2C)) by simp,
      show A.length + 1 = (A ++ [(DiffType.EQUAL, t)]).length by simp,
      List.drop_left]
  have hscan : deisolateScan (A ++ (DiffType.EQUAL, t) ::
      (E0 ++ (DiffType.DELETE, tx) :: (M ++ (DiffType.INSERT, ty) :: B2C))) 1
      ((A ++ (DiffType.EQUAL, t) ::
        (E0 ++ (DiffType.DELETE, tx) :: (M ++ (DiffType.INSERT, ty) :: B2C))).length + 2)
      ((A.length : Int) + 1) none none =
      ScanResult.stopped ((A.length + 1 + E0.length + 1 + M.length + 1 : Nat) : Int)
        (some (A.length + 1 + E0.length + 1 + M.length))
        (some (A.length + 1 + E0.length)) := by
    rw [show ((A.length : Int) + 1) = ((A.length + 1 : Nat) : Int) by push_cast; ring]
    rw [deisolateScan_eq_scanF _ _ (A.length + 1) none none (by simp) (by omega)]
    rw [hdrop]
    rw [scanF_allEmpty_skip E0 _ (A.length + 1) none none hE0 (Or.inl rfl)]
    rw [scanF, if_neg (by simp), if_neg htx]
    show scanF (M ++ (DiffType.INSERT, ty) :: B2C) (A.length + 1 + E0.length + 1) none
      (if (none : Option Nat) = none then some (A.length + 1 + E0.length) else none) = _
    rw [if_pos rfl]
    rw [scanF_skip_found_del M _ (A.length + 1 + E0.length + 1) (A.length + 1 + E0.length) hM]
    rw [scanF, if_neg (by simp), if_neg hty]
    show scanF B2C (A.length + 1 + E0.length + 1 + M.length + 1)
      (if (none : Option Nat) = none then some (A.length + 1 + E0.length + 1 + M.length)
        else none)
      (some (A.length + 1 + E0.length)) = _
    rw [if_pos rfl]
    rw [scanF_both_found]
  by_cases hsh : hasSharedChar (A ++ (DiffType.EQUAL, t) ::
      (E0 ++ (DiffType.DELETE, tx) :: (M ++ (DiffType.INSERT, ty) :: B2C)))
      (A.length + 1 + E0.length + 1 + M.length) (A.length + 1 + E0.length) 1 = true
  · -- shared-character branch
    have hq2bt2 := hq2bt
    rw [← head_cons_drop ty hty] at hq2bt2
    have hcilow : isLowSurrogate (ty.headD 0) = true := runWf_true_head hq2bt2
    have hq2bd : runWf false (ty.drop 1) = some q2b := by
      rw [runWf_true_cons hcilow] at hq2bt2
      exact hq2bt2
    have hq1bt2 := hq1b
    rw [← head_cons_drop tx htx] at hq1bt2
    have hcdlow : isLowSurrogate (tx.headD 0) = true := runWf_true_head hq1bt2
    have hq1bd : runWf false (tx.drop 1) = some q1b := by
      rw [runWf_true_cons hcdlow] at hq1bt2
      exact hq1bt2
    have hq1bnil : tx.drop 1 = [] → q1b = false := by
      intro hnil
      rw [hnil] at hq1bd
      rw [show runWf false [] = some false from rfl] at hq1bd
      cases hq1bd
      rfl
    have hq2bnil : ty.drop 1 = [] → q2b = false := by
      intro hnil
      rw [hnil] at hq2bd
      rw [show runWf false [] = some false from rfl] at hq2bd
      cases hq2bd
      rfl
    have hwf1ci : runWf st.p1 (t ++ [ty.headD 0]) = some false := by
      rw [runWf_append, hq1]
      simp only [Option.some_bind]
      exact runWf_true_single_low hcilow
    have hwf2ci : runWf st.p2 (t ++ [ty.headD 0]) = some false := by
      rw [runWf_append, hq2]
      simp only [Option.some_bind]
      exact runWf_true_single_low hcilow
    have hstep : deisolateChar (A ++ (DiffType.EQUAL, t) ::
        (E0 ++ (DiffType.DELETE, tx) :: (M ++ (DiffType.INSERT, ty) :: B2C))) A.length 1 =
        A ++ (DiffType.EQUAL, t ++ [ty.headD 0]) ::
          (E0 ++ (DiffType.DELETE, tx.drop 1) ::
            (M ++ (DiffType.INSERT, ty.drop 1) :: B2C)) := by
      rw [deisolateChar_fwd_eq, hscan]
      show (if hasSharedChar (A ++ (DiffType.EQUAL, t) ::
          (E0 ++ (DiffType.DELETE, tx) :: (M ++ (DiffType.INSERT, ty) :: B2C)))
          (A.length + 1 + E0.length + 1 + M.length) (A.length + 1 + E0.length) 1 = true
        then sharedBranch (A ++ (DiffType.EQUAL, t) ::
          (E0 ++ (DiffType.DELETE, tx) :: (M ++ (DiffType.INSERT, ty) :: B2C)))
          A.length (A.length + 1 + E0.length + 1 + M.length) (A.length + 1 + E0.length)
          1 (-1)
        else deisolateGeneral (A ++ (DiffType.EQUAL, t) ::
          (E0 ++ (DiffType.DELETE, tx) :: (M ++ (DiffType.INSERT, ty) :: B2C)))
          A.length 1 (-1) ((A.length + 1 + E0.length + 1 + M.length + 1 : Nat) : Int)
          (some (A.length + 1 + E0.length + 1 + M.length))
          (some (A.length + 1 + E0.length))) = _
      rw [if_pos hsh]
      unfold sharedBranch
      rw [getD_third, getD_second, splitChar_bwd, splitChar_bwd]
      simp only []
      rw [setEntryText_third, setEntryText_second, getD_at_length, setEntryText_at_length]
      rw [combineChar, if_pos rfl, take_one_head ty hty]
    refine ⟨t ++ [ty.headD 0],
      E0 ++ (DiffType.DELETE, tx.drop 1) :: (M ++ (DiffType.INSERT, ty.drop 1) :: B2C),
      hstep, Or.inr ⟨ty.headD 0, rfl, hcilow⟩, by simp, ?_, ?_⟩
    · simp only [countEq_append, countEq_cons]
    · obtain ⟨stf2, hrun2, hp1eq, hp2eq⟩ := runC_mono B2C q1b q2b true true
        (if tx.drop 1 = [] then false else true) (if ty.drop 1 = [] then false else true)
        stf hrun (fun _ => rfl) (fun _ => rfl)
      refine ⟨stf2, ?_, by rw [hp1eq, hf1], by rw [hp2eq, hf2]⟩
      rw [runC, if_neg (by simp)]
      show ((runWf st.p1 (t ++ [ty.headD 0])).bind fun qa =>
        (runWf st.p2 (t ++ [ty.headD 0])).bind fun qb =>
          runC ⟨qa, qb, false, false⟩
            (E0 ++ (DiffType.DELETE, tx.drop 1) ::
              (M ++ (DiffType.INSERT, ty.drop 1) :: B2C))) = some stf2
      rw [hwf1ci, hwf2ci]
      simp only [Option.some_bind]
      rw [runC_append, runC_allEmpty_idle E0 hE0]
      simp only [Option.some_bind]
      rw [runC_del_entry (tx.drop 1) _ false false q1b hq1bd hq1bnil]
      rw [runC_append, transparent_runC M _ hMtrans]
      simp only [Option.some_bind]
      rw [runC_ins_entry (ty.drop 1) _ q1b (if tx.drop 1 = [] then false else true)
        q2b hq2bd hq2bnil]
      exact hrun2
  · -- general branch
    have hpeel1b := hpeel1
    have hpeel2b := hpeel2
    have hstep : deisolateChar (A ++ (DiffType.EQUAL, t) ::
        (E0 ++ (DiffType.DELETE, tx) :: (M ++ (DiffType.INSERT, ty) :: B2C))) A.length 1 =
        A ++ (DiffType.EQUAL, t.dropLast) ::
          (E0 ++ (DiffType.DELETE, [t.getLastD 0] ++ tx) ::
            (M ++ (DiffType.INSERT, [t.getLastD 0] ++ ty) :: B2C)) := by
      rw [deisolateChar_fwd_eq, hscan]
      show (if hasSharedChar (A ++ (DiffType.EQUAL, t) ::
          (E0 ++ (DiffType.DELETE, tx) :: (M ++ (DiffType.INSERT, ty) :: B2C)))
          (A.length + 1 + E0.length + 1 + M.length) (A.length + 1 + E0.length) 1 = true
        then sharedBranch (A ++ (DiffType.EQUAL, t) ::
          (E0 ++ (DiffType.DELETE, tx) :: (M ++ (DiffType.INSERT, ty) :: B2C)))
          A.length (A.length + 1 + E0.length + 1 + M.length) (A.length + 1 + E0.length)
          1 (-1)
        else deisolateGeneral (A ++ (DiffType.EQUAL, t) ::
          (E0 ++ (DiffType.DELETE, tx) :: (M ++ (DiffType.INSERT, ty) :: B2C)))
          A.length 1 (-1) ((A.length + 1 + E0.length + 1 + M.length + 1 : Nat) : Int)
          (some (A.length + 1 + E0.length + 1 + M.length))
          (some (A.length + 1 + E0.length))) = _
      rw [if_neg hsh]
      unfold deisolateGeneral
      rw [getD_at_length, splitChar_fwd t ht]
      simp only []
      rw [setEntryText_at_length]
      show setEntryText (setEntryText (A ++ (DiffType.EQUAL, t.dropLast) ::
          (E0 ++ (DiffType.DELETE, tx) :: (M ++ (DiffType.INSERT, ty) :: B2C)))
          (A.length + 1 + E0.length + 1 + M.length)
          (combineChar ((A ++ (DiffType.EQUAL, t.dropLast) ::
            (E0 ++ (DiffType.DELETE, tx) :: (M ++ (DiffType.INSERT, ty) :: B2C))).getD
            (A.length + 1 + E0.length + 1 + M.length) (DiffType.EQUAL, [])).2
            [t.getLastD 0] (-1)))
          (A.length + 1 + E0.length)
          (combineChar ((setEntryText (A ++ (DiffType.EQUAL, t.dropLast) ::
            (E0 ++ (DiffType.DELETE, tx) :: (M ++ (DiffType.INSERT, ty) :: B2C)))
            (A.length + 1 + E0.length + 1 + M.length)
            (combineChar ((A ++ (DiffType.EQUAL, t.dropLast) ::
              (E0 ++ (DiffType.DELETE, tx) :: (M ++ (DiffType.INSERT, ty) :: B2C))).getD
              (A.length + 1 + E0.length + 1 + M.length) (DiffType.EQUAL, [])).2
              [t.getLastD 0] (-1))).getD
            (A.length + 1 + E0.length) (DiffType.EQUAL, [])).2 [t.getLastD 0] (-1)) = _
      rw [getD_third, setEntryText_third]
      rw [getD_second, setEntryText_second]
      rw [combineChar, if_neg (by decide), combineChar, if_neg (by decide)]
    refine ⟨t.dropLast,
      E0 ++ (DiffType.DELETE, [t.getLastD 0] ++ tx) ::
        (M ++ (DiffType.INSERT, [t.getLastD 0] ++ ty) :: B2C),
      hstep, Or.inl rfl, by simp, ?_, ?_⟩
    · simp only [countEq_append, countEq_cons]
    · refine ⟨stf, ?_, hf1, hf2⟩
      have hbody : runC ⟨false, false, false, false⟩
          (E0 ++ (DiffType.DELETE, [t.getLastD 0] ++ tx) ::
            (M ++ (DiffType.INSERT, [t.getLastD 0] ++ ty) :: B2C)) = some stf := by
        rw [runC_append, runC_allEmpty_idle E0 hE0]
        simp only [Option.some_bind]
        rw [runC, if_neg (by simp)]
        show ((runWf false ([t.getLastD 0] ++ tx)).bind fun q =>
          if false = true then none else runC ⟨q, false, true, false⟩
            (M ++ (DiffType.INSERT, [t.getLastD 0] ++ ty) :: B2C)) = some stf
        rw [show ([t.getLastD 0] ++ tx : Str) = t.getLastD 0 :: tx from by simp]
        rw [runWf_false_cons_high hhigh, hq1b]
        simp only [Option.some_bind]
        rw [if_neg (by simp)]
        rw [runC_append, transparent_runC M ⟨q1b, false, true, false⟩ hMtrans]
        simp only [Option.some_bind]
        rw [runC, if_neg (by simp)]
        show ((runWf false ([t.getLastD 0] ++ ty)).bind fun q =>
          if false = true then none else runC ⟨q1b, q, true, true⟩ B2C) = some stf
        rw [show ([t.getLastD 0] ++ ty : Str) = t.getLastD 0 :: ty from by simp]
        rw [runWf_false_cons_high hhigh, hq2bt]
        simp only [Option.some_bind]
        rw [if_neg (by simp)]
        exact hrun
      by_cases htd : t.dropLast = []
      · have hsingle : t = [t.getLastD 0] := by
          conv_lhs => rw [← dropLast_append_getLastD t ht]
          rw [htd]
          simp
        have hst1 : st.p1 = false := by
          rw [hsingle] at hq1
          exact (runWf_single_high hq1 hhigh).1
        have hst2 : st.p2 = false := by
          rw [hsingle] at hq2
          exact (runWf_single_high hq2 hhigh).1
        rw [runC, if_pos htd, if_pos ⟨hst1, hst2⟩, hst1, hst2]
        exact hbody
      · rw [runC, if_neg htd]
        show ((runWf st.p1 t.dropLast).bind fun qa =>
          (runWf st.p2 t.dropLast).bind fun qb =>
            runC ⟨qa, qb, false, false⟩
              (E0 ++ (DiffType.DELETE, [t.getLastD 0] ++ tx) ::
                (M ++ (DiffType.INSERT, [t.getLastD 0] ++ ty) :: B2C))) = some stf
        rw [hpeel1b, hpeel2b]
        simp only [Option.some_bind]
        exact hbody

theorem fwd_both_insDel_post (A : List Diff) (t : Str) (E0 : List Diff) (tx : Str)
    (M : List Diff) (ty : Str) (B2C : List Diff) (st stf : CState)
    (ht : t ≠ []) (hhigh : isHighSurrogate (t.getLastD 0) = true)
    (hrun : runC st ((DiffType.EQUAL, t) ::
      (E0 ++ (DiffType.INSERT, tx) :: (M ++ (DiffType.DELETE, ty) :: B2C))) = some stf)
    (hf1 : stf.p1 = false) (hf2 : stf.p2 = false)
    (hE0 : allEmpty E0) (htx : tx ≠ []) (hM : emptyOrKind DiffType.INSERT M)
    (hty : ty ≠ []) :
    FwdPost A t (E0 ++ (DiffType.INSERT, tx) :: (M ++ (DiffType.DELETE, ty) :: B2C)) st := by
  rw [runC, if_neg ht] at hrun
  obtain ⟨q1, hq1, hrun⟩ := bind_eq_some_opt hrun
  obtain ⟨q2, hq2, hrun⟩ := bind_eq_some_opt hrun
  have hq1t : q1 = true := runWf_high_last st.p1 q1 t hq1 ht hhigh
  have hq2t : q2 = true := runWf_high_last st.p2 q2 t hq2 ht hhigh
  subst hq1t
  subst hq2t
  rw [runC_append] at hrun
  obtain ⟨stE, hE, hrun⟩ := bind_eq_some_opt hrun
  obtain ⟨hp1E, hp2E⟩ := runC_allEmpty_p E0 ⟨true, true, false, false⟩ stE hE0 hE
  have hp1E2 : stE.p1 = true := hp1E
  have hp2E2 : stE.p2 = true := hp2E
  rw [runC, if_neg htx] at hrun
  obtain ⟨q2b, hq2b, hrun⟩ := bind_eq_some_opt hrun
  by_cases hsi : stE.si
  · rw [if_pos hsi] at hrun
    cases hrun
  rw [if_neg hsi] at hrun
  rw [runC_append] at hrun
  obtain ⟨stM, hMr, hrun⟩ := bind_eq_some_opt hrun
  obtain ⟨hstM, hMtrans⟩ := runC_kindTransI M ⟨stE.p1, q2b, stE.sd, true⟩ stM hM rfl
    hp1E2 hMr
  subst hstM
  rw [runC, if_neg hty] at hrun
  obtain ⟨q1b, hq1b, hrun⟩ := bind_eq_some_opt hrun
  by_cases hsd : stE.sd
  · rw [if_pos hsd] at hrun
    cases hrun
  rw [if_neg hsd] at hrun
  rw [hp2E2] at hq2b
  have hq1bt : runWf true ty = some q1b := by
    rw [← hp1E2]
    exact hq1b
  have hpeel1 : runWf st.p1 t.dropLast = some false := peel_last hq1 ht hhigh
  have hpeel2 : runWf st.p2 t.dropLast = some false := peel_last hq2 ht hhigh
  have hdrop : (A ++ (DiffType.EQUAL, t) ::
      (E0 ++ (DiffType.INSERT, tx) :: (M ++ (DiffType.DELETE, ty) :: B2C))).drop
      (A.length + 1) = E0 ++ (DiffType.INSERT, tx) :: (M ++ (DiffType.DELETE, ty) :: B2C) := by
    rw [show A ++ (DiffType.EQUAL, t) ::
        (E0 ++ (DiffType.INSERT, tx) :: (M ++ (DiffType.DELETE, ty) :: B2C)) =
      (A ++ [(DiffType.EQUAL, t)]) ++
        (E0 ++ (DiffType.INSERT, tx) :: (M ++ (DiffType.DELETE, ty) :: B2C)) by simp,
      show A.length + 1 = (A ++ [(DiffType.EQUAL, t)]).length by simp,
      List.drop_left]
  have hscan : deisolateScan (A ++ (DiffType.EQUAL, t) ::
      (E0 ++ (DiffType.INSERT, tx) :: (M ++ (DiffType.DELETE, ty) :: B2C))) 1
      ((A ++ (DiffType.EQUAL, t) ::
        (E0 ++ (DiffType.INSERT, tx) :: (M ++ (DiffType.DELETE, ty) :: B2C))).length + 2)
      ((A.length : Int) + 1) none none =
      ScanResult.stopped ((A.length + 1 + E0.length + 1 + M.length + 1 : Nat) : Int)
        (some (A.length + 1 + E0.length))
        (some (A.length + 1 + E0.length + 1 + M.length)) := by
    rw [show ((A.length : Int) + 1) = ((A.length + 1 : Nat) : Int) by push_cast; ring]
    rw [deisolateScan_eq_scanF _ _ (A.length + 1) none none (by simp) (by omega)]
    rw [hdrop]
    rw [scanF_allEmpty_skip E0 _ (A.length + 1) none none hE0 (Or.inl rfl)]
    rw [scanF, if_neg (by simp), if_neg htx]
    show scanF (M ++ (DiffType.DELETE, ty) :: B2C) (A.length + 1 + E0.length + 1)
      (if (none : Option Nat) = none then some (A.length + 1 + E0.length) else none)
      none = _
    rw [if_pos rfl]
    rw [scanF_skip_found_ins M _ (A.length + 1 + E0.length + 1) (A.length + 1 + E0.length) hM]
    rw [scanF, if_neg (by simp), if_neg hty]
    show scanF B2C (A.length + 1 + E0.length + 1 + M.length + 1)
      (some (A.length + 1 + E0.length))
      (if (none : Option Nat) = none then some (A.length + 1 + E0.length + 1 + M.length)
        else none) = _
    rw [if_pos rfl]
    rw [scanF_both_found]
  by_cases hsh : hasSharedChar (A ++ (DiffType.EQUAL, t) ::
      (E0 ++ (DiffType.INSERT, tx) :: (M ++ (DiffType.DELETE, ty) :: B2C)))
      (A.length + 1 + E0.length) (A.length + 1 + E0.length + 1 + M.length) 1 = true
  · -- shared-character branch
    have hq2bt2 := hq2b
    rw [← head_cons_drop tx htx] at hq2bt2
    have hcilow : isLowSurrogate (tx.headD 0) = true := runWf_true_head hq2bt2
    have hq2bd : runWf false (tx.drop 1) = some q2b := by
      rw [runWf_true_cons hcilow] at hq2bt2
      exact hq2bt2
    have hq1bt2 := hq1bt
    rw [← head_cons_drop ty hty] at hq1bt2
    have hcdlow : isLowSurrogate (ty.headD 0) = true := runWf_true_head hq1bt2
    have hq1bd : runWf false (ty.drop 1) = some q1b := by
      rw [runWf_true_cons hcdlow] at hq1bt2
      exact hq1bt2
    have hq1bnil : ty.drop 1 = [] → q1b = false := by
      intro hnil
      rw [hnil] at hq1bd
      rw [show runWf false [] = some false from rfl] at hq1bd
      cases hq1bd
      rfl
    have hq2bnil : tx.drop 1 = [] → q2b = false := by
      intro hnil
      rw [hnil] at hq2bd
      rw [show runWf false [] = some false from rfl] at hq2bd
      cases hq2bd
      rfl
    have hwf1ci : runWf st.p1 (t ++ [tx.headD 0]) = some false := by
      rw [runWf_append, hq1]
      simp only [Option.some_bind]
      exact runWf_true_single_low hcilow
    have hwf2ci : runWf st.p2 (t ++ [tx.headD 0]) = some false := by
      rw [runWf_append, hq2]
      simp only [Option.some_bind]
      exact runWf_true_single_low hcilow
    have hstep : deisolateChar (A ++ (DiffType.EQUAL, t) ::
        (E0 ++ (DiffType.INSERT, tx) :: (M ++ (DiffType.DELETE, ty) :: B2C))) A.length 1 =
        A ++ (DiffType.EQUAL, t ++ [tx.headD 0]) ::
          (E0 ++ (DiffType.INSERT, tx.drop 1) ::
            (M ++ (DiffType.DELETE, ty.drop 1) :: B2C)) := by
      rw [deisolateChar_fwd_eq, hscan]
      show (if hasSharedChar (A ++ (DiffType.EQUAL, t) ::
          (E0 ++ (DiffType.INSERT, tx) :: (M ++ (DiffType.DELETE, ty) :: B2C)))
          (A.length + 1 + E0.length) (A.length + 1 + E0.length + 1 + M.length) 1 = true
        then sharedBranch (A ++ (DiffType.EQUAL, t) ::
          (E0 ++ (DiffType.INSERT, tx) :: (M ++ (DiffType.DELETE, ty) :: B2C)))
          A.length (A.length + 1 + E0.length) (A.length + 1 + E0.length + 1 + M.length)
          1 (-1)
        else deisolateGeneral (A ++ (DiffType.EQUAL, t) ::
          (E0 ++ (DiffType.INSERT, tx) :: (M ++ (DiffType.DELETE, ty) :: B2C)))
          A.length 1 (-1) ((A.length + 1 + E0.length + 1 + M.length + 1 : Nat) : Int)
          (some (A.length + 1 + E0.length))
          (some (A.length + 1 + E0.length + 1 + M.length))) = _
      rw [if_pos hsh]
      unfold sharedBranch
      rw [getD_third, getD_second, splitChar_bwd, splitChar_bwd]
      simp only []
      rw [setEntryText_second, setEntryText_third, getD_at_length, setEntryText_at_length]
      rw [combineChar, if_pos rfl, take_one_head tx htx]
    refine ⟨t ++ [tx.headD 0],
      E0 ++ (DiffType.INSERT, tx.drop 1) :: (M ++ (DiffType.DELETE, ty.drop 1) :: B2C),
      hstep, Or.inr ⟨tx.headD 0, rfl, hcilow⟩, by simp, ?_, ?_⟩
    · simp only [countEq_append, countEq_cons]
    · obtain ⟨stf2, hrun2, hp1eq, hp2eq⟩ := runC_mono B2C q1b q2b true true
        (if ty.drop 1 = [] then false else true) (if tx.drop 1 = [] then false else true)
        stf hrun (fun _ => rfl) (fun _ => rfl)
      refine ⟨stf2, ?_, by rw [hp1eq, hf1], by rw [hp2eq, hf2]⟩
      rw [runC, if_neg (by simp)]
      show ((runWf st.p1 (t ++ [tx.headD 0])).bind fun qa =>
        (runWf st.p2 (t ++ [tx.headD 0])).bind fun qb =>
          runC ⟨qa, qb, false, false⟩
            (E0 ++ (DiffType.INSERT, tx.drop 1) ::
              (M ++ (DiffType.DELETE, ty.drop 1) :: B2C))) = some stf2
      rw [hwf1ci, hwf2ci]
      simp only [Option.some_bind]
      rw [runC_append, runC_allEmpty_idle E0 hE0]
      simp only [Option.some_bind]
      rw [runC_ins_entry (tx.drop 1) _ false false q2b hq2bd hq2bnil]
      rw [runC_append, transparent_runC M _ hMtrans]
      simp only [Option.some_bind]
      rw [runC_del_entry (ty.drop 1) _ q2b (if tx.drop 1 = [] then false else true)
        q1b hq1bd hq1bnil]
      exact hrun2
  · -- general branch
    have hstep : deisolateChar (A ++ (DiffType.EQUAL, t) ::
        (E0 ++ (DiffType.INSERT, tx) :: (M ++ (DiffType.DELETE, ty) :: B2C))) A.length 1 =
        A ++ (DiffType.EQUAL, t.dropLast) ::
          (E0 ++ (DiffType.INSERT, [t.getLastD 0] ++ tx) ::
            (M ++ (DiffType.DELETE, [t.getLastD 0] ++ ty) :: B2C)) := by
      rw [deisolateChar_fwd_eq, hscan]
      show (if hasSharedChar (A ++ (DiffType.EQUAL, t) ::
          (E0 ++ (DiffType.INSERT, tx) :: (M ++ (DiffType.DELETE, ty) :: B2C)))
          (A.length + 1 + E0.length) (A.length + 1 + E0.length + 1 + M.length) 1 = true
        then sharedBranch (A ++ (DiffType.EQUAL, t) ::
          (E0 ++ (DiffType.INSERT, tx) :: (M ++ (DiffType.DELETE, ty) :: B2C)))
          A.length (A.length + 1 + E0.length) (A.length + 1 + E0.length + 1 + M.length)
          1 (-1)
        else deisolateGeneral (A ++ (DiffType.EQUAL, t) ::
          (E0 ++ (DiffType.INSERT, tx) :: (M ++ (DiffType.DELETE, ty) :: B2C)))
          A.length 1 (-1) ((A.length + 1 + E0.length + 1 + M.length + 1 : Nat) : Int)
          (some (A.length + 1 + E0.length))
          (some (A.length + 1 + E0.length + 1 + M.length))) = _
      rw [if_neg hsh]
      unfold deisolateGeneral
      rw [getD_at_length, splitChar_fwd t ht]
      simp only []
      rw [setEntryText_at_length]
      rw [getD_second, setEntryText_second]
      rw [getD_third, setEntryText_third]
      rw [combineChar, if_neg (by decide), combineChar, if_neg (by decide)]
    refine ⟨t.dropLast,
      E0 ++ (DiffType.INSERT, [t.getLastD 0] ++ tx) ::
        (M ++ (DiffType.DELETE, [t.getLastD 0] ++ ty) :: B2C),
      hstep, Or.inl rfl, by simp, ?_, ?_⟩
    · simp only [countEq_append, countEq_cons]
    · refine ⟨stf, ?_, hf1, hf2⟩
      have hbody : runC ⟨false, false, false, false⟩
          (E0 ++ (DiffType.INSERT, [t.getLastD 0] ++ tx) ::
            (M ++ (DiffType.DELETE, [t.getLastD 0] ++ ty) :: B2C)) = some stf := by
        rw [runC_append, runC_allEmpty_idle E0 hE0]
        simp only [Option.some_bind]
        rw [runC, if_neg (by simp)]
        show ((runWf false ([t.getLastD 0] ++ tx)).bind fun q =>
          if false = true then none else runC ⟨false, q, false, true⟩
            (M ++ (DiffType.DELETE, [t.getLastD 0] ++ ty) :: B2C)) = some stf
        rw [show ([t.getLastD 0] ++ tx : Str) = t.getLastD 0 :: tx from by simp]
        rw [runWf_false_cons_high hhigh, hq2b]
        simp only [Option.some_bind]
        rw [if_neg (by simp)]
        rw [runC_append, transparent_runC M ⟨false, q2b, false, true⟩ hMtrans]
        simp only [Option.some_bind]
        rw [runC, if_neg (by simp)]
        show ((runWf false ([t.getLastD 0] ++ ty)).bind fun q =>
          if false = true then none else runC ⟨q, q2b, true, true⟩ B2C) = some stf
        rw [show ([t.getLastD 0] ++ ty : Str) = t.getLastD 0 :: ty from by simp]
        rw [runWf_false_cons_high hhigh, hq1bt]
        simp only [Option.some_bind]
        rw [if_neg (by simp)]
        exact hrun
      by_cases htd : t.dropLast = []
      · have hsingle : t = [t.getLastD 0] := by
          conv_lhs => rw [← dropLast_append_getLastD t ht]
          rw [htd]
          simp
        have hst1 : st.p1 = false := by
          rw [hsingle] at hq1
          exact (runWf_single_high hq1 hhigh).1
        have hst2 : st.p2 = false := by
          rw [hsingle] at hq2
          exact (runWf_single_high hq2 hhigh).1
        rw [runC, if_pos htd, if_pos ⟨hst1, hst2⟩, hst1, hst2]
        exact hbody
      · rw [runC, if_neg htd]
        show ((runWf st.p1 t.dropLast).bind fun qa =>
          (runWf st.p2 t.dropLast).bind fun qb =>
            runC ⟨qa, qb, false, false⟩
              (E0 ++ (DiffType.INSERT, [t.getLastD 0] ++ tx) ::
                (M ++ (DiffType.DELETE, [t.getLastD 0] ++ ty) :: B2C))) = some stf
        rw [hpeel1, hpeel2]
        simp only [Option.some_bind]
        exact hbody

/-- Forward repair step: on any script region accepted by the combined
automaton, `deisolateChar(·, i, 1)` at a non-empty EQUAL entry ending in a
high surrogate yields the postcondition `FwdPost`. -/
theorem deisolateChar_fwd (A : List Diff) (t : Str) (B : List Diff) (st stf : CState)
    (ht : t ≠ []) (hhigh : isHighSurrogate (t.getLastD 0) = true)
    (hrun : runC st ((DiffType.EQUAL, t) :: B) = some stf)
    (hf1 : stf.p1 = false) (hf2 : stf.p2 = false) :
    FwdPost A t B st := by
  rcases scanShape B with hB | ⟨E0, u, B2C, rfl, hE0, hu⟩
    | ⟨E0, x, M, rfl, hE0, hx, hk, hM⟩
    | ⟨E0, x, M, u, B2C, rfl, hE0, hx, hk, hM, hu⟩
    | ⟨E0, x, M, y, B2C, rfl, hE0, hx, hy, hM, hk⟩
  · exact (fwd_contra_allEmpty t B st stf ht hhigh hrun hf1 hB).elim
  · exact fwd_moveToEqual_post A t E0 u B2C st stf ht hhigh hrun hf1 hf2 hE0 hu
  · obtain ⟨kx, tx⟩ := x
    rcases hk with hk | hk
    · have hk2 : kx = DiffType.DELETE := hk
      subst hk2
      exact (fwd_contra_delOnly t E0 M tx st stf ht hhigh hrun hf2 hE0 hx hM).elim
    · have hk2 : kx = DiffType.INSERT := hk
      subst hk2
      exact (fwd_contra_insOnly t E0 M tx st stf ht hhigh hrun hf1 hE0 hx hM).elim
  · obtain ⟨kx, tx⟩ := x
    rcases hk with hk | hk
    · have hk2 : kx = DiffType.DELETE := hk
      subst hk2
      exact fwd_spliceIns_post A t E0 tx M u B2C st stf ht hhigh hrun hf1 hf2 hE0 hx hM hu
    · have hk2 : kx = DiffType.INSERT := hk
      subst hk2
      exact fwd_spliceDel_post A t E0 tx M u B2C st stf ht hhigh hrun hf1 hf2 hE0 hx hM hu
  · obtain ⟨kx, tx⟩ := x
    obtain ⟨ky, ty⟩ := y
    rcases hk with ⟨hkx, hky⟩ | ⟨hkx, hky⟩
    · have hkx2 : kx = DiffType.DELETE := hkx
      have hky2 : ky = DiffType.INSERT := hky
      subst hkx2
      subst hky2
      exact fwd_both_delIns_post A t E0 tx M ty B2C st stf ht hhigh hrun hf1 hf2 hE0 hx hM hy
    · have hkx2 : kx = DiffType.INSERT := hkx
      have hky2 : ky = DiffType.DELETE := hky
      subst hkx2
      subst hky2
      exact fwd_both_insDel_post A t E0 tx M ty B2C st stf ht hhigh hrun hf1 hf2 hE0 hx hM hy

theorem runWf_head_low_state {s : Bool} {c : Nat} {r : Str} {q : Bool}
    (h : runWf s (c :: r) = some q) (hl : isLowSurrogate c = true) : s = true := by
  cases s with
  | true => rfl
  | false =>
    rw [runWf, if_neg (by rw [low_not_high c hl]; simp), if_pos hl] at h
    cases h

/-- Empty-or-DELETE stretches never touch the destination thread. -/
theorem runC_p2_pres_del (L : List Diff) : ∀ st st2, emptyOrKind DiffType.DELETE L →
    runC st L = some st2 → st2.p2 = st.p2 := by
  induction L with
  | nil =>
    intro st st2 _ h
    rw [runC] at h
    cases h
    rfl
  | cons e r ih =>
    intro st st2 hL h
    obtain ⟨k, t⟩ := e
    have htail : emptyOrKind DiffType.DELETE r := fun x hx => hL x (by simp [hx])
    by_cases ht : t = []
    · subst ht
      cases k with
      | DELETE => rw [runC, if_pos rfl] at h; exact ih st st2 htail h
      | INSERT => rw [runC, if_pos rfl] at h; exact ih st st2 htail h
      | EQUAL =>
        rw [runC, if_pos rfl] at h
        by_cases hp : st.p1 = false ∧ st.p2 = false
        · rw [if_pos hp] at h
          exact ih ⟨st.p1, st.p2, false, false⟩ st2 htail h
        · rw [if_neg hp] at h
          cases h
    · rcases hL (k, t) (by simp) with he | he
      · exact absurd he ht
      · simp only at he
        subst he
        rw [runC, if_neg ht] at h
        obtain ⟨q1, h1, h⟩ := bind_eq_some_opt h
        by_cases hsd : st.sd
        · rw [if_pos hsd] at h; cases h
        · rw [if_neg hsd] at h
          exact ih ⟨q1, st.p2, true, st.si⟩ st2 htail h

/-- Empty-or-INSERT stretches never touch the source thread. -/
theorem runC_p1_pres_ins (L : List Diff) : ∀ st st2, emptyOrKind DiffType.INSERT L →
    runC st L = some st2 → st2.p1 = st.p1 := by
  induction L with
  | nil =>
    intro st st2 _ h
    rw [runC] at h
    cases h
    rfl
  | cons e r ih =>
    intro st st2 hL h
    obtain ⟨k, t⟩ := e
    have htail : emptyOrKind DiffType.INSERT r := fun x hx => hL x (by simp [hx])
    by_cases ht : t = []
    · subst ht
      cases k with
      | DELETE => rw [runC, if_pos rfl] at h; exact ih st st2 htail h
      | INSERT => rw [runC, if_pos rfl] at h; exact ih st st2 htail h
      | EQUAL =>
        rw [runC, if_pos rfl] at h
        by_cases hp : st.p1 = false ∧ st.p2 = false
        · rw [if_pos hp] at h
          exact ih ⟨st.p1, st.p2, false, false⟩ st2 htail h
        · rw [if_neg hp] at h
          cases h
    · rcases hL (k, t) (by simp) with he | he
      · exact absurd he ht
      · simp only at he
        subst he
        rw [runC, if_neg ht] at h
        obtain ⟨q2, h2, h⟩ := bind_eq_some_opt h
        by_cases hsi : st.si
        · rw [if_pos hsi] at h; cases h
        · rw [if_neg hsi] at h
          exact ih ⟨st.p1, q2, st.sd, true⟩ st2 htail h

/-- An empty-or-DELETE stretch whose destination thread is pending and whose
final run flag is clear must be fully transparent. -/
theorem runC_kindTransD_bwd (L : List Diff) : ∀ st st2, emptyOrKind DiffType.DELETE L →
    st.p2 = true → runC st L = some st2 → st2.sd = false →
    st2 = st ∧ ∀ e ∈ L, e.2 = [] ∧ e.1 ≠ DiffType.EQUAL := by
  induction L with
  | nil =>
    intro st st2 _ _ h _
    rw [runC] at h
    cases h
    exact ⟨rfl, fun x hx => by cases hx⟩
  | cons e r ih =>
    intro st st2 hL hp2 h hsd2
    obtain ⟨k, t⟩ := e
    have htail : emptyOrKind DiffType.DELETE r := fun x hx => hL x (by simp [hx])
    by_cases ht : t = []
    · subst ht
      cases k with
      | DELETE =>
        rw [runC, if_pos rfl] at h
        obtain ⟨h1, h2⟩ := ih st st2 htail hp2 h hsd2
        refine ⟨h1, fun x hx => ?_⟩
        rcases List.mem_cons.mp hx with hx | hx
        · subst hx; exact ⟨rfl, by simp⟩
        · exact h2 x hx
      | INSERT =>
        rw [runC, if_pos rfl] at h
        obtain ⟨h1, h2⟩ := ih st st2 htail hp2 h hsd2
        refine ⟨h1, fun x hx => ?_⟩
        rcases List.mem_cons.mp hx with hx | hx
        · subst hx; exact ⟨rfl, by simp⟩
        · exact h2 x hx
      | EQUAL =>
        rw [runC, if_pos rfl, if_neg (by rw [hp2]; simp)] at h
        cases h
    · rcases hL (k, t) (by simp) with he | he
      · exact absurd he ht
      · simp only at he
        subst he
        rw [runC, if_neg ht] at h
        obtain ⟨q1, h1, h⟩ := bind_eq_some_opt h
        by_cases hsd : st.sd
        · rw [if_pos hsd] at h; cases h
        · rw [if_neg hsd] at h
          obtain ⟨h2, _⟩ := ih ⟨q1, st.p2, true, st.si⟩ st2 htail hp2 h hsd2
          rw [h2] at hsd2
          cases hsd2

/-- Mirror image of `runC_kindTransD_bwd`. -/
theorem runC_kindTransI_bwd (L : List Diff) : ∀ st st2, emptyOrKind DiffType.INSERT L →
    st.p1 = true → runC st L = some st2 → st2.si = false →
    st2 = st ∧ ∀ e ∈ L, e.2 = [] ∧ e.1 ≠ DiffType.EQUAL := by
  induction L with
  | nil =>
    intro st st2 _ _ h _
    rw [runC] at h
    cases h
    exact ⟨rfl, fun x hx => by cases hx⟩
  | cons e r ih =>
    intro st st2 hL hp1 h hsi2
    obtain ⟨k, t⟩ := e
    have htail : emptyOrKind DiffType.INSERT r := fun x hx => hL x (by simp [hx])
    by_cases ht : t = []
    · subst ht
      cases k with
      | DELETE =>
        rw [runC, if_pos rfl] at h
        obtain ⟨h1, h2⟩ := ih st st2 htail hp1 h hsi2
        refine ⟨h1, fun x hx => ?_⟩
        rcases List.mem_cons.mp hx with hx | hx
        · subst hx; exact ⟨rfl, by simp⟩
        · exact h2 x hx
      | INSERT =>
        rw [runC, if_pos rfl] at h
        obtain ⟨h1, h2⟩ := ih st st2 htail hp1 h hsi2
        refine ⟨h1, fun x hx => ?_⟩
        rcases List.mem_cons.mp hx with hx | hx
        · subst hx; exact ⟨rfl, by simp⟩
        · exact h2 x hx
      | EQUAL =>
        rw [runC, if_pos rfl, if_neg (by rw [hp1]; simp)] at h
        cases h
    · rcases hL (k, t) (by simp) with he | he
      · exact absurd he ht
      · simp only at he
        subst he
        rw [runC, if_neg ht] at h
        obtain ⟨q2, h2, h⟩ := bind_eq_some_opt h
        by_cases hsi : st.si
        · rw [if_pos hsi] at h; cases h
        · rw [if_neg hsi] at h
          obtain ⟨h3, _⟩ := ih ⟨st.p1, q2, st.sd, true⟩ st2 htail hp1 h hsi2
          rw [h3] at hsi2
          cases hsi2

/-- An all-empty stretch traversed with a pending source thread must contain
no EQUAL entries, hence is fully transparent. -/
theorem runC_allEmptyTrans1 (L : List Diff) : ∀ st st2, allEmpty L →
    st.p1 = true → runC st L = some st2 →
    st2 = st ∧ ∀ e ∈ L, e.2 = [] ∧ e.1 ≠ DiffType.EQUAL := by
  induction L with
  | nil =>
    intro st st2 _ _ h
    rw [runC] at h
    cases h
    exact ⟨rfl, fun x hx => by cases hx⟩
  | cons e r ih =>
    intro st st2 hL hp1 h
    obtain ⟨k, t⟩ := e
    have ht : t = [] := hL (k, t) (by simp)
    subst ht
    have htail : allEmpty r := fun x hx => hL x (by simp [hx])
    cases k with
    | DELETE =>
      rw [runC, if_pos rfl] at h
      obtain ⟨h1, h2⟩ := ih st st2 htail hp1 h
      refine ⟨h1, fun x hx => ?_⟩
      rcases List.mem_cons.mp hx with hx | hx
      · subst hx; exact ⟨rfl, by simp⟩
      · exact h2 x hx
    | INSERT =>
      rw [runC, if_pos rfl] at h
      obtain ⟨h1, h2⟩ := ih st st2 htail hp1 h
      refine ⟨h1, fun x hx => ?_⟩
      rcases List.mem_cons.mp hx with hx | hx
      · subst hx; exact ⟨rfl, by simp⟩
      · exact h2 x hx
    | EQUAL =>
      rw [runC, if_pos rfl, if_neg (by rw [hp1]; simp)] at h
      cases h

/-- Mirror image of `runC_allEmptyTrans1` for the destination thread. -/
theorem runC_allEmptyTrans2 (L : List Diff) : ∀ st st2, allEmpty L →
    st.p2 = true → runC st L = some st2 →
    st2 = st ∧ ∀ e ∈ L, e.2 = [] ∧ e.1 ≠ DiffType.EQUAL := by
  induction L with
  | nil =>
    intro st st2 _ _ h
    rw [runC] at h
    cases h
    exact ⟨rfl, fun x hx => by cases hx⟩
  | cons e r ih =>
    intro st st2 hL hp2 h
    obtain ⟨k, t⟩ := e
    have ht : t = [] := hL (k, t) (by simp)
    subst ht
    have htail : allEmpty r := fun x hx => hL x (by simp [hx])
    cases k with
    | DELETE =>
      rw [runC, if_pos rfl] at h
      obtain ⟨h1, h2⟩ := ih st st2 htail hp2 h
      refine ⟨h1, fun x hx => ?_⟩
      rcases List.mem_cons.mp hx with hx | hx
      · subst hx; exact ⟨rfl, by simp⟩
      · exact h2 x hx
    | INSERT =>
      rw [runC, if_pos rfl] at h
      obtain ⟨h1, h2⟩ := ih st st2 htail hp2 h
      refine ⟨h1, fun x hx => ?_⟩
      rcases List.mem_cons.mp hx with hx | hx
      · subst hx; exact ⟨rfl, by simp⟩
      · exact h2 x hx
    | EQUAL =>
      rw [runC, if_pos rfl, if_neg (by rw [hp2]; simp)] at h
      cases h

theorem runC_del_entry2 (w : Str) (rest : List Diff) (p1 p2 si : Bool) (qw : Bool)
    (hw : runWf p1 w = some qw) (hqw : w = [] → qw = p1) :
    runC ⟨p1, p2, false, si⟩ ((DiffType.DELETE, w) :: rest) =
      runC ⟨qw, p2, (if w = [] then false else true), si⟩ rest := by
  by_cases hempty : w = []
  · rw [runC, if_pos hempty, if_pos hempty]
    rw [hqw hempty]
  · rw [runC, if_neg hempty]
    show ((runWf p1 w).bind fun q =>
      if false = true then none else runC ⟨q, p2, true, si⟩ rest) = _
    rw [hw]
    simp only [Option.some_bind]
    rw [if_neg (by simp), if_neg hempty]

theorem runC_ins_entry2 (w : Str) (rest : List Diff) (p1 p2 sd : Bool) (qw : Bool)
    (hw : runWf p2 w = some qw) (hqw : w = [] → qw = p2) :
    runC ⟨p1, p2, sd, false⟩ ((DiffType.INSERT, w) :: rest) =
      runC ⟨p1, qw, sd, (if w = [] then false else true)⟩ rest := by
  by_cases hempty : w = []
  · rw [runC, if_pos hempty, if_pos hempty]
    rw [hqw hempty]
  · rw [runC, if_neg hempty]
    show ((runWf p2 w).bind fun q =>
      if false = true then none else runC ⟨p1, q, sd, true⟩ rest) = _
    rw [hw]
    simp only [Option.some_bind]
    rw [if_neg (by simp), if_neg hempty]

theorem runC_eq_entry (w : Str) (rest : List Diff) (p1 p2 sd si : Bool) (q1 q2 : Bool)
    (hw1 : runWf p1 w = some q1) (hw2 : runWf p2 w = some q2)
    (hempty : w = [] → p1 = false ∧ p2 = false) :
    runC ⟨p1, p2, sd, si⟩ ((DiffType.EQUAL, w) :: rest) =
      runC ⟨q1, q2, false, false⟩ rest := by
  by_cases hw : w = []
  · obtain ⟨hp1, hp2⟩ := hempty hw
    subst hw
    have hq1 : q1 = p1 := by
      rw [show runWf p1 [] = some p1 from by cases p1 <;> rfl] at hw1
      cases hw1
      rfl
    have hq2 : q2 = p2 := by
      rw [show runWf p2 [] = some p2 from by cases p2 <;> rfl] at hw2
      cases hw2
      rfl
    rw [runC, if_pos rfl, if_pos ⟨hp1, hp2⟩, hq1, hq2]
  · rw [runC, if_neg hw]
    show ((runWf p1 w).bind fun qa => (runWf p2 w).bind fun qb =>
      runC ⟨qa, qb, false, false⟩ rest) = _
    rw [hw1]
    simp only [Option.some_bind]
    rw [hw2]
    simp only [Option.some_bind]

/-- Postcondition of a backward repair step at an EQUAL entry: the tail is
untouched, the prefix keeps its length and clean EQUAL entries, the entry
keeps its kind and either lost its first character or gained a leading high
surrogate, and the combined automaton still accepts, ending idle. -/
def BwdPost (A : List Diff) (t : Str) (B : List Diff) : Prop :=
  ∃ A2 t2,
    deisolateChar (A ++ (DiffType.EQUAL, t) :: B) A.length (-1) =
      A2 ++ (DiffType.EQUAL, t2) :: B ∧
    A2.length = A.length ∧
    allEqualClean A2 ∧
    (t2 = t.drop 1 ∨ ∃ c, t2 = c :: t ∧ isHighSurrogate c = true) ∧
    ∃ stf2, runC ⟨false, false, false, false⟩
      (A2 ++ (DiffType.EQUAL, t2) :: B) = some stf2 ∧
      stf2.p1 = false ∧ stf2.p2 = false

theorem allEqualClean_build (P Mb Eb : List Diff) (y x : Diff)
    (hy : y.1 ≠ DiffType.EQUAL) (hx : x.1 ≠ DiffType.EQUAL)
    (hP : allEqualClean P) (hMb : ∀ e ∈ Mb, e.2 = [])
    (hEb : ∀ e ∈ Eb, e.2 = []) : allEqualClean (P ++ y :: (Mb ++ x :: Eb)) := by
  intro e he _
  rcases List.mem_append.mp he with he | he
  · exact hP e he (by assumption)
  · rcases List.mem_cons.mp he with he | he
    · subst he
      exact absurd (by assumption) hy
    · rcases List.mem_append.mp he with he | he
      · rw [hMb e he]
        rfl
      · rcases List.mem_cons.mp he with he | he
        · subst he
          exact absurd (by assumption) hx
        · rw [hEb e he]
          rfl

theorem allEqualClean_of_append_left {P Q : List Diff} (h : allEqualClean (P ++ Q)) :
    allEqualClean P := fun e he hk => h e (List.mem_append_left Q he) hk

theorem bwd_both_delIns (P Mb Eb : List Diff) (ty tx t : Str) (B : List Diff)
    (st stf : CState)
    (ht : t ≠ []) (hlow : isLowSurrogate (t.headD 0) = true)
    (hty : ty ≠ []) (htx : tx ≠ [])
    (hMb : emptyOrKind DiffType.DELETE Mb) (hEb : allEmpty Eb)
    (hA : runC ⟨false, false, false, false⟩
      (P ++ (DiffType.INSERT, ty) :: (Mb ++ (DiffType.DELETE, tx) :: Eb)) = some st)
    (hrun : runC st ((DiffType.EQUAL, t) :: B) = some stf)
    (hf1 : stf.p1 = false) (hf2 : stf.p2 = false)
    (hAclean : allEqualClean (P ++ (DiffType.INSERT, ty) ::
      (Mb ++ (DiffType.DELETE, tx) :: Eb))) :
    BwdPost (P ++ (DiffType.INSERT, ty) :: (Mb ++ (DiffType.DELETE, tx) :: Eb)) t B := by
  rw [runC, if_neg ht] at hrun
  obtain ⟨q1, hq1, hrun⟩ := bind_eq_some_opt hrun
  obtain ⟨q2, hq2, hrun⟩ := bind_eq_some_opt hrun
  have hst1 : st.p1 = true := by
    rw [← head_cons_drop t ht] at hq1
    exact runWf_head_low_state hq1 hlow
  have hst2 : st.p2 = true := by
    rw [← head_cons_drop t ht] at hq2
    exact runWf_head_low_state hq2 hlow
  rw [runC_append] at hA
  obtain ⟨stP, hP, hA⟩ := bind_eq_some_opt hA
  rw [runC, if_neg hty] at hA
  obtain ⟨q2y, hq2y, hA⟩ := bind_eq_some_opt hA
  by_cases hsiP : stP.si = true
  · rw [if_pos hsiP] at hA
    cases hA
  rw [if_neg hsiP] at hA
  rw [runC_append] at hA
  obtain ⟨stM, hMr, hA⟩ := bind_eq_some_opt hA
  rw [runC, if_neg htx] at hA
  obtain ⟨q1x, hq1x, hA⟩ := bind_eq_some_opt hA
  by_cases hsdM : stM.sd = true
  · rw [if_pos hsdM] at hA
    cases hA
  rw [if_neg hsdM] at hA
  obtain ⟨hEp1, hEp2⟩ := runC_allEmpty_p Eb ⟨q1x, stM.p2, true, stM.si⟩ st hEb hA
  have q1xT : q1x = true := by
    have : st.p1 = q1x := hEp1
    rw [hst1] at this
    exact this.symm
  subst q1xT
  obtain ⟨hEbSt, hEbTrans⟩ := runC_allEmptyTrans1 Eb ⟨true, stM.p2, true, stM.si⟩ st
    hEb rfl hA
  have hstMp2 : stM.p2 = true := by
    have : st.p2 = stM.p2 := by rw [hEbSt]
    rw [hst2] at this
    exact this.symm
  have q2yT : q2y = true := by
    have : stM.p2 = q2y := runC_p2_pres_del Mb ⟨stP.p1, q2y, stP.sd, true⟩ stM hMb hMr
    rw [hstMp2] at this
    exact this.symm
  subst q2yT
  have hsdMf : stM.sd = false := by simpa using hsdM
  obtain ⟨hMbSt, hMbTrans⟩ := runC_kindTransD_bwd Mb ⟨stP.p1, true, stP.sd, true⟩ stM
    hMb rfl hMr hsdMf
  have hsdPf : stP.sd = false := by
    rw [hMbSt] at hsdMf
    exact hsdMf
  have hsiPf : stP.si = false := by simpa using hsiP
  have hq1xP : runWf stP.p1 tx = some true := by
    rw [hMbSt] at hq1x
    exact hq1x
  have hcdH : isHighSurrogate (tx.getLastD 0) = true := by
    rcases runWf_last_high stP.p1 tx hq1xP with h | h
    · exact absurd h htx
    · exact h
  have hciH : isHighSurrogate (ty.getLastD 0) = true := by
    rcases runWf_last_high stP.p2 ty hq2y with h | h
    · exact absurd h hty
    · exact h
  have hpeelx : runWf stP.p1 tx.dropLast = some false := peel_last hq1xP htx hcdH
  have hpeely : runWf stP.p2 ty.dropLast = some false := peel_last hq2y hty hciH
  have hnilx : tx.dropLast = [] → stP.p1 = false := by
    intro hnil
    have hsingle : tx = [tx.getLastD 0] := by
      conv_lhs => rw [← dropLast_append_getLastD tx htx]
      rw [hnil]
      simp
    rw [hsingle] at hq1xP
    exact (runWf_single_high hq1xP hcdH).1
  have hnily : ty.dropLast = [] → stP.p2 = false := by
    intro hnil
    have hsingle : ty = [ty.getLastD 0] := by
      conv_lhs => rw [← dropLast_append_getLastD ty hty]
      rw [hnil]
      simp
    rw [hsingle] at hq2y
    exact (runWf_single_high hq2y hciH).1
  have hq1d : runWf false (t.drop 1) = some q1 := by
    rw [← head_cons_drop t ht, hst1, runWf_true_cons hlow] at hq1
    exact hq1
  have hq2d : runWf false (t.drop 1) = some q2 := by
    rw [← head_cons_drop t ht, hst2, runWf_true_cons hlow] at hq2
    exact hq2
  have hRev : (P ++ (DiffType.INSERT, ty) :: (Mb ++ (DiffType.DELETE, tx) :: Eb)).reverse =
      Eb.reverse ++ (DiffType.DELETE, tx) ::
        (Mb.reverse ++ (DiffType.INSERT, ty) :: P.reverse) := by
    simp [List.reverse_append]
  have hscan : deisolateScan ((P ++ (DiffType.INSERT, ty) ::
      (Mb ++ (DiffType.DELETE, tx) :: Eb)) ++ (DiffType.EQUAL, t) :: B) (-1)
      (((P ++ (DiffType.INSERT, ty) :: (Mb ++ (DiffType.DELETE, tx) :: Eb)) ++
        (DiffType.EQUAL, t) :: B).length + 2)
      (((P ++ (DiffType.INSERT, ty) ::
        (Mb ++ (DiffType.DELETE, tx) :: Eb)).length : Int) - 1) none none =
      ScanResult.stopped ((P.length : Int) - 1) (some P.length)
        (some (P.length + 1 + Mb.length)) := by
    rw [deisolateScan_eq_scanB _ _
      (P ++ (DiffType.INSERT, ty) :: (Mb ++ (DiffType.DELETE, tx) :: Eb)).length
      none none (by simp) (by simp only [List.length_append, List.length_cons]; omega)]
    rw [List.take_left, hRev]
    rw [scanB_allEmpty_skip Eb.reverse _ _ none none
      (fun e he => hEb e (List.mem_reverse.mp he)) (Or.inl rfl)]
    rw [show (((P ++ (DiffType.INSERT, ty) ::
        (Mb ++ (DiffType.DELETE, tx) :: Eb)).length : Int) - 1 -
        (Eb.reverse.length : Int)) = ((P.length + 1 + Mb.length : Nat) : Int) by
      simp only [List.length_append, List.length_cons, List.length_reverse]
      push_cast
      ring]
    rw [scanB, if_neg (by simp), if_neg htx]
    show scanB (Mb.reverse ++ (DiffType.INSERT, ty) :: P.reverse)
      (((P.length + 1 + Mb.length : Nat) : Int) - 1) none
      (if (none : Option Nat) = none then
        some ((P.length + 1 + Mb.length : Nat) : Int).toNat else none) = _
    rw [if_pos rfl, Int.toNat_natCast]
    rw [scanB_skip_found_del Mb.reverse _ _ (P.length + 1 + Mb.length)
      (fun e he => hMb e (List.mem_reverse.mp he))]
    rw [show (((P.length + 1 + Mb.length : Nat) : Int) - 1 -
        (Mb.reverse.length : Int)) = ((P.length : Nat) : Int) by
      simp only [List.length_reverse]
      push_cast
      ring]
    rw [scanB, if_neg (by simp), if_neg hty]
    show scanB P.reverse (((P.length : Nat) : Int) - 1)
      (if (none : Option Nat) = none then some ((P.length : Nat) : Int).toNat else none)
      (some (P.length + 1 + Mb.length)) = _
    rw [if_pos rfl, Int.toNat_natCast]
    rw [scanB_both_found]
  have hPclean : allEqualClean P := allEqualClean_of_append_left hAclean
  have hrw3 : ∀ w1 w2 w3 : Str,
      P ++ (DiffType.INSERT, w1) :: (Mb ++ (DiffType.DELETE, w2) :: (Eb ++
        (DiffType.EQUAL, w3) :: B)) =
      (P ++ (DiffType.INSERT, w1) :: (Mb ++ (DiffType.DELETE, w2) :: Eb)) ++
        (DiffType.EQUAL, w3) :: B := by
    intro w1 w2 w3
    rw [← append_cons_assoc, ← append_cons_assoc]
  by_cases hsh : hasSharedChar ((P ++ (DiffType.INSERT, ty) ::
      (Mb ++ (DiffType.DELETE, tx) :: Eb)) ++ (DiffType.EQUAL, t) :: B)
      P.length (P.length + 1 + Mb.length) (-1) = true
  · -- shared-character branch: the INSERT and DELETE lose their last
    -- character, the EQUAL gains the INSERT side's
    have hwq1 : runWf false ([ty.getLastD 0] ++ t) = some q1 := by
      rw [show ([ty.getLastD 0] ++ t : Str) = ty.getLastD 0 :: t from by simp]
      rw [runWf_false_cons_high hciH, ← head_cons_drop t ht, runWf_true_cons hlow]
      exact hq1d
    have hwq2 : runWf false ([ty.getLastD 0] ++ t) = some q2 := by
      rw [show ([ty.getLastD 0] ++ t : Str) = ty.getLastD 0 :: t from by simp]
      rw [runWf_false_cons_high hciH, ← head_cons_drop t ht, runWf_true_cons hlow]
      exact hq2d
    have hstep : deisolateChar ((P ++ (DiffType.INSERT, ty) ::
        (Mb ++ (DiffType.DELETE, tx) :: Eb)) ++ (DiffType.EQUAL, t) :: B)
        (P ++ (DiffType.INSERT, ty) :: (Mb ++ (DiffType.DELETE, tx) :: Eb)).length
        (-1) =
        (P ++ (DiffType.INSERT, ty.dropLast) ::
          (Mb ++ (DiffType.DELETE, tx.dropLast) :: Eb)) ++
          (DiffType.EQUAL, [ty.getLastD 0] ++ t) :: B := by
      rw [deisolateChar_bwd_eq, hscan]
      show (if hasSharedChar ((P ++ (DiffType.INSERT, ty) ::
          (Mb ++ (DiffType.DELETE, tx) :: Eb)) ++ (DiffType.EQUAL, t) :: B)
          P.length (P.length + 1 + Mb.length) (-1) = true
        then sharedBranch ((P ++ (DiffType.INSERT, ty) ::
          (Mb ++ (DiffType.DELETE, tx) :: Eb)) ++ (DiffType.EQUAL, t) :: B)
          (P ++ (DiffType.INSERT, ty) :: (Mb ++ (DiffType.DELETE, tx) :: Eb)).length
          P.length (P.length + 1 + Mb.length) (-1) 1
        else deisolateGeneral ((P ++ (DiffType.INSERT, ty) ::
          (Mb ++ (DiffType.DELETE, tx) :: Eb)) ++ (DiffType.EQUAL, t) :: B)
          (P ++ (DiffType.INSERT, ty) :: (Mb ++ (DiffType.DELETE, tx) :: Eb)).length
          (-1) 1 ((P.length : Int) - 1) (some P.length)
          (some (P.length + 1 + Mb.length))) = _
      rw [if_pos hsh]
      unfold sharedBranch
      rw [← append_cons_assoc, ← append_cons_assoc]
      rw [getD_at_length, getD_second, splitChar_fwd ty hty, splitChar_fwd tx htx]
      simp only []
      rw [setEntryText_at_length, setEntryText_second]
      rw [show (P ++ (DiffType.INSERT, ty) ::
          (Mb ++ (DiffType.DELETE, tx) :: Eb)).length =
        P.length + 1 + Mb.length + 1 + Eb.length by
        simp only [List.length_append, List.length_cons]
        omega]
      rw [setEntryText_third, getD_third]
      rw [combineChar, if_neg (by decide)]
      exact hrw3 _ _ _
    refine ⟨P ++ (DiffType.INSERT, ty.dropLast) ::
      (Mb ++ (DiffType.DELETE, tx.dropLast) :: Eb), [ty.getLastD 0] ++ t, hstep,
      by simp, ?_, Or.inr ⟨ty.getLastD 0, by simp, hciH⟩, ?_⟩
    · exact allEqualClean_build P Mb Eb _ _ (by simp) (by simp) hPclean
        (fun e he => (hMbTrans e he).1) (fun e he => (hEbTrans e he).1)
    · refine ⟨stf, ?_, hf1, hf2⟩
      rw [← append_cons_assoc, ← append_cons_assoc]
      rw [runC_append, hP]
      simp only [Option.some_bind]
      rw [show stP = (⟨stP.p1, stP.p2, stP.sd, false⟩ : CState) by rw [← hsiPf]]
      rw [runC_ins_entry2 ty.dropLast _ stP.p1 stP.p2 stP.sd false hpeely
        (fun h => (hnily h).symm)]
      rw [runC_append, transparent_runC Mb _ hMbTrans]
      simp only [Option.some_bind]
      rw [hsdPf]
      rw [runC_del_entry2 tx.dropLast _ stP.p1 false
        (if ty.dropLast = [] then false else true) false hpeelx
        (fun h => (hnilx h).symm)]
      rw [runC_append, transparent_runC Eb _ hEbTrans]
      simp only [Option.some_bind]
      rw [runC_eq_entry ([ty.getLastD 0] ++ t) B false false
        (if tx.dropLast = [] then false else true)
        (if ty.dropLast = [] then false else true) q1 q2 hwq1 hwq2
        (fun h => absurd h (by simp))]
      exact hrun
  · -- general branch: the EQUAL loses its leading low surrogate, which is
    -- appended to both the INSERT and the DELETE
    have hwy : runWf stP.p2 (ty ++ [t.headD 0]) = some false := by
      rw [runWf_append, hq2y]
      simp only [Option.some_bind]
      exact runWf_true_single_low hlow
    have hwx : runWf stP.p1 (tx ++ [t.headD 0]) = some false := by
      rw [runWf_append, hq1xP]
      simp only [Option.some_bind]
      exact runWf_true_single_low hlow
    have hstep : deisolateChar ((P ++ (DiffType.INSERT, ty) ::
        (Mb ++ (DiffType.DELETE, tx) :: Eb)) ++ (DiffType.EQUAL, t) :: B)
        (P ++ (DiffType.INSERT, ty) :: (Mb ++ (DiffType.DELETE, tx) :: Eb)).length
        (-1) =
        (P ++ (DiffType.INSERT, ty ++ [t.headD 0]) ::
          (Mb ++ (DiffType.DELETE, tx ++ [t.headD 0]) :: Eb)) ++
          (DiffType.EQUAL, t.drop 1) :: B := by
      rw [deisolateChar_bwd_eq, hscan]
      show (if hasSharedChar ((P ++ (DiffType.INSERT, ty) ::
          (Mb ++ (DiffType.DELETE, tx) :: Eb)) ++ (DiffType.EQUAL, t) :: B)
          P.length (P.length + 1 + Mb.length) (-1) = true
        then sharedBranch ((P ++ (DiffType.INSERT, ty) ::
          (Mb ++ (DiffType.DELETE, tx) :: Eb)) ++ (DiffType.EQUAL, t) :: B)
          (P ++ (DiffType.INSERT, ty) :: (Mb ++ (DiffType.DELETE, tx) :: Eb)).length
          P.length (P.length + 1 + Mb.length) (-1) 1
        else deisolateGeneral ((P ++ (DiffType.INSERT, ty) ::
          (Mb ++ (DiffType.DELETE, tx) :: Eb)) ++ (DiffType.EQUAL, t) :: B)
          (P ++ (DiffType.INSERT, ty) :: (Mb ++ (DiffType.DELETE, tx) :: Eb)).length
          (-1) 1 ((P.length : Int) - 1) (some P.length)
          (some (P.length + 1 + Mb.length))) = _
      rw [if_neg hsh]
      unfold deisolateGeneral
      rw [show (P ++ (DiffType.INSERT, ty) ::
          (Mb ++ (DiffType.DELETE, tx) :: Eb)).length =
        P.length + 1 + Mb.length + 1 + Eb.length by
        simp only [List.length_append, List.length_cons]
        omega]
      rw [← append_cons_assoc, ← append_cons_assoc]
      rw [getD_third, splitChar_bwd]
      simp only []
      rw [setEntryText_third]
      rw [getD_at_length, setEntryText_at_length]
      rw [getD_second, setEntryText_second]
      rw [combineChar, if_pos rfl, combineChar, if_pos rfl, take_one_head t ht]
      exact hrw3 _ _ _
    refine ⟨P ++ (DiffType.INSERT, ty ++ [t.headD 0]) ::
      (Mb ++ (DiffType.DELETE, tx ++ [t.headD 0]) :: Eb), t.drop 1, hstep,
      by simp, ?_, Or.inl rfl, ?_⟩
    · exact allEqualClean_build P Mb Eb _ _ (by simp) (by simp) hPclean
        (fun e he => (hMbTrans e he).1) (fun e he => (hEbTrans e he).1)
    · refine ⟨stf, ?_, hf1, hf2⟩
      rw [← append_cons_assoc, ← append_cons_assoc]
      rw [runC_append, hP]
      simp only [Option.some_bind]
      rw [show stP = (⟨stP.p1, stP.p2, stP.sd, false⟩ : CState) by rw [← hsiPf]]
      rw [runC_ins_entry2 (ty ++ [t.headD 0]) _ stP.p1 stP.p2 stP.sd false hwy
        (fun h => absurd h (by simp))]
      rw [runC_append, transparent_runC Mb _ hMbTrans]
      simp only [Option.some_bind]
      rw [hsdPf]
      rw [runC_del_entry2 (tx ++ [t.headD 0]) _ stP.p1 false
        (if (ty ++ [t.headD 0] : Str) = [] then false else true) false hwx
        (fun h => absurd h (by simp))]
      rw [runC_append, transparent_runC Eb _ hEbTrans]
      simp only [Option.some_bind]
      rw [runC_eq_entry (t.drop 1) B false false
        (if (tx ++ [t.headD 0] : Str) = [] then false else true)
        (if (ty ++ [t.headD 0] : Str) = [] then false else true) q1 q2 hq1d hq2d
        (fun _ => ⟨rfl, rfl⟩)]
      exact hrun

theorem bwd_both_insDel (P Mb Eb : List Diff) (ty tx t : Str) (B : List Diff)
    (st stf : CState)
    (ht : t ≠ []) (hlow : isLowSurrogate (t.headD 0) = true)
    (hty : ty ≠ []) (htx : tx ≠ [])
    (hMb : emptyOrKind DiffType.INSERT Mb) (hEb : allEmpty Eb)
    (hA : runC ⟨false, false, false, false⟩
      (P ++ (DiffType.DELETE, ty) :: (Mb ++ (DiffType.INSERT, tx) :: Eb)) = some st)
    (hrun : runC st ((DiffType.EQUAL, t) :: B) = some stf)
    (hf1 : stf.p1 = false) (hf2 : stf.p2 = false)
    (hAclean : allEqualClean (P ++ (DiffType.DELETE, ty) ::
      (Mb ++ (DiffType.INSERT, tx) :: Eb))) :
    BwdPost (P ++ (DiffType.DELETE, ty) :: (Mb ++ (DiffType.INSERT, tx) :: Eb)) t B := by
  rw [runC, if_neg ht] at hrun
  obtain ⟨q1, hq1, hrun⟩ := bind_eq_some_opt hrun
  obtain ⟨q2, hq2, hrun⟩ := bind_eq_some_opt hrun
  have hst1 : st.p1 = true := by
    rw [← head_cons_drop t ht] at hq1
    exact runWf_head_low_state hq1 hlow
  have hst2 : st.p2 = true := by
    rw [← head_cons_drop t ht] at hq2
    exact runWf_head_low_state hq2 hlow
  rw [runC_append] at hA
  obtain ⟨stP, hP, hA⟩ := bind_eq_some_opt hA
  rw [runC, if_neg hty] at hA
  obtain ⟨q1y, hq1y, hA⟩ := bind_eq_some_opt hA
  by_cases hsdP : stP.sd = true
  · rw [if_pos hsdP] at hA
    cases hA
  rw [if_neg hsdP] at hA
  rw [runC_append] at hA
  obtain ⟨stM, hMr, hA⟩ := bind_eq_some_opt hA
  rw [runC, if_neg htx] at hA
  obtain ⟨q2x, hq2x, hA⟩ := bind_eq_some_opt hA
  by_cases hsiM : stM.si = true
  · rw [if_pos hsiM] at hA
    cases hA
  rw [if_neg hsiM] at hA
  obtain ⟨hEp1, hEp2⟩ := runC_allEmpty_p Eb ⟨stM.p1, q2x, stM.sd, true⟩ st hEb hA
  have q2xT : q2x = true := by
    have : st.p2 = q2x := hEp2
    rw [hst2] at this
    exact this.symm
  subst q2xT
  obtain ⟨hEbSt, hEbTrans⟩ := runC_allEmptyTrans2 Eb ⟨stM.p1, true, stM.sd, true⟩ st
    hEb rfl hA
  have hstMp1 : stM.p1 = true := by
    have : st.p1 = stM.p1 := by rw [hEbSt]
    rw [hst1] at this
    exact this.symm
  have q1yT : q1y = true := by
    have : stM.p1 = q1y := runC_p1_pres_ins Mb ⟨q1y, stP.p2, true, stP.si⟩ stM hMb hMr
    rw [hstMp1] at this
    exact this.symm
  subst q1yT
  have hsiMf : stM.si = false := by simpa using hsiM
  obtain ⟨hMbSt, hMbTrans⟩ := runC_kindTransI_bwd Mb ⟨true, stP.p2, true, stP.si⟩ stM
    hMb rfl hMr hsiMf
  have hsiPf : stP.si = false := by
    rw [hMbSt] at hsiMf
    exact hsiMf
  have hsdPf : stP.sd = false := by simpa using hsdP
  have hq2xP : runWf stP.p2 tx = some true := by
    rw [hMbSt] at hq2x
    exact hq2x
  have hcdH : isHighSurrogate (ty.getLastD 0) = true := by
    rcases runWf_last_high stP.p1 ty hq1y with h | h
    · exact absurd h hty
    · exact h
  have hciH : isHighSurrogate (tx.getLastD 0) = true := by
    rcases runWf_last_high stP.p2 tx hq2xP with h | h
    · exact absurd h htx
    · exact h
  have hpeely : runWf stP.p1 ty.dropLast = some false := peel_last hq1y hty hcdH
  have hpeelx : runWf stP.p2 tx.dropLast = some false := peel_last hq2xP htx hciH
  have hnily : ty.dropLast = [] → stP.p1 = false := by
    intro hnil
    have hsingle : ty = [ty.getLastD 0] := by
      conv_lhs => rw [← dropLast_append_getLastD ty hty]
      rw [hnil]
      simp
    rw [hsingle] at hq1y
    exact (runWf_single_high hq1y hcdH).1
  have hnilx : tx.dropLast = [] → stP.p2 = false := by
    intro hnil
    have hsingle : tx = [tx.getLastD 0] := by
      conv_lhs => rw [← dropLast_append_getLastD tx htx]
      rw [hnil]
      simp
    rw [hsingle] at hq2xP
    exact (runWf_single_high hq2xP hciH).1
  have hq1d : runWf false (t.drop 1) = some q1 := by
    rw [← head_cons_drop t ht, hst1, runWf_true_cons hlow] at hq1
    exact hq1
  have hq2d : runWf false (t.drop 1) = some q2 := by
    rw [← head_cons_drop t ht, hst2, runWf_true_cons hlow] at hq2
    exact hq2
  have hRev : (P ++ (DiffType.DELETE, ty) :: (Mb ++ (DiffType.INSERT, tx) :: Eb)).reverse =
      Eb.reverse ++ (DiffType.INSERT, tx) ::
        (Mb.reverse ++ (DiffType.DELETE, ty) :: P.reverse) := by
    simp [List.reverse_append]
  have hscan : deisolateScan ((P ++ (DiffType.DELETE, ty) ::
      (Mb ++ (DiffType.INSERT, tx) :: Eb)) ++ (DiffType.EQUAL, t) :: B) (-1)
      (((P ++ (DiffType.DELETE, ty) :: (Mb ++ (DiffType.INSERT, tx) :: Eb)) ++
        (DiffType.EQUAL, t) :: B).length + 2)
      (((P ++ (DiffType.DELETE, ty) ::
        (Mb ++ (DiffType.INSERT, tx) :: Eb)).length : Int) - 1) none none =
      ScanResult.stopped ((P.length : Int) - 1) (some (P.length + 1 + Mb.length))
        (some P.length) := by
    rw [deisolateScan_eq_scanB _ _
      (P ++ (DiffType.DELETE, ty) :: (Mb ++ (DiffType.INSERT, tx) :: Eb)).length
      none none (by simp) (by simp only [List.length_append, List.length_cons]; omega)]
    rw [List.take_left, hRev]
    rw [scanB_allEmpty_skip Eb.reverse _ _ none none
      (fun e he => hEb e (List.mem_reverse.mp he)) (Or.inl rfl)]
    rw [show (((P ++ (DiffType.DELETE, ty) ::
        (Mb ++ (DiffType.INSERT, tx) :: Eb)).length : Int) - 1 -
        (Eb.reverse.length : Int)) = ((P.length + 1 + Mb.length : Nat) : Int) by
      simp only [List.length_append, List.length_cons, List.length_reverse]
      push_cast
      ring]
    rw [scanB, if_neg (by simp), if_neg htx]
    show scanB (Mb.reverse ++ (DiffType.DELETE, ty) :: P.reverse)
      (((P.length + 1 + Mb.length : Nat) : Int) - 1)
      (if (none : Option Nat) = none then
        some ((P.length + 1 + Mb.length : Nat) : Int).toNat else none) none = _
    rw [if_pos rfl, Int.toNat_natCast]
    rw [scanB_skip_found_ins Mb.reverse _ _ (P.length + 1 + Mb.length)
      (fun e he => hMb e (List.mem_reverse.mp he))]
    rw [show (((P.length + 1 + Mb.length : Nat) : Int) - 1 -
        (Mb.reverse.length : Int)) = ((P.length : Nat) : Int) by
      simp only [List.length_reverse]
      push_cast
      ring]
    rw [scanB, if_neg (by simp), if_neg hty]
    show scanB P.reverse (((P.length : Nat) : Int) - 1)
      (some (P.length + 1 + Mb.length))
      (if (none : Option Nat) = none then some ((P.length : Nat) : Int).toNat else none) = _
    rw [if_pos rfl, Int.toNat_natCast]
    rw [scanB_both_found]
  have hPclean : allEqualClean P := allEqualClean_of_append_left hAclean
  have hrw3 : ∀ w1 w2 w3 : Str,
      P ++ (DiffType.DELETE, w1) :: (Mb ++ (DiffType.INSERT, w2) :: (Eb ++
        (DiffType.EQUAL, w3) :: B)) =
      (P ++ (DiffType.DELETE, w1) :: (Mb ++ (DiffType.INSERT, w2) :: Eb)) ++
        (DiffType.EQUAL, w3) :: B := by
    intro w1 w2 w3
    rw [← append_cons_assoc, ← append_cons_assoc]
  by_cases hsh : hasSharedChar ((P ++ (DiffType.DELETE, ty) ::
      (Mb ++ (DiffType.INSERT, tx) :: Eb)) ++ (DiffType.EQUAL, t) :: B)
      (P.length + 1 + Mb.length) P.length (-1) = true
  · -- shared-character branch
    have hwq1 : runWf false ([tx.getLastD 0] ++ t) = some q1 := by
      rw [show ([tx.getLastD 0] ++ t : Str) = tx.getLastD 0 :: t from by simp]
      rw [runWf_false_cons_high hciH, ← head_cons_drop t ht, runWf_true_cons hlow]
      exact hq1d
    have hwq2 : runWf false ([tx.getLastD 0] ++ t) = some q2 := by
      rw [show ([tx.getLastD 0] ++ t : Str) = tx.getLastD 0 :: t from by simp]
      rw [runWf_false_cons_high hciH, ← head_cons_drop t ht, runWf_true_cons hlow]
      exact hq2d
    have hstep : deisolateChar ((P ++ (DiffType.DELETE, ty) ::
        (Mb ++ (DiffType.INSERT, tx) :: Eb)) ++ (DiffType.EQUAL, t) :: B)
        (P ++ (DiffType.DELETE, ty) :: (Mb ++ (DiffType.INSERT, tx) :: Eb)).length
        (-1) =
        (P ++ (DiffType.DELETE, ty.dropLast) ::
          (Mb ++ (DiffType.INSERT, tx.dropLast) :: Eb)) ++
          (DiffType.EQUAL, [tx.getLastD 0] ++ t) :: B := by
      rw [deisolateChar_bwd_eq, hscan]
      show (if hasSharedChar ((P ++ (DiffType.DELETE, ty) ::
          (Mb ++ (DiffType.INSERT, tx) :: Eb)) ++ (DiffType.EQUAL, t) :: B)
          (P.length + 1 + Mb.length) P.length (-1) = true
        then sharedBranch ((P ++ (DiffType.DELETE, ty) ::
          (Mb ++ (DiffType.INSERT, tx) :: Eb)) ++ (DiffType.EQUAL, t) :: B)
          (P ++ (DiffType.DELETE, ty) :: (Mb ++ (DiffType.INSERT, tx) :: Eb)).length
          (P.length + 1 + Mb.length) P.length (-1) 1
        else deisolateGeneral ((P ++ (DiffType.DELETE, ty) ::
          (Mb ++ (DiffType.INSERT, tx) :: Eb)) ++ (DiffType.EQUAL, t) :: B)
          (P ++ (DiffType.DELETE, ty) :: (Mb ++ (DiffType.INSERT, tx) :: Eb)).length
          (-1) 1 ((P.length : Int) - 1) (some (P.length + 1 + Mb.length))
          (some P.length)) = _
      rw [if_pos hsh]
      unfold sharedBranch
      rw [← append_cons_assoc, ← append_cons_assoc]
      rw [getD_at_length, getD_second, splitChar_fwd ty hty, splitChar_fwd tx htx]
      simp only []
      rw [setEntryText_second, setEntryText_at_length]
      rw [show (P ++ (DiffType.DELETE, ty) ::
          (Mb ++ (DiffType.INSERT, tx) :: Eb)).length =
        P.length + 1 + Mb.length + 1 + Eb.length by
        simp only [List.length_append, List.length_cons]
        omega]
      rw [setEntryText_third, getD_third]
      rw [combineChar, if_neg (by decide)]
      exact hrw3 _ _ _
    refine ⟨P ++ (DiffType.DELETE, ty.dropLast) ::
      (Mb ++ (DiffType.INSERT, tx.dropLast) :: Eb), [tx.getLastD 0] ++ t, hstep,
      by simp, ?_, Or.inr ⟨tx.getLastD 0, by simp, hciH⟩, ?_⟩
    · exact allEqualClean_build P Mb Eb _ _ (by simp) (by simp) hPclean
        (fun e he => (hMbTrans e he).1) (fun e he => (hEbTrans e he).1)
    · refine ⟨stf, ?_, hf1, hf2⟩
      rw [← append_cons_assoc, ← append_cons_assoc]
      rw [runC_append, hP]
      simp only [Option.some_bind]
      rw [show stP = (⟨stP.p1, stP.p2, false, stP.si⟩ : CState) by rw [← hsdPf]]
      rw [runC_del_entry2 ty.dropLast _ stP.p1 stP.p2 stP.si false hpeely
        (fun h => (hnily h).symm)]
      rw [runC_append, transparent_runC Mb _ hMbTrans]
      simp only [Option.some_bind]
      rw [hsiPf]
      rw [runC_ins_entry2 tx.dropLast _ false stP.p2
        (if ty.dropLast = [] then false else true) false hpeelx
        (fun h => (hnilx h).symm)]
      rw [runC_append, transparent_runC Eb _ hEbTrans]
      simp only [Option.some_bind]
      rw [runC_eq_entry ([tx.getLastD 0] ++ t) B false false
        (if ty.dropLast = [] then false else true)
        (if tx.dropLast = [] then false else true) q1 q2 hwq1 hwq2
        (fun h => absurd h (by simp))]
      exact hrun
  · -- general branch
    have hwy : runWf stP.p1 (ty ++ [t.headD 0]) = some false := by
      rw [runWf_append, hq1y]
      simp only [Option.some_bind]
      exact runWf_true_single_low hlow
    have hwx : runWf stP.p2 (tx ++ [t.headD 0]) = some false := by
      rw [runWf_append, hq2xP]
      simp only [Option.some_bind]
      exact runWf_true_single_low hlow
    have hstep : deisolateChar ((P ++ (DiffType.DELETE, ty) ::
        (Mb ++ (DiffType.INSERT, tx) :: Eb)) ++ (DiffType.EQUAL, t) :: B)
        (P ++ (DiffType.DELETE, ty) :: (Mb ++ (DiffType.INSERT, tx) :: Eb)).length
        (-1) =
        (P ++ (DiffType.DELETE, ty ++ [t.headD 0]) ::
          (Mb ++ (DiffType.INSERT, tx ++ [t.headD 0]) :: Eb)) ++
          (DiffType.EQUAL, t.drop 1) :: B := by
      rw [deisolateChar_bwd_eq, hscan]
      show (if hasSharedChar ((P ++ (DiffType.DELETE, ty) ::
          (Mb ++ (DiffType.INSERT, tx) :: Eb)) ++ (DiffType.EQUAL, t) :: B)
          (P.length + 1 + Mb.length) P.length (-1) = true
        then sharedBranch ((P ++ (DiffType.DELETE, ty) ::
          (Mb ++ (DiffType.INSERT, tx) :: Eb)) ++ (DiffType.EQUAL, t) :: B)
          (P ++ (DiffType.DELETE, ty) :: (Mb ++ (DiffType.INSERT, tx) :: Eb)).length
          (P.length + 1 + Mb.length) P.length (-1) 1
        else deisolateGeneral ((P ++ (DiffType.DELETE, ty) ::
          (Mb ++ (DiffType.INSERT, tx) :: Eb)) ++ (DiffType.EQUAL, t) :: B)
          (P ++ (DiffType.DELETE, ty) :: (Mb ++ (DiffType.INSERT, tx) :: Eb)).length
          (-1) 1 ((P.length : Int) - 1) (some (P.length + 1 + Mb.length))
          (some P.length)) = _
      rw [if_neg hsh]
      unfold deisolateGeneral
      rw [show (P ++ (DiffType.DELETE, ty) ::
          (Mb ++ (DiffType.INSERT, tx) :: Eb)).length =
        P.length + 1 + Mb.length + 1 + Eb.length by
        simp only [List.length_append, List.length_cons]
        omega]
      rw [← append_cons_assoc, ← append_cons_assoc]
      rw [getD_third, splitChar_bwd]
      simp only []
      rw [setEntryText_third]
      rw [getD_second, setEntryText_second]
      rw [getD_at_length, setEntryText_at_length]
      rw [combineChar, if_pos rfl, combineChar, if_pos rfl, take_one_head t ht]
      exact hrw3 _ _ _
    refine ⟨P ++ (DiffType.DELETE, ty ++ [t.headD 0]) ::
      (Mb ++ (DiffType.INSERT, tx ++ [t.headD 0]) :: Eb), t.drop 1, hstep,
      by simp, ?_, Or.inl rfl, ?_⟩
    · exact allEqualClean_build P Mb Eb _ _ (by simp) (by simp) hPclean
        (fun e he => (hMbTrans e he).1) (fun e he => (hEbTrans e he).1)
    · refine ⟨stf, ?_, hf1, hf2⟩
      rw [← append_cons_assoc, ← append_cons_assoc]
      rw [runC_append, hP]
      simp only [Option.some_bind]
      rw [show stP = (⟨stP.p1, stP.p2, false, stP.si⟩ : CState) by rw [← hsdPf]]
      rw [runC_del_entry2 (ty ++ [t.headD 0]) _ stP.p1 stP.p2 stP.si false hwy
        (fun h => absurd h (by simp))]
      rw [runC_append, transparent_runC Mb _ hMbTrans]
      simp only [Option.some_bind]
      rw [hsiPf]
      rw [runC_ins_entry2 (tx ++ [t.headD 0]) _ false stP.p2
        (if (ty ++ [t.headD 0] : Str) = [] then false else true) false hwx
        (fun h => absurd h (by simp))]
      rw [runC_append, transparent_runC Eb _ hEbTrans]
      simp only [Option.some_bind]
      rw [runC_eq_entry (t.drop 1) B false false
        (if (ty ++ [t.headD 0] : Str) = [] then false else true)
        (if (tx ++ [t.headD 0] : Str) = [] then false else true) q1 q2 hq1d hq2d
        (fun _ => ⟨rfl, rfl⟩)]
      exact hrun

theorem bwd_contra_allEmpty (A : List Diff) (t : Str) (B : List Diff) (st stf : CState)
    (ht : t ≠ []) (hlow : isLowSurrogate (t.headD 0) = true)
    (hA : runC ⟨false, false, false, false⟩ A = some st)
    (hrun : runC st ((DiffType.EQUAL, t) :: B) = some stf)
    (hAe : allEmpty A) : False := by
  rw [runC, if_neg ht] at hrun
  obtain ⟨q1, hq1, hrun⟩ := bind_eq_some_opt hrun
  have hst1 : st.p1 = true := by
    rw [← head_cons_drop t ht] at hq1
    exact runWf_head_low_state hq1 hlow
  obtain ⟨hp1, _⟩ := runC_allEmpty_p A ⟨false, false, false, false⟩ st hAe hA
  rw [hst1] at hp1
  cases hp1

theorem bwd_contra_eqBarrier (P E : List Diff) (u t : Str) (B : List Diff)
    (st stf : CState)
    (ht : t ≠ []) (hlow : isLowSurrogate (t.headD 0) = true)
    (hA : runC ⟨false, false, false, false⟩
      (P ++ (DiffType.EQUAL, u) :: E) = some st)
    (hrun : runC st ((DiffType.EQUAL, t) :: B) = some stf)
    (hE : allEmpty E) (hu : u ≠ [])
    (hAclean : allEqualClean (P ++ (DiffType.EQUAL, u) :: E)) : False := by
  rw [runC, if_neg ht] at hrun
  obtain ⟨q1, hq1, hrun⟩ := bind_eq_some_opt hrun
  have hst1 : st.p1 = true := by
    rw [← head_cons_drop t ht] at hq1
    exact runWf_head_low_state hq1 hlow
  rw [runC_append] at hA
  obtain ⟨stP, hP, hA⟩ := bind_eq_some_opt hA
  rw [runC, if_neg hu] at hA
  obtain ⟨qu1, hqu1, hA⟩ := bind_eq_some_opt hA
  obtain ⟨qu2, hqu2, hA⟩ := bind_eq_some_opt hA
  obtain ⟨hp1, _⟩ := runC_allEmpty_p E ⟨qu1, qu2, false, false⟩ st hE hA
  have hqu1T : qu1 = true := by
    have : st.p1 = qu1 := hp1
    rw [hst1] at this
    exact this.symm
  subst hqu1T
  have huhigh : isHighSurrogate (u.getLastD 0) = true := by
    rcases runWf_last_high stP.p1 u hqu1 with h | h
    · exact absurd h hu
    · exact h
  have hclean : entryBoundaryClean u = true :=
    hAclean (DiffType.EQUAL, u) (List.mem_append_right P (List.mem_cons_self _ _)) rfl
  rw [clean_last_not_high hclean hu] at huhigh
  cases huhigh

theorem bwd_contra_delOnly (Mb E : List Diff) (tx t : Str) (B : List Diff)
    (st stf : CState)
    (ht : t ≠ []) (hlow : isLowSurrogate (t.headD 0) = true)
    (hA : runC ⟨false, false, false, false⟩
      (Mb ++ (DiffType.DELETE, tx) :: E) = some st)
    (hrun : runC st ((DiffType.EQUAL, t) :: B) = some stf)
    (hMb : emptyOrKind DiffType.DELETE Mb) (htx : tx ≠ []) (hE : allEmpty E) : False := by
  rw [runC, if_neg ht] at hrun
  obtain ⟨q1, hq1, hrun⟩ := bind_eq_some_opt hrun
  obtain ⟨q2, hq2, hrun⟩ := bind_eq_some_opt hrun
  have hst2 : st.p2 = true := by
    rw [← head_cons_drop t ht] at hq2
    exact runWf_head_low_state hq2 hlow
  rw [runC_append] at hA
  obtain ⟨stM, hMr, hA⟩ := bind_eq_some_opt hA
  have hMp2 : stM.p2 = false := runC_p2_pres_del Mb ⟨false, false, false, false⟩ stM hMb hMr
  rw [runC, if_neg htx] at hA
  obtain ⟨q1x, hq1x, hA⟩ := bind_eq_some_opt hA
  by_cases hsd : stM.sd = true
  · rw [if_pos hsd] at hA
    cases hA
  rw [if_neg hsd] at hA
  obtain ⟨_, hp2⟩ := runC_allEmpty_p E ⟨q1x, stM.p2, true, stM.si⟩ st hE hA
  have : st.p2 = stM.p2 := hp2
  rw [hst2, hMp2] at this
  cases this

theorem bwd_contra_insOnly (Mb E : List Diff) (tx t : Str) (B : List Diff)
    (st stf : CState)
    (ht : t ≠ []) (hlow : isLowSurrogate (t.headD 0) = true)
    (hA : runC ⟨false, false, false, false⟩
      (Mb ++ (DiffType.INSERT, tx) :: E) = some st)
    (hrun : runC st ((DiffType.EQUAL, t) :: B) = some stf)
    (hMb : emptyOrKind DiffType.INSERT Mb) (htx : tx ≠ []) (hE : allEmpty E) : False := by
  rw [runC, if_neg ht] at hrun
  obtain ⟨q1, hq1, hrun⟩ := bind_eq_some_opt hrun
  have hst1 : st.p1 = true := by
    rw [← head_cons_drop t ht] at hq1
    exact runWf_head_low_state hq1 hlow
  rw [runC_append] at hA
  obtain ⟨stM, hMr, hA⟩ := bind_eq_some_opt hA
  have hMp1 : stM.p1 = false := runC_p1_pres_ins Mb ⟨false, false, false, false⟩ stM hMb hMr
  rw [runC, if_neg htx] at hA
  obtain ⟨q2x, hq2x, hA⟩ := bind_eq_some_opt hA
  by_cases hsi : stM.si = true
  · rw [if_pos hsi] at hA
    cases hA
  rw [if_neg hsi] at hA
  obtain ⟨hp1, _⟩ := runC_allEmpty_p E ⟨stM.p1, q2x, stM.sd, true⟩ st hE hA
  have : st.p1 = stM.p1 := hp1
  rw [hst1, hMp1] at this
  cases this

theorem bwd_contra_delBarrier (P Mb E : List Diff) (u tx t : Str) (B : List Diff)
    (st stf : CState)
    (ht : t ≠ []) (hlow : isLowSurrogate (t.headD 0) = true)
    (hA : runC ⟨false, false, false, false⟩
      (P ++ (DiffType.EQUAL, u) :: (Mb ++ (DiffType.DELETE, tx) :: E)) = some st)
    (hrun : runC st ((DiffType.EQUAL, t) :: B) = some stf)
    (hMb : emptyOrKind DiffType.DELETE Mb) (htx : tx ≠ []) (hE : allEmpty E)
    (hu : u ≠ [])
    (hAclean : allEqualClean (P ++ (DiffType.EQUAL, u) ::
      (Mb ++ (DiffType.DELETE, tx) :: E))) : False := by
  rw [runC, if_neg ht] at hrun
  obtain ⟨q1, hq1, hrun⟩ := bind_eq_some_opt hrun
  obtain ⟨q2, hq2, hrun⟩ := bind_eq_some_opt hrun
  have hst2 : st.p2 = true := by
    rw [← head_cons_drop t ht] at hq2
    exact runWf_head_low_state hq2 hlow
  rw [runC_append] at hA
  obtain ⟨stP, hP, hA⟩ := bind_eq_some_opt hA
  rw [runC, if_neg hu] at hA
  obtain ⟨qu1, hqu1, hA⟩ := bind_eq_some_opt hA
  obtain ⟨qu2, hqu2, hA⟩ := bind_eq_some_opt hA
  rw [runC_append] at hA
  obtain ⟨stM, hMr, hA⟩ := bind_eq_some_opt hA
  have hMp2 : stM.p2 = qu2 := runC_p2_pres_del Mb ⟨qu1, qu2, false, false⟩ stM hMb hMr
  rw [runC, if_neg htx] at hA
  obtain ⟨q1x, hq1x, hA⟩ := bind_eq_some_opt hA
  by_cases hsd : stM.sd = true
  · rw [if_pos hsd] at hA
    cases hA
  rw [if_neg hsd] at hA
  obtain ⟨_, hp2⟩ := runC_allEmpty_p E ⟨q1x, stM.p2, true, stM.si⟩ st hE hA
  have hqu2T : qu2 = true := by
    have : st.p2 = stM.p2 := hp2
    rw [hst2, hMp2] at this
    exact this.symm
  subst hqu2T
  have huhigh : isHighSurrogate (u.getLastD 0) = true := by
    rcases runWf_last_high stP.p2 u hqu2 with h | h
    · exact absurd h hu
    · exact h
  have hclean : entryBoundaryClean u = true :=
    hAclean (DiffType.EQUAL, u) (List.mem_append_right P (List.mem_cons_self _ _)) rfl
  rw [clean_last_not_high hclean hu] at huhigh
  cases huhigh

theorem bwd_contra_insBarrier (P Mb E : List Diff) (u tx t : Str) (B : List Diff)
    (st stf : CState)
    (ht : t ≠ []) (hlow : isLowSurrogate (t.headD 0) = true)
    (hA : runC ⟨false, false, false, false⟩
      (P ++ (DiffType.EQUAL, u) :: (Mb ++ (DiffType.INSERT, tx) :: E)) = some st)
    (hrun : runC st ((DiffType.EQUAL, t) :: B) = some stf)
    (hMb : emptyOrKind DiffType.INSERT Mb) (htx : tx ≠ []) (hE : allEmpty E)
    (hu : u ≠ [])
    (hAclean : allEqualClean (P ++ (DiffType.EQUAL, u) ::
      (Mb ++ (DiffType.INSERT, tx) :: E))) : False := by
  rw [runC, if_neg ht] at hrun
  obtain ⟨q1, hq1, hrun⟩ := bind_eq_some_opt hrun
  have hst1 : st.p1 = true := by
    rw [← head_cons_drop t ht] at hq1
    exact runWf_head_low_state hq1 hlow
  rw [runC_append] at hA
  obtain ⟨stP, hP, hA⟩ := bind_eq_some_opt hA
  rw [runC, if_neg hu] at hA
  obtain ⟨qu1, hqu1, hA⟩ := bind_eq_some_opt hA
  obtain ⟨qu2, hqu2, hA⟩ := bind_eq_some_opt hA
  rw [runC_append] at hA
  obtain ⟨stM, hMr, hA⟩ := bind_eq_some_opt hA
  have hMp1 : stM.p1 = qu1 := runC_p1_pres_ins Mb ⟨qu1, qu2, false, false⟩ stM hMb hMr
  rw [runC, if_neg htx] at hA
  obtain ⟨q2x, hq2x, hA⟩ := bind_eq_some_opt hA
  by_cases hsi : stM.si = true
  · rw [if_pos hsi] at hA
    cases hA
  rw [if_neg hsi] at hA
  obtain ⟨hp1, _⟩ := runC_allEmpty_p E ⟨stM.p1, q2x, stM.sd, true⟩ st hE hA
  have hqu1T : qu1 = true := by
    have : st.p1 = stM.p1 := hp1
    rw [hst1, hMp1] at this
    exact this.symm
  subst hqu1T
  have huhigh : isHighSurrogate (u.getLastD 0) = true := by
    rcases runWf_last_high stP.p1 u hqu1 with h | h
    · exact absurd h hu
    · exact h
  have hclean : entryBoundaryClean u = true :=
    hAclean (DiffType.EQUAL, u) (List.mem_append_right P (List.mem_cons_self _ _)) rfl
  rw [clean_last_not_high hclean hu] at huhigh
  cases huhigh

/-- Backward repair step: on any script region accepted by the combined
automaton whose EQUAL entries before the cursor are clean,
`deisolateChar(·, i, -1)` at a non-empty EQUAL entry starting with a low
surrogate yields the postcondition `BwdPost`. -/
theorem deisolateChar_bwd (A : List Diff) (t : Str) (B : List Diff) (st stf : CState)
    (ht : t ≠ []) (hlow : isLowSurrogate (t.headD 0) = true)
    (hA : runC ⟨false, false, false, false⟩ A = some st)
    (hrun : runC st ((DiffType.EQUAL, t) :: B) = some stf)
    (hf1 : stf.p1 = false) (hf2 : stf.p2 = false)
    (hAclean : allEqualClean A) : BwdPost A t B := by
  rcases scanShape A.reverse with hsh | ⟨E0, u, R2, hdec, hE0, hu⟩
    | ⟨E0, x, M, hdec, hE0, hx, hk, hM⟩
    | ⟨E0, x, M, u, R2, hdec, hE0, hx, hk, hM, hu⟩
    | ⟨E0, x, M, y, R2, hdec, hE0, hx, hy, hM, hk⟩
  · exact (bwd_contra_allEmpty A t B st stf ht hlow hA hrun
      (fun e he => hsh e (List.mem_reverse.mpr he))).elim
  · have hA2 : A = R2.reverse ++ (DiffType.EQUAL, u) :: E0.reverse := by
      rw [← List.reverse_reverse A, hdec]
      simp [List.reverse_append]
    subst hA2
    exact (bwd_contra_eqBarrier R2.reverse E0.reverse u t B st stf ht hlow hA hrun
      (fun e he => hE0 e (List.mem_reverse.mp he)) hu hAclean).elim
  · obtain ⟨kx, tx⟩ := x
    have hA2 : A = M.reverse ++ (kx, tx) :: E0.reverse := by
      rw [← List.reverse_reverse A, hdec]
      simp [List.reverse_append]
    subst hA2
    rcases hk with hk | hk
    · have hk2 : kx = DiffType.DELETE := hk
      subst hk2
      exact (bwd_contra_delOnly M.reverse E0.reverse tx t B st stf ht hlow hA hrun
        (fun e he => hM e (List.mem_reverse.mp he)) hx
        (fun e he => hE0 e (List.mem_reverse.mp he))).elim
    · have hk2 : kx = DiffType.INSERT := hk
      subst hk2
      exact (bwd_contra_insOnly M.reverse E0.reverse tx t B st stf ht hlow hA hrun
        (fun e he => hM e (List.mem_reverse.mp he)) hx
        (fun e he => hE0 e (List.mem_reverse.mp he))).elim
  · obtain ⟨kx, tx⟩ := x
    have hA2 : A = R2.reverse ++ (DiffType.EQUAL, u) ::
        (M.reverse ++ (kx, tx) :: E0.reverse) := by
      rw [← List.reverse_reverse A, hdec]
      simp [List.reverse_append]
    subst hA2
    rcases hk with hk | hk
    · have hk2 : kx = DiffType.DELETE := hk
      subst hk2
      exact (bwd_contra_delBarrier R2.reverse M.reverse E0.reverse u tx t B st stf
        ht hlow hA hrun (fun e he => hM e (List.mem_reverse.mp he)) hx
        (fun e he => hE0 e (List.mem_reverse.mp he)) hu hAclean).elim
    · have hk2 : kx = DiffType.INSERT := hk
      subst hk2
      exact (bwd_contra_insBarrier R2.reverse M.reverse E0.reverse u tx t B st stf
        ht hlow hA hrun (fun e he => hM e (List.mem_reverse.mp he)) hx
        (fun e he => hE0 e (List.mem_reverse.mp he)) hu hAclean).elim
  · obtain ⟨kx, tx⟩ := x
    obtain ⟨ky, ty⟩ := y
    have hA2 : A = R2.reverse ++ (ky, ty) :: (M.reverse ++ (kx, tx) :: E0.reverse) := by
      rw [← List.reverse_reverse A, hdec]
      simp [List.reverse_append]
    subst hA2
    rcases hk with ⟨hkx, hky⟩ | ⟨hkx, hky⟩
    · have hkx2 : kx = DiffType.DELETE := hkx
      have hky2 : ky = DiffType.INSERT := hky
      subst hkx2
      subst hky2
      exact bwd_both_delIns R2.reverse M.reverse E0.reverse ty tx t B st stf ht hlow
        hy hx (fun e he => hM e (List.mem_reverse.mp he))
        (fun e he => hE0 e (List.mem_reverse.mp he)) hA hrun hf1 hf2 hAclean
    · have hkx2 : kx = DiffType.INSERT := hkx
      have hky2 : ky = DiffType.DELETE := hky
      subst hkx2
      subst hky2
      exact bwd_both_insDel R2.reverse M.reverse E0.reverse ty tx t B st stf ht hlow
        hy hx (fun e he => hM e (List.mem_reverse.mp he))
        (fun e he => hE0 e (List.mem_reverse.mp he)) hA hrun hf1 hf2 hAclean

/-! ## The adjust loop invariant -/

theorem countEq_le_length (l : List Diff) : countEq l ≤ l.length :=
  List.length_filter_le _ l

theorem decomp_at (d : List Diff) (i : Nat) (h : i < d.length) :
    d = d.take i ++ (d.getD i (DiffType.EQUAL, [])) :: d.drop (i + 1) := by
  conv_lhs => rw [← List.take_append_drop i d]
  rw [List.drop_eq_getElem_cons h, List.getD_eq_getElem _ _ h]

theorem take_append_succ (A : List Diff) (e : Diff) (B : List Diff) :
    (A ++ e :: B).take (A.length + 1) = A ++ [e] := by
  rw [List.take_append_eq_append_take]
  simp

theorem drop_append_succ (A : List Diff) (e : Diff) (B : List Diff) :
    (A ++ e :: B).drop (A.length + 1) = B := by
  rw [List.drop_append_eq_append_drop]
  simp

theorem take_succ_of_lt (d : List Diff) (i : Nat) (h : i < d.length) :
    d.take (i + 1) = d.take i ++ [d.getD i (DiffType.EQUAL, [])] := by
  rw [List.take_succ]
  congr 1
  rw [List.getElem?_eq_getElem h, List.getD_eq_getElem _ _ h]
  rfl

theorem getLastD_concat (t : Str) (c : Nat) : (t ++ [c]).getLastD 0 = c := by
  simp [List.getLastD_eq_getLast?]

theorem headD_append_left (t u : Str) (ht : t ≠ []) : (t ++ u).headD 0 = t.headD 0 := by
  cases t with
  | nil => exact absurd rfl ht
  | cons c r => simp

theorem getLastD_cons_of_ne (c : Nat) (t : Str) (ht : t ≠ []) :
    (c :: t).getLastD 0 = t.getLastD 0 := by
  cases t with
  | nil => exact absurd rfl ht
  | cons c2 r => simp [List.getLastD_cons]

theorem dropLast_head (t : Str) (h2 : t.dropLast ≠ []) :
    t.dropLast.headD 0 = t.headD 0 := by
  cases t with
  | nil => exact absurd rfl h2
  | cons c r =>
    cases r with
    | nil => exact absurd rfl h2
    | cons c2 r2 => simp

theorem drop_one_getLastD (t : Str) (h : t.drop 1 ≠ []) :
    (t.drop 1).getLastD 0 = t.getLastD 0 := by
  cases t with
  | nil => exact absurd rfl h
  | cons c r =>
    have hr : r ≠ [] := by simpa using h
    simp only [List.drop_succ_cons, List.drop_zero]
    rw [getLastD_cons_of_ne c r hr]

/-- The forward-repaired EQUAL text does not end in a high surrogate. -/
theorem fwd_clean_last {s q : Bool} {t t2 : Str}
    (hq : runWf s t = some q) (ht : t ≠ [])
    (hh : isHighSurrogate (t.getLastD 0) = true)
    (hd : t2 = t.dropLast ∨ ∃ c, t2 = t ++ [c] ∧ isLowSurrogate c = true)
    (ht2 : t2 ≠ []) : isHighSurrogate (t2.getLastD 0) = false := by
  have hqt : q = true := runWf_high_last s q t hq ht hh
  subst hqt
  rcases hd with hd | ⟨c, hd, hc⟩
  · subst hd
    have hpeel : runWf s t.dropLast = some false := peel_last hq ht hh
    cases hcase : isHighSurrogate (t.dropLast.getLastD 0) with
    | false => rfl
    | true =>
      have hcon : (false : Bool) = true :=
        runWf_high_last s false t.dropLast hpeel ht2 hcase
      cases hcon
  · subst hd
    rw [getLastD_concat]
    exact low_not_high c hc

/-- The backward-repaired EQUAL text does not start with a low surrogate. -/
theorem bwd_clean_head {s q : Bool} {t t3 : Str}
    (hq : runWf s t = some q) (ht : t ≠ [])
    (hl : isLowSurrogate (t.headD 0) = true)
    (hd : t3 = t.drop 1 ∨ ∃ c, t3 = c :: t ∧ isHighSurrogate c = true)
    (ht3 : t3 ≠ []) : isLowSurrogate (t3.headD 0) = false := by
  rcases hd with hd | ⟨c, hd, hc⟩
  · subst hd
    have hcons : t.headD 0 :: t.drop 1 = t := head_cons_drop t ht
    have hst : s = true := runWf_head_low_state (by rw [hcons]; exact hq) hl
    subst hst
    rw [← hcons, runWf, if_pos hl] at hq
    obtain ⟨c2, r2, hr⟩ := cons_of_ne_nil ht3
    rw [hr] at hq ⊢
    simp only [List.headD_cons]
    exact runWf_head_not_low c2 r2 q hq
  · subst hd
    simp only [List.headD_cons]
    exact high_not_low c hc

theorem fwd_head_pres {t t2 : Str} (ht : t ≠ [])
    (hd : t2 = t.dropLast ∨ ∃ c, t2 = t ++ [c] ∧ isLowSurrogate c = true)
    (ht2 : t2 ≠ []) : t2.headD 0 = t.headD 0 := by
  rcases hd with hd | ⟨c, hd, _⟩
  · subst hd
    exact dropLast_head t ht2
  · subst hd
    exact headD_append_left t [c] ht

theorem bwd_last_pres {t t3 : Str} (ht : t ≠ [])
    (hd : t3 = t.drop 1 ∨ ∃ c, t3 = c :: t ∧ isHighSurrogate c = true)
    (ht3 : t3 ≠ []) : t3.getLastD 0 = t.getLastD 0 := by
  rcases hd with hd | ⟨c, hd, _⟩
  · subst hd
    exact drop_one_getLastD t ht3
  · subst hd
    exact getLastD_cons_of_ne c t ht

theorem fwd_t2_ne_nil {t t2 : Str} (ht : t ≠ [])
    (hl : isLowSurrogate (t.headD 0) = true)
    (hh : isHighSurrogate (t.getLastD 0) = true)
    (hd : t2 = t.dropLast ∨ ∃ c, t2 = t ++ [c] ∧ isLowSurrogate c = true) :
    t2 ≠ [] := by
  rcases hd with hd | ⟨c, hd, _⟩
  · subst hd
    cases t with
    | nil => exact absurd rfl ht
    | cons a r =>
      cases r with
      | nil =>
        simp only [List.headD_cons] at hl
        have hh2 : isHighSurrogate a = true := by simpa using hh
        rw [low_not_high a hl] at hh2
        cases hh2
      | cons b r2 => simp
  · subst hd
    simp

theorem allEqualClean_nil : allEqualClean ([] : List Diff) := by
  intro e he
  cases he

theorem allEqualClean_append_one {A : List Diff} {e : Diff}
    (hA : allEqualClean A) (ht : entryBoundaryClean e.2 = true) :
    allEqualClean (A ++ [e]) := by
  intro x hx hkx
  rcases List.mem_append.mp hx with hx | hx
  · exact hA x hx hkx
  · rcases List.mem_singleton.mp hx with rfl
    exact ht

theorem allEqualClean_append_one_ne {A : List Diff} {e : Diff}
    (hA : allEqualClean A) (hk : e.1 ≠ DiffType.EQUAL) :
    allEqualClean (A ++ [e]) := by
  intro x hx hkx
  rcases List.mem_append.mp hx with hx | hx
  · exact hA x hx hkx
  · rcases List.mem_singleton.mp hx with rfl
    exact absurd hkx hk

/-- The adjust loop preserves combined-automaton acceptance ending idle, and
leaves every EQUAL entry boundary-clean once the cursor has passed it. -/
theorem adjustLoop_invariant (fuel : Nat) : ∀ (i : Nat) (d : List Diff) (stf : CState),
    runC ⟨false, false, false, false⟩ d = some stf → stf.p1 = false → stf.p2 = false →
    allEqualClean (d.take i) →
    d.length - i + 2 * countEq (d.drop i) < fuel →
    ∃ stf2, runC ⟨false, false, false, false⟩ (adjustLoop fuel i d) = some stf2 ∧
      stf2.p1 = false ∧ stf2.p2 = false ∧ allEqualClean (adjustLoop fuel i d) := by
  induction fuel with
  | zero =>
    intro i d stf _ _ _ _ hm
    exact absurd hm (by omega)
  | succ fuel ih =>
    intro i d stf hrunAll hf1 hf2 hclean hm
    by_cases hi : i < d.length
    · rw [adjustLoop, if_pos hi]
      simp only []
      have hdropOld : d.drop i = d.getD i (DiffType.EQUAL, []) :: d.drop (i + 1) := by
        rw [List.drop_eq_getElem_cons hi, List.getD_eq_getElem _ _ hi]
      by_cases hempty : (d.getD i (DiffType.EQUAL, [])).2 = []
      · rw [if_pos hempty]
        have hle : countEq (d.drop (i + 1)) ≤ countEq (d.drop i) := by
          rw [hdropOld, countEq_cons]
          split <;> omega
        refine ih (i + 1) d stf hrunAll hf1 hf2 ?_ (by omega)
        rw [take_succ_of_lt d i hi]
        exact allEqualClean_append_one hclean (by rw [hempty]; rfl)
      · rw [if_neg hempty]
        by_cases hke : (d.getD i (DiffType.EQUAL, [])).1 = DiffType.EQUAL
        · obtain ⟨t, heq⟩ : ∃ t, d.getD i (DiffType.EQUAL, []) = (DiffType.EQUAL, t) :=
            ⟨(d.getD i (DiffType.EQUAL, [])).2, Prod.ext hke rfl⟩
          have htne : t ≠ [] := by rw [heq] at hempty; exact hempty
          have hlen : (d.take i).length = i := by rw [List.length_take]; omega
          have hdec : d = d.take i ++ (DiffType.EQUAL, t) :: d.drop (i + 1) := by
            conv_lhs => rw [decomp_at d i hi]
            rw [heq]
          have hrunAll2 : runC ⟨false, false, false, false⟩
              (d.take i ++ (DiffType.EQUAL, t) :: d.drop (i + 1)) = some stf := by
            rw [← hdec]; exact hrunAll
          rw [runC_append] at hrunAll2
          obtain ⟨st, hA, hrun⟩ := bind_eq_some_opt hrunAll2
          have hdl : d.length = i + 1 + (d.drop (i + 1)).length := by
            conv_lhs => rw [hdec]
            rw [List.length_append, hlen, List.length_cons]
            omega
          have hcntOld : countEq (d.drop i) = 1 + countEq (d.drop (i + 1)) := by
            rw [hdropOld, heq, countEq_cons]
            rfl
          by_cases hL : isLowSurrogate ((d.getD i (DiffType.EQUAL, [])).2.headD 0) = true
          · rw [if_pos (And.intro hL hke)]
            have hLt : isLowSurrogate (t.headD 0) = true := by rw [heq] at hL; exact hL
            by_cases hH : isHighSurrogate ((d.getD i (DiffType.EQUAL, [])).2.getLastD 0) = true
            · -- forward repair, then backward repair
              rw [if_pos (And.intro hH hke)]
              have hHt : isHighSurrogate (t.getLastD 0) = true := by rw [heq] at hH; exact hH
              have hstep1 : deisolateChar d i 1 =
                  deisolateChar (d.take i ++ (DiffType.EQUAL, t) :: d.drop (i + 1))
                    (d.take i).length 1 := by
                rw [← hdec, hlen]
              rw [hstep1]
              obtain ⟨t2, B2, hfeq, hfd, hflen, hfcnt, stf2, hfrun, hf21, hf22⟩ :=
                deisolateChar_fwd (d.take i) t (d.drop (i + 1)) st stf htne hHt hrun hf1 hf2
              rw [hfeq]
              have ht2 : t2 ≠ [] := fwd_t2_ne_nil htne hLt hHt hfd
              have hl2 : isLowSurrogate (t2.headD 0) = true := by
                rw [fwd_head_pres htne hfd ht2]
                exact hLt
              have hstep2 : deisolateChar (d.take i ++ (DiffType.EQUAL, t2) :: B2) i (-1) =
                  deisolateChar (d.take i ++ (DiffType.EQUAL, t2) :: B2)
                    (d.take i).length (-1) := by
                rw [hlen]
              rw [hstep2]
              obtain ⟨A2, t3, hbeq, hblen, hbclean, hbd, stf3, hbrun, hb1, hb2⟩ :=
                deisolateChar_bwd (d.take i) t2 B2 st stf2 ht2 hl2 hA hfrun hf21 hf22 hclean
              rw [hbeq]
              have hrun' := hrun
              rw [runC, if_neg htne] at hrun'
              obtain ⟨q1, hq1, _⟩ := bind_eq_some_opt hrun'
              have hfrun' := hfrun
              rw [runC, if_neg ht2] at hfrun'
              obtain ⟨q1b, hq1b, _⟩ := bind_eq_some_opt hfrun'
              have hA2len : A2.length = i := by rw [hblen, hlen]
              refine ih (i + 1) (A2 ++ (DiffType.EQUAL, t3) :: B2) stf3 hbrun hb1 hb2 ?_ ?_
              · rw [show i + 1 = A2.length + 1 from by rw [hA2len], take_append_succ]
                refine allEqualClean_append_one hbclean ?_
                by_cases ht3 : t3 = []
                · rw [ht3]; rfl
                · have hhd := bwd_clean_head hq1b ht2 hl2 hbd ht3
                  have hlast : isHighSurrogate (t3.getLastD 0) = false := by
                    rw [bwd_last_pres ht2 hbd ht3]
                    exact fwd_clean_last hq1 htne hHt hfd ht2
                  show entryBoundaryClean t3 = true
                  unfold entryBoundaryClean
                  rw [hhd, hlast]
                  simp
              · rw [show i + 1 = A2.length + 1 from by rw [hA2len], drop_append_succ]
                have hlnew : (A2 ++ (DiffType.EQUAL, t3) :: B2).length
                    = A2.length + 1 + B2.length := by
                  simp only [List.length_append, List.length_cons]
                  omega
                omega
            · -- backward repair only
              rw [if_neg (fun hc => hH hc.1)]
              have hHf : isHighSurrogate (t.getLastD 0) = false := by
                rw [heq] at hH
                simpa using hH
              have hstep1 : deisolateChar d i (-1) =
                  deisolateChar (d.take i ++ (DiffType.EQUAL, t) :: d.drop (i + 1))
                    (d.take i).length (-1) := by
                rw [← hdec, hlen]
              rw [hstep1]
              have hrun' := hrun
              rw [runC, if_neg htne] at hrun'
              obtain ⟨q1, hq1, _⟩ := bind_eq_some_opt hrun'
              obtain ⟨A2, t3, hbeq, hblen, hbclean, hbd, stf3, hbrun, hb1, hb2⟩ :=
                deisolateChar_bwd (d.take i) t (d.drop (i + 1)) st stf htne hLt hA hrun
                  hf1 hf2 hclean
              rw [hbeq]
              have hA2len : A2.length = i := by rw [hblen, hlen]
              refine ih (i + 1) (A2 ++ (DiffType.EQUAL, t3) :: d.drop (i + 1)) stf3
                hbrun hb1 hb2 ?_ ?_
              · have htk2 := take_append_succ A2 (DiffType.EQUAL, t3) (d.drop (i + 1))
                rw [hA2len] at htk2
                rw [htk2]
                refine allEqualClean_append_one hbclean ?_
                by_cases ht3 : t3 = []
                · rw [ht3]; rfl
                · have hhd := bwd_clean_head hq1 htne hLt hbd ht3
                  have hlast : isHighSurrogate (t3.getLastD 0) = false := by
                    rw [bwd_last_pres htne hbd ht3]
                    exact hHf
                  show entryBoundaryClean t3 = true
                  unfold entryBoundaryClean
                  rw [hhd, hlast]
                  simp
              · have hdp2 := drop_append_succ A2 (DiffType.EQUAL, t3) (d.drop (i + 1))
                rw [hA2len] at hdp2
                rw [hdp2]
                have hlnew : (A2 ++ (DiffType.EQUAL, t3) :: d.drop (i + 1)).length
                    = A2.length + 1 + (d.drop (i + 1)).length := by
                  simp only [List.length_append, List.length_cons]
                  omega
                omega
          · rw [if_neg (fun hc => hL hc.1)]
            have hLf : isLowSurrogate (t.headD 0) = false := by
              rw [heq] at hL
              simpa using hL
            by_cases hH : isHighSurrogate ((d.getD i (DiffType.EQUAL, [])).2.getLastD 0) = true
            · -- forward repair only
              rw [if_pos (And.intro hH hke)]
              have hHt : isHighSurrogate (t.getLastD 0) = true := by rw [heq] at hH; exact hH
              have hstep1 : deisolateChar d i 1 =
                  deisolateChar (d.take i ++ (DiffType.EQUAL, t) :: d.drop (i + 1))
                    (d.take i).length 1 := by
                rw [← hdec, hlen]
              rw [hstep1]
              have hrun' := hrun
              rw [runC, if_neg htne] at hrun'
              obtain ⟨q1, hq1, _⟩ := bind_eq_some_opt hrun'
              obtain ⟨t2, B2, hfeq, hfd, hflen, hfcnt, stf2, hfrun, hf21, hf22⟩ :=
                deisolateChar_fwd (d.take i) t (d.drop (i + 1)) st stf htne hHt hrun hf1 hf2
              rw [hfeq]
              have hrunNew : runC ⟨false, false, false, false⟩
                  (d.take i ++ (DiffType.EQUAL, t2) :: B2) = some stf2 := by
                rw [runC_append, hA, Option.some_bind]
                exact hfrun
              refine ih (i + 1) (d.take i ++ (DiffType.EQUAL, t2) :: B2) stf2
                hrunNew hf21 hf22 ?_ ?_
              · rw [show i + 1 = (d.take i).length + 1 from by rw [hlen], take_append_succ]
                refine allEqualClean_append_one hclean ?_
                by_cases ht2 : t2 = []
                · rw [ht2]; rfl
                · have hlast : isHighSurrogate (t2.getLastD 0) = false :=
                    fwd_clean_last hq1 htne hHt hfd ht2
                  have hhd : isLowSurrogate (t2.headD 0) = false := by
                    rw [fwd_head_pres htne hfd ht2]
                    exact hLf
                  show entryBoundaryClean t2 = true
                  unfold entryBoundaryClean
                  rw [hhd, hlast]
                  simp
              · rw [show i + 1 = (d.take i).length + 1 from by rw [hlen], drop_append_succ]
                have hlnew : (d.take i ++ (DiffType.EQUAL, t2) :: B2).length
                    = (d.take i).length + 1 + B2.length := by
                  simp only [List.length_append, List.length_cons]
                  omega
                omega
            · -- no repair at this entry
              rw [if_neg (fun hc => hH hc.1)]
              have hHf : isHighSurrogate (t.getLastD 0) = false := by
                rw [heq] at hH
                simpa using hH
              refine ih (i + 1) d stf hrunAll hf1 hf2 ?_ (by omega)
              rw [take_succ_of_lt d i hi, heq]
              refine allEqualClean_append_one hclean ?_
              show entryBoundaryClean t = true
              unfold entryBoundaryClean
              rw [hLf, hHf]
              simp
        · rw [if_neg (fun hc => hke hc.2), if_neg (fun hc => hke hc.2)]
          have hle : countEq (d.drop (i + 1)) ≤ countEq (d.drop i) := by
            rw [hdropOld, countEq_cons]
            split <;> omega
          refine ih (i + 1) d stf hrunAll hf1 hf2 ?_ (by omega)
          rw [take_succ_of_lt d i hi]
          exact allEqualClean_append_one_ne hclean hke
    · rw [adjustLoop, if_neg hi]
      refine ⟨stf, hrunAll, hf1, hf2, ?_⟩
      have : d.take i = d := List.take_of_length_le (by omega)
      rw [← this]
      exact hclean

theorem removeEmptiesLoop_mem (fuel : Nat) : ∀ (i : Nat) (d : List Diff) (e : Diff),
    e ∈ removeEmptiesLoop fuel i d → e ∈ d := by
  induction fuel with
  | zero =>
    intro i d e he
    exact he
  | succ fuel ih =>
    intro i d e he
    rw [removeEmptiesLoop] at he
    by_cases hi : i < d.length
    · rw [if_pos hi] at he
      by_cases hempty : (d.getD i (DiffType.EQUAL, [])).2 = []
      · rw [if_pos hempty] at he
        exact (List.eraseIdx_sublist d i).subset (ih (i + 1) (d.eraseIdx i) e he)
      · rw [if_neg hempty] at he
        exact ih (i + 1) d e he
    · rw [if_neg hi] at he
      exact he

/-- Entry cleanliness of the full surrogate repair, on any script accepted by
the combined automaton ending idle. -/
theorem adjust_all_clean (d : List Diff) (stf : CState)
    (h : runC ⟨false, false, false, false⟩ d = some stf)
    (h1 : stf.p1 = false) (h2 : stf.p2 = false) :
    ∀ e ∈ adjustDiffForSurrogatePairs d, entryBoundaryClean e.2 = true := by
  intro e he
  rw [adjustDiffForSurrogatePairs] at he
  have hcnt : countEq d ≤ d.length := countEq_le_length d
  have hmeas : d.length - 0 + 2 * countEq (d.drop 0) <
      4 * (totalTextLen d + d.length) + 16 := by
    rw [List.drop_zero]
    omega
  obtain ⟨stf2, hrun2, h21, h22, hclean2⟩ :=
    adjustLoop_invariant (4 * (totalTextLen d + d.length) + 16) 0 d stf h h1 h2
      (by rw [List.take_zero]; exact allEqualClean_nil) hmeas
  have hmem := removeEmptiesLoop_mem _ 0 _ e he
  exact allCleanC _ ⟨false, false, false, false⟩ stf2 hrun2 h21 h22 hclean2
    (fun hc => absurd hc (by decide)) (fun hc => absurd hc (by decide)) e hmem

/-! ## Grouped normal form of the merge cleanup and the combined automaton -/

/-- Grammar of the grouped normal form the merge cleanup produces: within a
run between EQUAL entries at most one DELETE and at most one INSERT, the
DELETE first.  State 0 = start of a run, 1 = after its DELETE, 2 = after its
INSERT. -/
def structFrom : Nat → List Diff → Bool
  | _, [] => true
  | g, (DiffType.DELETE, _) :: r => decide (g = 0) && structFrom 1 r
  | g, (DiffType.INSERT, _) :: r => (decide (g = 0) || decide (g = 1)) && structFrom 2 r
  | _, (DiffType.EQUAL, _) :: r => structFrom 0 r

theorem pushDelete_struct (t : Str) (r : List Diff) (h : structFrom 0 r = true) :
    structFrom 0 (pushDelete t r) = true := by
  by_cases ht : t = []
  · unfold pushDelete
    rw [if_pos ht]
    exact h
  · match r with
    | [] =>
      unfold pushDelete
      rw [if_neg ht]
      rfl
    | (DiffType.DELETE, d) :: r2 =>
      unfold pushDelete
      rw [if_neg ht]
      exact h
    | (DiffType.INSERT, x) :: r2 =>
      unfold pushDelete
      rw [if_neg ht]
      exact h
    | (DiffType.EQUAL, x) :: r2 =>
      unfold pushDelete
      rw [if_neg ht]
      exact h

theorem pushInsert_struct (t : Str) (r : List Diff) (h : structFrom 0 r = true) :
    structFrom 0 (pushInsert t r) = true := by
  by_cases ht : t = []
  · unfold pushInsert
    rw [if_pos ht]
    exact h
  · match r with
    | [] =>
      unfold pushInsert
      rw [if_neg ht]
      rfl
    | (DiffType.INSERT, x) :: r2 =>
      unfold pushInsert
      rw [if_neg ht]
      exact h
    | (DiffType.DELETE, d) :: (DiffType.INSERT, x) :: r2 =>
      unfold pushInsert
      rw [if_neg ht]
      exact h
    | (DiffType.DELETE, d) :: [] =>
      unfold pushInsert
      rw [if_neg ht]
      rfl
    | (DiffType.DELETE, d) :: (DiffType.DELETE, d2) :: r3 =>
      exact absurd (show (false : Bool) = true from h) (by decide)
    | (DiffType.DELETE, d) :: (DiffType.EQUAL, u) :: r3 =>
      unfold pushInsert
      rw [if_neg ht]
      exact h
    | (DiffType.EQUAL, u) :: r2 =>
      unfold pushInsert
      rw [if_neg ht]
      exact h

theorem pushEqual_struct (t : Str) (r : List Diff) (h : structFrom 0 r = true) :
    structFrom 0 (pushEqual t r) = true := by
  by_cases ht : t = []
  · unfold pushEqual
    rw [if_pos ht]
    exact h
  · match r with
    | [] =>
      unfold pushEqual
      rw [if_neg ht]
      rfl
    | (DiffType.EQUAL, u) :: r2 =>
      unfold pushEqual
      rw [if_neg ht]
      exact h
    | (DiffType.DELETE, d) :: r2 =>
      unfold pushEqual
      rw [if_neg ht]
      exact h
    | (DiffType.INSERT, x) :: r2 =>
      unfold pushEqual
      rw [if_neg ht]
      exact h

/-- Every grouping pass output is in grouped normal form. -/
theorem normalizeDiffs_struct (l : List Diff) :
    structFrom 0 (normalizeDiffs l) = true := by
  induction l with
  | nil => rfl
  | cons d rest ih =>
    obtain ⟨k, t⟩ := d
    rw [show normalizeDiffs ((k, t) :: rest)
        = (match ((k, t) : Diff) with
          | (DiffType.DELETE, t) => pushDelete t (normalizeDiffs rest)
          | (DiffType.INSERT, t) => pushInsert t (normalizeDiffs rest)
          | (DiffType.EQUAL, t) => pushEqual t (normalizeDiffs rest)) from rfl]
    cases k with
    | DELETE => exact pushDelete_struct t _ ih
    | INSERT => exact pushInsert_struct t _ ih
    | EQUAL => exact pushEqual_struct t _ ih

/-- The merge-cleanup loop always returns a grouped normal form. -/
theorem cleanupMergeLoop_struct (fuel : Nat) (l : List Diff) :
    structFrom 0 (cleanupMergeLoop fuel l) = true := by
  induction fuel generalizing l with
  | zero => exact normalizeDiffs_struct l
  | succ fuel ih =>
    rw [cleanupMergeLoop]
    split
    · exact normalizeDiffs_struct l
    · exact ih _

theorem cleanupMerge_struct (diffs : List Diff) :
    structFrom 0 (cleanupMerge diffs) = true :=
  cleanupMergeLoop_struct _ diffs

theorem text1_cons_del (t : Str) (l : List Diff) :
    text1 ((DiffType.DELETE, t) :: l) = t ++ text1 l := by
  rw [text1_cons]
  rfl

theorem text1_cons_ins (t : Str) (l : List Diff) :
    text1 ((DiffType.INSERT, t) :: l) = text1 l := by
  rw [text1_cons]
  rfl

theorem text1_cons_eq (t : Str) (l : List Diff) :
    text1 ((DiffType.EQUAL, t) :: l) = t ++ text1 l := by
  rw [text1_cons]
  rfl

theorem text2_cons_del (t : Str) (l : List Diff) :
    text2 ((DiffType.DELETE, t) :: l) = text2 l := by
  rw [text2_cons]
  rfl

theorem text2_cons_ins (t : Str) (l : List Diff) :
    text2 ((DiffType.INSERT, t) :: l) = t ++ text2 l := by
  rw [text2_cons]
  rfl

theorem text2_cons_eq (t : Str) (l : List Diff) :
    text2 ((DiffType.EQUAL, t) :: l) = t ++ text2 l := by
  rw [text2_cons]
  rfl

/-- A script in grouped normal form without empty entries, whose two text
reconstructions the well-formedness automaton accepts, is accepted by the
combined automaton (with the matching thread states). -/
theorem runC_of_struct (d : List Diff) : ∀ (g : Nat) (p1 p2 sd si q1 q2 : Bool),
    structFrom g d = true →
    noEmptyEntries d →
    runWf p1 (text1 d) = some q1 →
    runWf p2 (text2 d) = some q2 →
    (g = 0 → sd = false ∧ si = false) →
    (g = 1 → sd = true ∧ si = false) →
    ∃ sd2 si2, runC ⟨p1, p2, sd, si⟩ d = some ⟨q1, q2, sd2, si2⟩ := by
  induction d with
  | nil =>
    intro g p1 p2 sd si q1 q2 _ _ h1 h2 _ _
    rw [text1_nil, show runWf p1 [] = some p1 from by cases p1 <;> rfl] at h1
    rw [text2_nil, show runWf p2 [] = some p2 from by cases p2 <;> rfl] at h2
    injection h1 with h1
    injection h2 with h2
    subst h1
    subst h2
    exact ⟨sd, si, rfl⟩
  | cons e r ih =>
    intro g p1 p2 sd si q1 q2 hs hne h1 h2 hg0 hg1
    obtain ⟨k, t⟩ := e
    have htne : t ≠ [] := hne (k, t) (List.mem_cons_self _ _)
    have hner : noEmptyEntries r := noEmpty_tail hne
    cases k with
    | DELETE =>
      rw [structFrom] at hs
      obtain ⟨hg, hs⟩ := Bool.and_eq_true_iff.mp hs
      obtain ⟨hsd, hsi⟩ := hg0 (by simpa using hg)
      subst hsd
      subst hsi
      rw [text1_cons_del, runWf_append] at h1
      obtain ⟨q1m, hq1m, h1r⟩ := bind_eq_some_opt h1
      rw [text2_cons_del] at h2
      obtain ⟨sd2, si2, hrec⟩ := ih 1 q1m p2 true false q1 q2 hs hner h1r h2
        (fun hc => absurd hc (by decide)) (fun _ => ⟨rfl, rfl⟩)
      refine ⟨sd2, si2, ?_⟩
      rw [runC, if_neg htne, hq1m, Option.some_bind]
      show (if (false : Bool) = true then none
        else runC ⟨q1m, p2, true, false⟩ r) = _
      rw [if_neg (by decide)]
      exact hrec
    | INSERT =>
      rw [structFrom] at hs
      obtain ⟨hg, hs⟩ := Bool.and_eq_true_iff.mp hs
      have hsi : si = false := by
        rcases Bool.or_eq_true_iff.mp hg with hg | hg
        · exact (hg0 (by simpa using hg)).2
        · exact (hg1 (by simpa using hg)).2
      subst hsi
      rw [text2_cons_ins, runWf_append] at h2
      obtain ⟨q2m, hq2m, h2r⟩ := bind_eq_some_opt h2
      rw [text1_cons_ins] at h1
      obtain ⟨sd2, si2, hrec⟩ := ih 2 p1 q2m sd true q1 q2 hs hner h1 h2r
        (fun hc => absurd hc (by decide)) (fun hc => absurd hc (by decide))
      refine ⟨sd2, si2, ?_⟩
      rw [runC, if_neg htne, hq2m, Option.some_bind]
      show (if (false : Bool) = true then none
        else runC ⟨p1, q2m, sd, true⟩ r) = _
      rw [if_neg (by decide)]
      exact hrec
    | EQUAL =>
      rw [structFrom] at hs
      rw [text1_cons_eq, runWf_append] at h1
      obtain ⟨q1m, hq1m, h1r⟩ := bind_eq_some_opt h1
      rw [text2_cons_eq, runWf_append] at h2
      obtain ⟨q2m, hq2m, h2r⟩ := bind_eq_some_opt h2
      obtain ⟨sd2, si2, hrec⟩ := ih 0 q1m q2m false false q1 q2 hs hner h1r h2r
        (fun _ => ⟨rfl, rfl⟩) (fun hc => absurd hc (by decide))
      refine ⟨sd2, si2, ?_⟩
      rw [runC, if_neg htne, hq1m, Option.some_bind, hq2m, Option.some_bind]
      exact hrec

/-! ## Reconstruction: affix stripping agrees on both texts -/

theorem commonPrefixRaw_le_left (a : Str) : ∀ b, commonPrefixRawLength a b ≤ a.length := by
  induction a with
  | nil => intro b; exact Nat.le_refl 0
  | cons c as ih =>
    intro b
    cases b with
    | nil => exact Nat.zero_le _
    | cons d bs =>
      rw [commonPrefixRawLength]
      by_cases h : c = d
      · rw [if_pos h]
        have := ih bs
        simp only [List.length_cons]
        omega
      · rw [if_neg h]
        omega

theorem commonPrefixRaw_le_right (a : Str) : ∀ b, commonPrefixRawLength a b ≤ b.length := by
  induction a with
  | nil => intro b; exact Nat.zero_le _
  | cons c as ih =>
    intro b
    cases b with
    | nil => exact Nat.le_refl 0
    | cons d bs =>
      rw [commonPrefixRawLength]
      by_cases h : c = d
      · rw [if_pos h]
        have := ih bs
        simp only [List.length_cons]
        omega
      · rw [if_neg h]
        omega

theorem commonPrefixRaw_take (a : Str) : ∀ b,
    a.take (commonPrefixRawLength a b) = b.take (commonPrefixRawLength a b) := by
  induction a with
  | nil => intro b; rfl
  | cons c as ih =>
    intro b
    cases b with
    | nil => rfl
    | cons d bs =>
      rw [commonPrefixRawLength]
      by_cases h : c = d
      · rw [if_pos h]
        rw [Nat.add_comm]
        simp only [List.take_succ_cons]
        rw [h, ih bs]
      · rw [if_neg h]
        simp

theorem take_agree_mono {a b : Str} {n : Nat} (h : a.take n = b.take n) {m : Nat}
    (hm : m ≤ n) : a.take m = b.take m := by
  have ha : a.take m = (a.take n).take m := by
    rw [List.take_take, Nat.min_eq_left hm]
  have hb : b.take m = (b.take n).take m := by
    rw [List.take_take, Nat.min_eq_left hm]
  rw [ha, hb, h]

theorem commonPrefixLength_le_left (a b : Str) : commonPrefixLength a b ≤ a.length := by
  rw [commonPrefixLength]
  have := commonPrefixRaw_le_left a b
  split <;> omega

theorem commonPrefixLength_le_right (a b : Str) : commonPrefixLength a b ≤ b.length := by
  rw [commonPrefixLength]
  have := commonPrefixRaw_le_right a b
  split <;> omega

theorem commonPrefixLength_take (a b : Str) :
    a.take (commonPrefixLength a b) = b.take (commonPrefixLength a b) := by
  rw [commonPrefixLength]
  have hraw := commonPrefixRaw_take a b
  split
  · exact take_agree_mono hraw (by omega)
  · exact hraw

theorem reverse_take_rev (a : Str) (k : Nat) (hk : k ≤ a.length) :
    a.reverse.take k = (a.drop (a.length - k)).reverse := by
  conv_lhs => rw [← List.take_append_drop (a.length - k) a]
  rw [List.reverse_append]
  rw [List.take_left' (by rw [List.length_reverse, List.length_drop]; omega)]

theorem drop_agree_of_rev_take {a b : Str} {k : Nat}
    (h : a.reverse.take k = b.reverse.take k) (hka : k ≤ a.length) (hkb : k ≤ b.length) :
    a.drop (a.length - k) = b.drop (b.length - k) := by
  rw [reverse_take_rev a k hka, reverse_take_rev b k hkb] at h
  exact List.reverse_inj.mp h

theorem drop_agree_mono {a b : Str} {n m : Nat}
    (h : a.drop (a.length - n) = b.drop (b.length - n))
    (hna : n ≤ a.length) (hnb : n ≤ b.length) (hm : m ≤ n) :
    a.drop (a.length - m) = b.drop (b.length - m) := by
  have ha : a.length - m = (a.length - n) + (n - m) := by omega
  have hb : b.length - m = (b.length - n) + (n - m) := by omega
  rw [ha, hb, ← List.drop_drop, ← List.drop_drop, h]

theorem commonSuffixLength_le_left (a b : Str) : commonSuffixLength a b ≤ a.length := by
  rw [commonSuffixLength]
  have := commonPrefixRaw_le_left a.reverse b.reverse
  rw [List.length_reverse] at this
  split <;> omega

theorem commonSuffixLength_le_right (a b : Str) : commonSuffixLength a b ≤ b.length := by
  rw [commonSuffixLength]
  have := commonPrefixRaw_le_right a.reverse b.reverse
  rw [List.length_reverse] at this
  split <;> omega

theorem commonSuffixLength_drop (a b : Str) :
    a.drop (a.length - commonSuffixLength a b)
      = b.drop (b.length - commonSuffixLength a b) := by
  have hraw := commonPrefixRaw_take a.reverse b.reverse
  have hla := commonPrefixRaw_le_left a.reverse b.reverse
  have hlb := commonPrefixRaw_le_right a.reverse b.reverse
  rw [List.length_reverse] at hla
  rw [List.length_reverse] at hlb
  have hbase := drop_agree_of_rev_take hraw hla hlb
  rw [commonSuffixLength]
  split
  · exact drop_agree_mono hbase hla hlb (by omega)
  · exact hbase

/-! ## Reconstruction: the merge cleanup preserves both texts -/

theorem text1_optEq (x : Str) :
    text1 (if x = [] then [] else [(DiffType.EQUAL, x)]) = x := by
  by_cases hx : x = []
  · rw [if_pos hx, hx]
    rfl
  · rw [if_neg hx]
    simp [text1]

theorem text2_optEq (x : Str) :
    text2 (if x = [] then [] else [(DiffType.EQUAL, x)]) = x := by
  by_cases hx : x = []
  · rw [if_pos hx, hx]
    rfl
  · rw [if_neg hx]
    simp [text2]

theorem text1_optDel (x : Str) :
    text1 (if x = [] then [] else [(DiffType.DELETE, x)]) = x := by
  by_cases hx : x = []
  · rw [if_pos hx, hx]
    rfl
  · rw [if_neg hx]
    simp [text1]

theorem text2_optDel (x : Str) :
    text2 (if x = [] then [] else [(DiffType.DELETE, x)]) = [] := by
  by_cases hx : x = []
  · rw [if_pos hx]
    rfl
  · rw [if_neg hx]
    simp [text2]

theorem text1_optIns (x : Str) :
    text1 (if x = [] then [] else [(DiffType.INSERT, x)]) = [] := by
  by_cases hx : x = []
  · rw [if_pos hx]
    rfl
  · rw [if_neg hx]
    simp [text1]

theorem text2_optIns (x : Str) :
    text2 (if x = [] then [] else [(DiffType.INSERT, x)]) = x := by
  by_cases hx : x = []
  · rw [if_pos hx, hx]
    rfl
  · rw [if_neg hx]
    simp [text2]

theorem pushDelete_text1 (t : Str) (r : List Diff) :
    text1 (pushDelete t r) = t ++ text1 r := by
  by_cases ht : t = []
  · unfold pushDelete
    rw [if_pos ht, ht]
    rfl
  · match r with
    | [] =>
      unfold pushDelete
      rw [if_neg ht, text1_cons_del]
    | (DiffType.DELETE, d) :: r2 =>
      unfold pushDelete
      rw [if_neg ht]
      rw [text1_cons_del, text1_cons_del, List.append_assoc]
    | (DiffType.INSERT, x) :: r2 =>
      unfold pushDelete
      rw [if_neg ht, text1_cons_del]
    | (DiffType.EQUAL, x) :: r2 =>
      unfold pushDelete
      rw [if_neg ht, text1_cons_del]

theorem pushDelete_text2 (t : Str) (r : List Diff) :
    text2 (pushDelete t r) = text2 r := by
  by_cases ht : t = []
  · unfold pushDelete
    rw [if_pos ht]
  · match r with
    | [] =>
      unfold pushDelete
      rw [if_neg ht, text2_cons_del]
    | (DiffType.DELETE, d) :: r2 =>
      unfold pushDelete
      rw [if_neg ht]
      rw [text2_cons_del, text2_cons_del]
    | (DiffType.INSERT, x) :: r2 =>
      unfold pushDelete
      rw [if_neg ht, text2_cons_del]
    | (DiffType.EQUAL, x) :: r2 =>
      unfold pushDelete
      rw [if_neg ht, text2_cons_del]

theorem pushInsert_text1 (t : Str) (r : List Diff) :
    text1 (pushInsert t r) = text1 r := by
  by_cases ht : t = []
  · unfold pushInsert
    rw [if_pos ht]
  · match r with
    | [] =>
      unfold pushInsert
      rw [if_neg ht, text1_cons_ins]
    | (DiffType.INSERT, x) :: r2 =>
      unfold pushInsert
      rw [if_neg ht]
      rw [text1_cons_ins, text1_cons_ins]
    | (DiffType.DELETE, d) :: (DiffType.INSERT, x) :: r2 =>
      unfold pushInsert
      rw [if_neg ht]
      rw [text1_cons_del, text1_cons_del, text1_cons_ins, text1_cons_ins]
    | (DiffType.DELETE, d) :: [] =>
      unfold pushInsert
      rw [if_neg ht]
      rw [text1_cons_del, text1_cons_del, text1_cons_ins]
    | (DiffType.DELETE, d) :: (DiffType.DELETE, d2) :: r3 =>
      unfold pushInsert
      rw [if_neg ht]
      rw [text1_cons_del, text1_cons_del, text1_cons_ins]
    | (DiffType.DELETE, d) :: (DiffType.EQUAL, u) :: r3 =>
      unfold pushInsert
      rw [if_neg ht]
      rw [text1_cons_del, text1_cons_del, text1_cons_ins]
    | (DiffType.EQUAL, u) :: r2 =>
      unfold pushInsert
      rw [if_neg ht, text1_cons_ins]

theorem pushInsert_text2 (t : Str) (r : List Diff) :
    text2 (pushInsert t r) = t ++ text2 r := by
  by_cases ht : t = []
  · unfold pushInsert
    rw [if_pos ht, ht]
    rfl
  · match r with
    | [] =>
      unfold pushInsert
      rw [if_neg ht, text2_cons_ins]
    | (DiffType.INSERT, x) :: r2 =>
      unfold pushInsert
      rw [if_neg ht]
      rw [text2_cons_ins, text2_cons_ins, List.append_assoc]
    | (DiffType.DELETE, d) :: (DiffType.INSERT, x) :: r2 =>
      unfold pushInsert
      rw [if_neg ht]
      rw [text2_cons_del, text2_cons_del, text2_cons_ins, text2_cons_ins,
        List.append_assoc]
    | (DiffType.DELETE, d) :: [] =>
      unfold pushInsert
      rw [if_neg ht]
      rw [text2_cons_del, text2_cons_del, text2_cons_ins]
    | (DiffType.DELETE, d) :: (DiffType.DELETE, d2) :: r3 =>
      unfold pushInsert
      rw [if_neg ht]
      rw [text2_cons_del, text2_cons_del, text2_cons_ins]
    | (DiffType.DELETE, d) :: (DiffType.EQUAL, u) :: r3 =>
      unfold pushInsert
      rw [if_neg ht]
      rw [text2_cons_del, text2_cons_del, text2_cons_ins]
    | (DiffType.EQUAL, u) :: r2 =>
      unfold pushInsert
      rw [if_neg ht, text2_cons_ins]

theorem pushEqual_text1 (t : Str) (r : List Diff) :
    text1 (pushEqual t r) = t ++ text1 r := by
  by_cases ht : t = []
  · unfold pushEqual
    rw [if_pos ht, ht]
    rfl
  · match r with
    | [] =>
      unfold pushEqual
      rw [if_neg ht, text1_cons_eq]
    | (DiffType.EQUAL, u) :: r2 =>
      unfold pushEqual
      rw [if_neg ht]
      rw [text1_cons_eq, text1_cons_eq, List.append_assoc]
    | (DiffType.DELETE, d) :: r2 =>
      unfold pushEqual
      rw [if_neg ht, text1_cons_eq]
    | (DiffType.INSERT, x) :: r2 =>
      unfold pushEqual
      rw [if_neg ht, text1_cons_eq]

theorem pushEqual_text2 (t : Str) (r : List Diff) :
    text2 (pushEqual t r) = t ++ text2 r := by
  by_cases ht : t = []
  · unfold pushEqual
    rw [if_pos ht, ht]
    rfl
  · match r with
    | [] =>
      unfold pushEqual
      rw [if_neg ht, text2_cons_eq]
    | (DiffType.EQUAL, u) :: r2 =>
      unfold pushEqual
      rw [if_neg ht]
      rw [text2_cons_eq, text2_cons_eq, List.append_assoc]
    | (DiffType.DELETE, d) :: r2 =>
      unfold pushEqual
      rw [if_neg ht, text2_cons_eq]
    | (DiffType.INSERT, x) :: r2 =>
      unfold pushEqual
      rw [if_neg ht, text2_cons_eq]

theorem normalizeDiffs_text1 (l : List Diff) : text1 (normalizeDiffs l) = text1 l := by
  induction l with
  | nil => rfl
  | cons d rest ih =>
    obtain ⟨k, t⟩ := d
    cases k with
    | DELETE =>
      show text1 (pushDelete t (normalizeDiffs rest)) = text1 ((DiffType.DELETE, t) :: rest)
      rw [pushDelete_text1, ih, text1_cons_del]
    | INSERT =>
      show text1 (pushInsert t (normalizeDiffs rest)) = text1 ((DiffType.INSERT, t) :: rest)
      rw [pushInsert_text1, ih, text1_cons_ins]
    | EQUAL =>
      show text1 (pushEqual t (normalizeDiffs rest)) = text1 ((DiffType.EQUAL, t) :: rest)
      rw [pushEqual_text1, ih, text1_cons_eq]

theorem normalizeDiffs_text2 (l : List Diff) : text2 (normalizeDiffs l) = text2 l := by
  induction l with
  | nil => rfl
  | cons d rest ih =>
    obtain ⟨k, t⟩ := d
    cases k with
    | DELETE =>
      show text2 (pushDelete t (normalizeDiffs rest)) = text2 ((DiffType.DELETE, t) :: rest)
      rw [pushDelete_text2, ih, text2_cons_del]
    | INSERT =>
      show text2 (pushInsert t (normalizeDiffs rest)) = text2 ((DiffType.INSERT, t) :: rest)
      rw [pushInsert_text2, ih, text2_cons_ins]
    | EQUAL =>
      show text2 (pushEqual t (normalizeDiffs rest)) = text2 ((DiffType.EQUAL, t) :: rest)
      rw [pushEqual_text2, ih, text2_cons_eq]

theorem split3_text (x : Str) (p K : Nat) (T : Str) :
    (x.take p ++ (x.drop p).take K) ++ ((x.drop p).drop K ++ T) = x ++ T := by
  rw [List.append_assoc]
  rw [show (x.drop p).take K ++ ((x.drop p).drop K ++ T)
      = ((x.drop p).take K ++ (x.drop p).drop K) ++ T from by rw [List.append_assoc]]
  rw [List.take_append_drop, ← List.append_assoc, List.take_append_drop]

theorem absorbSweep_texts (n : Nat) : ∀ l : List Diff, l.length ≤ n →
    text1 (absorbSweep l) = text1 l ∧ text2 (absorbSweep l) = text2 l := by
  induction n with
  | zero =>
    intro l hl
    have hnil : l = [] := List.eq_nil_of_length_eq_zero (by omega)
    subst hnil
    exact ⟨rfl, rfl⟩
  | succ n ih =>
    intro l hl
    match l with
    | [] => exact ⟨rfl, rfl⟩
    | (DiffType.DELETE, d0) :: (DiffType.INSERT, i0) :: rest =>
      have hrest : rest.length ≤ n := by
        simp only [List.length_cons] at hl
        omega
      have hr := ih rest hrest
      rw [absorbSweep]
      constructor
      · rw [text1_append, text1_append, text1_append, text1_optEq, text1_optDel,
          text1_optIns, pushEqual_text1, hr.1, text1_cons_del, text1_cons_ins,
          List.append_nil]
        exact split3_text d0 _ _ _
      · rw [text2_append, text2_append, text2_append, text2_optEq, text2_optDel,
          text2_optIns, pushEqual_text2, hr.2, text2_cons_del, text2_cons_ins,
          List.append_nil]
        rw [commonPrefixLength_take d0 i0,
          commonSuffixLength_drop (d0.drop (commonPrefixLength d0 i0))
            (i0.drop (commonPrefixLength d0 i0))]
        exact split3_text i0 _ _ _
    | (DiffType.INSERT, x) :: rest =>
      have hrest : rest.length ≤ n := by
        simp only [List.length_cons] at hl
        omega
      have hr := ih rest hrest
      constructor
      · show text1 ((DiffType.INSERT, x) :: absorbSweep rest)
          = text1 ((DiffType.INSERT, x) :: rest)
        rw [text1_cons_ins, text1_cons_ins, hr.1]
      · show text2 ((DiffType.INSERT, x) :: absorbSweep rest)
          = text2 ((DiffType.INSERT, x) :: rest)
        rw [text2_cons_ins, text2_cons_ins, hr.2]
    | (DiffType.EQUAL, x) :: rest =>
      have hrest : rest.length ≤ n := by
        simp only [List.length_cons] at hl
        omega
      have hr := ih rest hrest
      constructor
      · show text1 ((DiffType.EQUAL, x) :: absorbSweep rest)
          = text1 ((DiffType.EQUAL, x) :: rest)
        rw [text1_cons_eq, text1_cons_eq, hr.1]
      · show text2 ((DiffType.EQUAL, x) :: absorbSweep rest)
          = text2 ((DiffType.EQUAL, x) :: rest)
        rw [text2_cons_eq, text2_cons_eq, hr.2]
    | (DiffType.DELETE, d0) :: [] =>
      constructor
      · show text1 ((DiffType.DELETE, d0) :: absorbSweep [])
          = text1 ((DiffType.DELETE, d0) :: [])
        rfl
      · rfl
    | (DiffType.DELETE, d0) :: (DiffType.DELETE, x) :: rest =>
      have hrest : ((DiffType.DELETE, x) :: rest).length ≤ n := by
        simp only [List.length_cons] at hl ⊢
        omega
      have hr := ih ((DiffType.DELETE, x) :: rest) hrest
      constructor
      · show text1 ((DiffType.DELETE, d0) :: absorbSweep ((DiffType.DELETE, x) :: rest))
          = text1 ((DiffType.DELETE, d0) :: (DiffType.DELETE, x) :: rest)
        rw [text1_cons_del, text1_cons_del, hr.1]
      · show text2 ((DiffType.DELETE, d0) :: absorbSweep ((DiffType.DELETE, x) :: rest))
          = text2 ((DiffType.DELETE, d0) :: (DiffType.DELETE, x) :: rest)
        rw [text2_cons_del, text2_cons_del, hr.2]
    | (DiffType.DELETE, d0) :: (DiffType.EQUAL, x) :: rest =>
      have hrest : ((DiffType.EQUAL, x) :: rest).length ≤ n := by
        simp only [List.length_cons] at hl ⊢
        omega
      have hr := ih ((DiffType.EQUAL, x) :: rest) hrest
      constructor
      · show text1 ((DiffType.DELETE, d0) :: absorbSweep ((DiffType.EQUAL, x) :: rest))
          = text1 ((DiffType.DELETE, d0) :: (DiffType.EQUAL, x) :: rest)
        rw [text1_cons_del, text1_cons_del, hr.1]
      · show text2 ((DiffType.DELETE, d0) :: absorbSweep ((DiffType.EQUAL, x) :: rest))
          = text2 ((DiffType.DELETE, d0) :: (DiffType.EQUAL, x) :: rest)
        rw [text2_cons_del, text2_cons_del, hr.2]

theorem cleanupMergeLoop_texts (fuel : Nat) : ∀ l : List Diff,
    text1 (cleanupMergeLoop fuel l) = text1 l ∧
      text2 (cleanupMergeLoop fuel l) = text2 l := by
  induction fuel with
  | zero =>
    intro l
    exact ⟨normalizeDiffs_text1 l, normalizeDiffs_text2 l⟩
  | succ fuel ih =>
    intro l
    rw [cleanupMergeLoop]
    split
    · exact ⟨normalizeDiffs_text1 l, normalizeDiffs_text2 l⟩
    · constructor
      · rw [(ih _).1,
          (absorbSweep_texts (normalizeDiffs l).length (normalizeDiffs l)
            (Nat.le_refl _)).1]
        exact normalizeDiffs_text1 l
      · rw [(ih _).2,
          (absorbSweep_texts (normalizeDiffs l).length (normalizeDiffs l)
            (Nat.le_refl _)).2]
        exact normalizeDiffs_text2 l

theorem cleanupMerge_text1 (diffs : List Diff) :
    text1 (cleanupMerge diffs) = text1 diffs :=
  (cleanupMergeLoop_texts _ diffs).1

theorem cleanupMerge_text2 (diffs : List Diff) :
    text2 (cleanupMerge diffs) = text2 diffs :=
  (cleanupMergeLoop_texts _ diffs).2

/-! ## Reconstruction: substring search and the half match -/

theorem isPrefixOf_ne_nil {needle hay : Str} (hne : needle ≠ [])
    (h : needle.isPrefixOf hay = true) : hay ≠ [] := by
  cases needle with
  | nil => exact absurd rfl hne
  | cons c r =>
    cases hay with
    | nil => cases h
    | cons d s => simp

theorem indexOfAux_spec (needle : Str) : ∀ (hay : Str) (i r : Nat),
    indexOfAux needle hay i = some r →
    i ≤ r ∧ r - i ≤ hay.length ∧ needle.isPrefixOf (hay.drop (r - i)) = true := by
  intro hay
  induction hay with
  | nil =>
    intro i r h
    rw [indexOfAux] at h
    by_cases hn : needle = []
    · rw [if_pos hn] at h
      injection h with h
      subst h
      refine ⟨Nat.le_refl i, by simp, ?_⟩
      rw [hn]
      simp
    · rw [if_neg hn] at h
      cases h
  | cons c rest ih =>
    intro i r h
    rw [indexOfAux] at h
    by_cases hp : needle.isPrefixOf (c :: rest) = true
    · rw [if_pos hp] at h
      injection h with h
      subst h
      exact ⟨Nat.le_refl i, by simp, by rw [Nat.sub_self]; exact hp⟩
    · rw [if_neg hp] at h
      obtain ⟨h1, h2, h3⟩ := ih (i + 1) r h
      refine ⟨by omega, by simp; omega, ?_⟩
      rw [show r - i = (r - (i + 1)) + 1 from by omega]
      simpa using h3

theorem indexOfSub_decomp (hay needle : Str) (idx : Nat)
    (h : indexOfSub hay needle = some idx) :
    hay = hay.take idx ++ needle ++ hay.drop (idx + needle.length) := by
  obtain ⟨-, hle, hpre⟩ := indexOfAux_spec needle hay 0 idx h
  rw [Nat.sub_zero] at hle hpre
  obtain ⟨rest, hrest⟩ := List.isPrefixOf_iff_prefix.mp hpre
  have h2 : hay.drop (idx + needle.length) = rest := by
    rw [← List.drop_drop, ← hrest]
    exact List.drop_left needle rest
  rw [h2, List.append_assoc, hrest, List.take_append_drop]

theorem indexOfFrom_bound (hay needle : Str) (hne : needle ≠ []) (start j : Nat)
    (h : indexOfFrom hay needle start = some j) : j ≤ hay.length := by
  rw [indexOfFrom] at h
  cases haux : indexOfAux needle (hay.drop start) 0 with
  | none =>
    rw [haux] at h
    cases h
  | some r =>
    rw [haux] at h
    simp only [Option.map_some'] at h
    injection h with h
    obtain ⟨-, hle, hpre⟩ := indexOfAux_spec needle (hay.drop start) 0 r haux
    rw [Nat.sub_zero] at hle hpre
    have hne2 : (hay.drop start).drop r ≠ [] := isPrefixOf_ne_nil hne hpre
    have hrlt : r < (hay.drop start).length := by
      by_contra hcon
      push_neg at hcon
      rw [List.drop_eq_nil_of_le hcon] at hne2
      exact hne2 rfl
    rw [List.length_drop] at hrlt
    omega

/-- The split-in-three decomposition a half-match candidate asserts of both
texts. -/
def HMD (long short : Str) (r : Str × Str × Str × Str × Str) : Prop :=
  long = r.1 ++ r.2.2.2.2 ++ r.2.1 ∧ short = r.2.2.1 ++ r.2.2.2.2 ++ r.2.2.2.1

theorem hm_new_decomp (long short : Str) (i j : Nat)
    (hi : i ≤ long.length) (hj : j ≤ short.length) :
    long = long.take (i - commonSuffixLength (long.take i) (short.take j)) ++
        ((short.drop (j - commonSuffixLength (long.take i) (short.take j))).take
            (commonSuffixLength (long.take i) (short.take j)) ++
          (short.drop j).take (commonPrefixLength (long.drop i) (short.drop j))) ++
        long.drop (i + commonPrefixLength (long.drop i) (short.drop j)) ∧
    short = short.take (j - commonSuffixLength (long.take i) (short.take j)) ++
        ((short.drop (j - commonSuffixLength (long.take i) (short.take j))).take
            (commonSuffixLength (long.take i) (short.take j)) ++
          (short.drop j).take (commonPrefixLength (long.drop i) (short.drop j))) ++
        short.drop (j + commonPrefixLength (long.drop i) (short.drop j)) := by
  have hsli : commonSuffixLength (long.take i) (short.take j) ≤ i := by
    have := commonSuffixLength_le_left (long.take i) (short.take j)
    rw [List.length_take, Nat.min_eq_left hi] at this
    exact this
  have hslj : commonSuffixLength (long.take i) (short.take j) ≤ j := by
    have := commonSuffixLength_le_right (long.take i) (short.take j)
    rw [List.length_take, Nat.min_eq_left hj] at this
    exact this
  have hsuf0 := commonSuffixLength_drop (long.take i) (short.take j)
  rw [List.length_take, Nat.min_eq_left hi, List.length_take, Nat.min_eq_left hj] at hsuf0
  have hpre0 := commonPrefixLength_take (long.drop i) (short.drop j)
  constructor
  · have e1 : long.take i
        = long.take (i - commonSuffixLength (long.take i) (short.take j)) ++
          (short.drop (j - commonSuffixLength (long.take i) (short.take j))).take
            (commonSuffixLength (long.take i) (short.take j)) := by
      conv_lhs => rw [← List.take_append_drop
        (i - commonSuffixLength (long.take i) (short.take j)) (long.take i)]
      congr 1
      · rw [List.take_take, Nat.min_eq_left (by omega)]
      · rw [hsuf0, List.drop_take]
        congr 1
        omega
    have e2 : long.drop i
        = (short.drop j).take (commonPrefixLength (long.drop i) (short.drop j)) ++
          long.drop (i + commonPrefixLength (long.drop i) (short.drop j)) := by
      conv_lhs => rw [← List.take_append_drop
        (commonPrefixLength (long.drop i) (short.drop j)) (long.drop i)]
      rw [hpre0, List.drop_drop]
    conv_lhs => rw [← List.take_append_drop i long, e1, e2]
    rw [List.append_assoc, List.append_assoc, List.append_assoc]
  · have e1 : short.take j
        = short.take (j - commonSuffixLength (long.take i) (short.take j)) ++
          (short.drop (j - commonSuffixLength (long.take i) (short.take j))).take
            (commonSuffixLength (long.take i) (short.take j)) := by
      conv_lhs => rw [← List.take_append_drop
        (j - commonSuffixLength (long.take i) (short.take j)) (short.take j)]
      congr 1
      · rw [List.take_take, Nat.min_eq_left (by omega)]
      · rw [List.drop_take]
        congr 1
        omega
    have e2 : short.drop j
        = (short.drop j).take (commonPrefixLength (long.drop i) (short.drop j)) ++
          short.drop (j + commonPrefixLength (long.drop i) (short.drop j)) := by
      conv_lhs => rw [← List.take_append_drop
        (commonPrefixLength (long.drop i) (short.drop j)) (short.drop j)]
      congr 1
      rw [List.drop_drop]
    conv_lhs => rw [← List.take_append_drop j short, e1, e2]
    rw [List.append_assoc, List.append_assoc, List.append_assoc]

theorem halfMatchILoop_decomp (long short : Str) (i : Nat) (seed : Str)
    (hi : i ≤ long.length) (hseed : seed ≠ []) :
    ∀ (fuel searchFrom : Nat) (best : Str × Str × Str × Str × Str),
    (best = ([], [], [], [], []) ∨ HMD long short best) →
    (halfMatchILoop long short i seed fuel searchFrom best = ([], [], [], [], []) ∨
      HMD long short (halfMatchILoop long short i seed fuel searchFrom best)) := by
  intro fuel
  induction fuel with
  | zero =>
    intro sf best hb
    rw [halfMatchILoop]
    exact hb
  | succ fuel ih =>
    intro sf best hb
    rw [halfMatchILoop]
    cases hidx : indexOfFrom short seed sf with
    | none =>
      simp only [hidx]
      exact hb
    | some j =>
      simp only [hidx]
      refine ih (j + 1) _ ?_
      by_cases hcmp : best.2.2.2.2.length
          < commonSuffixLength (long.take i) (short.take j)
            + commonPrefixLength (long.drop i) (short.drop j)
      · rw [if_pos hcmp]
        right
        have hj : j ≤ short.length := indexOfFrom_bound short seed hseed sf j hidx
        exact hm_new_decomp long short i j hi hj
      · rw [if_neg hcmp]
        exact hb

theorem halfMatchI_decomp (long short : Str) (i : Nat) (hi : i ≤ long.length)
    (hseed : (long.drop i).take (long.length / 4) ≠ []) (h4 : 4 ≤ long.length)
    (r : Str × Str × Str × Str × Str) (h : halfMatchI long short i = some r) :
    HMD long short r := by
  rw [halfMatchI] at h
  split at h
  · rename_i hg
    injection h with h
    subst h
    rcases halfMatchILoop_decomp long short i ((long.drop i).take (long.length / 4))
        hi hseed (short.length + 2) 0 ([], [], [], [], []) (Or.inl rfl) with hinit | hd
    · rw [hinit] at hg
      have hg2 : long.length ≤ 0 := hg
      omega
    · exact hd
  · cases h

theorem halfMatch_decomp (t1 t2 p1 s1 p2 s2 midc : Str)
    (h : halfMatch t1 t2 = some (p1, s1, p2, s2, midc)) :
    t1 = p1 ++ midc ++ s1 ∧ t2 = p2 ++ midc ++ s2 := by
  rw [halfMatch] at h
  by_cases horient : t2.length < t1.length
  · simp only [if_pos horient] at h
    split at h
    · cases h
    · rename_i hg
      rw [Bool.or_eq_true] at hg
      simp only [decide_eq_true_eq] at hg
      push_neg at hg
      have h4 : 4 ≤ t1.length := hg.1
      have hseed1 : (t1.drop ((t1.length + 3) / 4)).take (t1.length / 4) ≠ [] := by
        intro hcon
        have hcon2 := congrArg List.length hcon
        rw [List.length_take, List.length_drop] at hcon2
        simp only [List.length_nil] at hcon2
        omega
      have hseed2 : (t1.drop ((t1.length + 1) / 2)).take (t1.length / 4) ≠ [] := by
        intro hcon
        have hcon2 := congrArg List.length hcon
        rw [List.length_take, List.length_drop] at hcon2
        simp only [List.length_nil] at hcon2
        omega
      have hi1 : (t1.length + 3) / 4 ≤ t1.length := by omega
      have hi2 : (t1.length + 1) / 2 ≤ t1.length := by omega
      cases hm1 : halfMatchI t1 t2 ((t1.length + 3) / 4) with
      | none =>
        cases hm2 : halfMatchI t1 t2 ((t1.length + 1) / 2) with
        | none =>
          rw [hm1, hm2] at h
          cases h
        | some b =>
          obtain ⟨b1, b2, b3, b4, b5⟩ := b
          rw [hm1, hm2] at h
          injection h with h
          injection h with he1 h
          injection h with he2 h
          injection h with he3 h
          injection h with he4 he5
          subst he1
          subst he2
          subst he3
          subst he4
          subst he5
          have hd := halfMatchI_decomp t1 t2 _ hi2 hseed2 h4 _ hm2
          exact ⟨hd.1, hd.2⟩
      | some a =>
        obtain ⟨a1, a2, a3, a4, a5⟩ := a
        cases hm2 : halfMatchI t1 t2 ((t1.length + 1) / 2) with
        | none =>
          rw [hm1, hm2] at h
          injection h with h
          injection h with he1 h
          injection h with he2 h
          injection h with he3 h
          injection h with he4 he5
          subst he1
          subst he2
          subst he3
          subst he4
          subst he5
          have hd := halfMatchI_decomp t1 t2 _ hi1 hseed1 h4 _ hm1
          exact ⟨hd.1, hd.2⟩
        | some b =>
          obtain ⟨b1, b2, b3, b4, b5⟩ := b
          rw [hm1, hm2] at h
          split at h
          · cases h
          · rename_i heq
            injection h with h
            injection h with he1 h
            injection h with he2 h
            injection h with he3 h
            injection h with he4 he5
            subst he1
            subst he2
            subst he3
            subst he4
            subst he5
            have heq2 : (if b5.length < a5.length
                then some ((a1, a2, a3, a4, a5) : Str × Str × Str × Str × Str)
                else some (b1, b2, b3, b4, b5)) = _ := heq
            by_cases hlen : b5.length < a5.length
            · rw [if_pos hlen] at heq2
              injection heq2 with heq2
              injection heq2 with ha1 heq2
              injection heq2 with ha2 heq2
              injection heq2 with ha3 heq2
              injection heq2 with ha4 ha5
              subst ha1
              subst ha2
              subst ha3
              subst ha4
              subst ha5
              have hd := halfMatchI_decomp t1 t2 _ hi1 hseed1 h4 _ hm1
              exact ⟨hd.1, hd.2⟩
            · rw [if_neg hlen] at heq2
              injection heq2 with heq2
              injection heq2 with hb1 heq2
              injection heq2 with hb2 heq2
              injection heq2 with hb3 heq2
              injection heq2 with hb4 hb5
              subst hb1
              subst hb2
              subst hb3
              subst hb4
              subst hb5
              have hd := halfMatchI_decomp t1 t2 _ hi2 hseed2 h4 _ hm2
              exact ⟨hd.1, hd.2⟩
  · simp only [if_neg horient] at h
    split at h
    · cases h
    · rename_i hg
      rw [Bool.or_eq_true] at hg
      simp only [decide_eq_true_eq] at hg
      push_neg at hg
      have h4 : 4 ≤ t2.length := hg.1
      have hseed1 : (t2.drop ((t2.length + 3) / 4)).take (t2.length / 4) ≠ [] := by
        intro hcon
        have hcon2 := congrArg List.length hcon
        rw [List.length_take, List.length_drop] at hcon2
        simp only [List.length_nil] at hcon2
        omega
      have hseed2 : (t2.drop ((t2.length + 1) / 2)).take (t2.length / 4) ≠ [] := by
        intro hcon
        have hcon2 := congrArg List.length hcon
        rw [List.length_take, List.length_drop] at hcon2
        simp only [List.length_nil] at hcon2
        omega
      have hi1 : (t2.length + 3) / 4 ≤ t2.length := by omega
      have hi2 : (t2.length + 1) / 2 ≤ t2.length := by omega
      cases hm1 : halfMatchI t2 t1 ((t2.length + 3) / 4) with
      | none =>
        cases hm2 : halfMatchI t2 t1 ((t2.length + 1) / 2) with
        | none =>
          rw [hm1, hm2] at h
          cases h
        | some b =>
          obtain ⟨b1, b2, b3, b4, b5⟩ := b
          rw [hm1, hm2] at h
          injection h with h
          injection h with he1 h
          injection h with he2 h
          injection h with he3 h
          injection h with he4 he5
          subst he1
          subst he2
          subst he3
          subst he4
          subst he5
          have hd := halfMatchI_decomp t2 t1 _ hi2 hseed2 h4 _ hm2
          exact ⟨hd.2, hd.1⟩
      | some a =>
        obtain ⟨a1, a2, a3, a4, a5⟩ := a
        cases hm2 : halfMatchI t2 t1 ((t2.length + 1) / 2) with
        | none =>
          rw [hm1, hm2] at h
          injection h with h
          injection h with he1 h
          injection h with he2 h
          injection h with he3 h
          injection h with he4 he5
          subst he1
          subst he2
          subst he3
          subst he4
          subst he5
          have hd := halfMatchI_decomp t2 t1 _ hi1 hseed1 h4 _ hm1
          exact ⟨hd.2, hd.1⟩
        | some b =>
          obtain ⟨b1, b2, b3, b4, b5⟩ := b
          rw [hm1, hm2] at h
          split at h
          · cases h
          · rename_i heq
            injection h with h
            injection h with he1 h
            injection h with he2 h
            injection h with he3 h
            injection h with he4 he5
            subst he1
            subst he2
            subst he3
            subst he4
            subst he5
            have heq2 : (if b5.length < a5.length
                then some ((a1, a2, a3, a4, a5) : Str × Str × Str × Str × Str)
                else some (b1, b2, b3, b4, b5)) = _ := heq
            by_cases hlen : b5.length < a5.length
            · rw [if_pos hlen] at heq2
              injection heq2 with heq2
              injection heq2 with ha1 heq2
              injection heq2 with ha2 heq2
              injection heq2 with ha3 heq2
              injection heq2 with ha4 ha5
              subst ha1
              subst ha2
              subst ha3
              subst ha4
              subst ha5
              have hd := halfMatchI_decomp t2 t1 _ hi1 hseed1 h4 _ hm1
              exact ⟨hd.2, hd.1⟩
            · rw [if_neg hlen] at heq2
              injection heq2 with heq2
              injection heq2 with hb1 heq2
              injection heq2 with hb2 heq2
              injection heq2 with hb3 heq2
              injection heq2 with hb4 hb5
              subst hb1
              subst hb2
              subst hb3
              subst hb4
              subst hb5
              have hd := halfMatchI_decomp t2 t1 _ hi2 hseed2 h4 _ hm2
              exact ⟨hd.2, hd.1⟩

/-! ## Reconstruction: line-mode encoding round trip -/

theorem splitLinesGo_flatten (t : Str) : ∀ cur : Str,
    (splitLinesGo cur t).flatten = cur.reverse ++ t := by
  induction t with
  | nil =>
    intro cur
    rw [splitLinesGo]
    by_cases hc : cur = []
    · rw [if_pos hc, hc]
      rfl
    · rw [if_neg hc]
      simp
  | cons c rest ih =>
    intro cur
    rw [splitLinesGo]
    by_cases hc : c = 10
    · rw [if_pos hc]
      rw [List.flatten_cons, ih []]
      simp
    · rw [if_neg hc]
      rw [ih (c :: cur)]
      simp

theorem splitLines_flatten (t : Str) : (splitLines t).flatten = t := by
  rw [splitLines, splitLinesGo_flatten]
  rfl

/-- Expand a code string back through the line table. -/
def decodeStr (arr : List Str) (u : Str) : Str :=
  (u.map (fun code => arr.getD code [])).flatten

theorem decodeStr_append (arr : List Str) (u v : Str) :
    decodeStr arr (u ++ v) = decodeStr arr u ++ decodeStr arr v := by
  unfold decodeStr
  rw [List.map_append, List.flatten_append]

theorem text1_charsToLines (d : List Diff) (arr : List Str) :
    text1 (charsToLines d arr) = decodeStr arr (text1 d) := by
  induction d with
  | nil => rfl
  | cons e r ih =>
    obtain ⟨k, t⟩ := e
    cases k with
    | DELETE =>
      show text1 ((DiffType.DELETE, decodeStr arr t) :: charsToLines r arr)
        = decodeStr arr (text1 ((DiffType.DELETE, t) :: r))
      rw [text1_cons_del, text1_cons_del, decodeStr_append, ih]
    | INSERT =>
      show text1 ((DiffType.INSERT, decodeStr arr t) :: charsToLines r arr)
        = decodeStr arr (text1 ((DiffType.INSERT, t) :: r))
      rw [text1_cons_ins, text1_cons_ins, ih]
    | EQUAL =>
      show text1 ((DiffType.EQUAL, decodeStr arr t) :: charsToLines r arr)
        = decodeStr arr (text1 ((DiffType.EQUAL, t) :: r))
      rw [text1_cons_eq, text1_cons_eq, decodeStr_append, ih]

theorem text2_charsToLines (d : List Diff) (arr : List Str) :
    text2 (charsToLines d arr) = decodeStr arr (text2 d) := by
  induction d with
  | nil => rfl
  | cons e r ih =>
    obtain ⟨k, t⟩ := e
    cases k with
    | DELETE =>
      show text2 ((DiffType.DELETE, decodeStr arr t) :: charsToLines r arr)
        = decodeStr arr (text2 ((DiffType.DELETE, t) :: r))
      rw [text2_cons_del, text2_cons_del, ih]
    | INSERT =>
      show text2 ((DiffType.INSERT, decodeStr arr t) :: charsToLines r arr)
        = decodeStr arr (text2 ((DiffType.INSERT, t) :: r))
      rw [text2_cons_ins, text2_cons_ins, decodeStr_append, ih]
    | EQUAL =>
      show text2 ((DiffType.EQUAL, decodeStr arr t) :: charsToLines r arr)
        = decodeStr arr (text2 ((DiffType.EQUAL, t) :: r))
      rw [text2_cons_eq, text2_cons_eq, decodeStr_append, ih]

theorem findLineIdx_spec (line : Str) : ∀ (arr : List Str) (i k : Nat),
    findLineIdx arr line i = some k →
    i ≤ k ∧ k - i < arr.length ∧ arr.getD (k - i) [] = line := by
  intro arr
  induction arr with
  | nil =>
    intro i k h
    cases h
  | cons x rest ih =>
    intro i k h
    rw [findLineIdx] at h
    by_cases hx : x = line
    · rw [if_pos hx] at h
      injection h with h
      subst h
      refine ⟨Nat.le_refl _, by simp, ?_⟩
      rw [Nat.sub_self]
      exact hx
    · rw [if_neg hx] at h
      obtain ⟨h1, h2, h3⟩ := ih (i + 1) k h
      refine ⟨by omega, by simp only [List.length_cons]; omega, ?_⟩
      rw [show k - i = (k - (i + 1)) + 1 from by omega]
      simpa using h3

theorem prefix_getD {a b : List Str} (h : a <+: b) {k : Nat} (hk : k < a.length) :
    b.getD k [] = a.getD k [] := by
  obtain ⟨t, ht⟩ := h
  subst ht
  rw [List.getD_append _ _ _ _ hk]

theorem encodeLinesGo_extends (lines : List Str) : ∀ arr : List Str,
    arr <+: (encodeLinesGo lines arr).1 := by
  induction lines with
  | nil =>
    intro arr
    exact List.prefix_refl _
  | cons line rest ih =>
    intro arr
    rw [encodeLinesGo]
    cases hfind : findLineIdx arr line 0 with
    | some k =>
      simp only [hfind]
      exact ih arr
    | none =>
      simp only [hfind]
      exact List.IsPrefix.trans (List.prefix_append arr [line]) (ih (arr ++ [line]))

theorem encodeLinesGo_decode (lines : List Str) : ∀ (arr big : List Str),
    (encodeLinesGo lines arr).1 <+: big →
    ((encodeLinesGo lines arr).2.map (fun c => big.getD c [])) = lines := by
  induction lines with
  | nil =>
    intro arr big _
    rfl
  | cons line rest ih =>
    intro arr big h
    cases hfind : findLineIdx arr line 0 with
    | some k =>
      have h2 : (encodeLinesGo rest arr).1 <+: big := by
        have hrw : (encodeLinesGo (line :: rest) arr).1 = (encodeLinesGo rest arr).1 := by
          rw [encodeLinesGo]
          simp only [hfind]
        rw [hrw] at h
        exact h
      have hcodes : (encodeLinesGo (line :: rest) arr).2
          = k :: (encodeLinesGo rest arr).2 := by
        rw [encodeLinesGo]
        simp only [hfind]
      rw [hcodes, List.map_cons]
      obtain ⟨h1, hlt, hget⟩ := findLineIdx_spec line arr 0 k hfind
      rw [Nat.sub_zero] at hlt hget
      have harr : arr <+: big :=
        List.IsPrefix.trans (encodeLinesGo_extends rest arr) h2
      rw [prefix_getD harr hlt, hget, ih arr big h2]
    | none =>
      have h2 : (encodeLinesGo rest (arr ++ [line])).1 <+: big := by
        have hrw : (encodeLinesGo (line :: rest) arr).1
            = (encodeLinesGo rest (arr ++ [line])).1 := by
          rw [encodeLinesGo]
          simp only [hfind]
        rw [hrw] at h
        exact h
      have hcodes : (encodeLinesGo (line :: rest) arr).2
          = arr.length :: (encodeLinesGo rest (arr ++ [line])).2 := by
        rw [encodeLinesGo]
        simp only [hfind]
      rw [hcodes, List.map_cons]
      have hext : (arr ++ [line]) <+: big :=
        List.IsPrefix.trans (encodeLinesGo_extends rest (arr ++ [line])) h2
      have hk : arr.length < (arr ++ [line]).length := by
        simp
      rw [prefix_getD hext hk]
      have hgetline : (arr ++ [line]).getD arr.length [] = line := by
        rw [List.getD_eq_getElem _ _ hk]
        simp
      rw [hgetline, ih (arr ++ [line]) big h2]

theorem linesToChars_decode (t1 t2 : Str) :
    decodeStr (linesToChars t1 t2).2.2 (linesToChars t1 t2).1 = t1 ∧
    decodeStr (linesToChars t1 t2).2.2 (linesToChars t1 t2).2.1 = t2 := by
  constructor
  · show decodeStr (encodeLinesGo (splitLines t2) (encodeLinesGo (splitLines t1) [[]]).1).1
        (encodeLinesGo (splitLines t1) [[]]).2 = t1
    unfold decodeStr
    rw [encodeLinesGo_decode (splitLines t1) [[]] _
      (encodeLinesGo_extends (splitLines t2) _)]
    exact splitLines_flatten t1
  · show decodeStr (encodeLinesGo (splitLines t2) (encodeLinesGo (splitLines t1) [[]]).1).1
        (encodeLinesGo (splitLines t2) (encodeLinesGo (splitLines t1) [[]]).1).2 = t2
    unfold decodeStr
    rw [encodeLinesGo_decode (splitLines t2) _ _ (List.prefix_refl _)]
    exact splitLines_flatten t2

theorem foldr_text_pres (f : Diff → List Diff → List Diff)
    (hf1 : ∀ d acc, text1 (f d acc) = text1 (d :: acc))
    (hf2 : ∀ d acc, text2 (f d acc) = text2 (d :: acc)) :
    ∀ l : List Diff, text1 (l.foldr f []) = text1 l ∧ text2 (l.foldr f []) = text2 l := by
  intro l
  induction l with
  | nil => exact ⟨rfl, rfl⟩
  | cons d r ih =>
    rw [List.foldr_cons]
    constructor
    · rw [hf1, text1_cons, text1_cons, ih.1]
    · rw [hf2, text2_cons, text2_cons, ih.2]

/-! ## Reconstruction of both texts through `_diff` -/

theorem split3_text0 (x : Str) (p K : Nat) :
    (x.take p ++ (x.drop p).take K) ++ (x.drop p).drop K = x := by
  rw [List.append_assoc, List.take_append_drop, List.take_append_drop]

theorem wrap_recon (t1 t2 : Str) (pl sl : Nat) (mid : List Diff)
    (hpl : pl = commonPrefixLength t1 t2)
    (hsl : sl = commonSuffixLength (t1.drop pl) (t2.drop pl))
    (hm1 : text1 mid = (t1.drop pl).take ((t1.drop pl).length - sl))
    (hm2 : text2 mid = (t2.drop pl).take ((t2.drop pl).length - sl)) :
    text1 (cleanupMerge ((if t1.take pl = [] then [] else [(DiffType.EQUAL, t1.take pl)])
        ++ mid ++
        (if (t1.drop pl).drop ((t1.drop pl).length - sl) = [] then []
          else [(DiffType.EQUAL, (t1.drop pl).drop ((t1.drop pl).length - sl))]))) = t1 ∧
    text2 (cleanupMerge ((if t1.take pl = [] then [] else [(DiffType.EQUAL, t1.take pl)])
        ++ mid ++
        (if (t1.drop pl).drop ((t1.drop pl).length - sl) = [] then []
          else [(DiffType.EQUAL, (t1.drop pl).drop ((t1.drop pl).length - sl))]))) = t2 := by
  have hpre : t1.take pl = t2.take pl := by
    rw [hpl]
    exact commonPrefixLength_take t1 t2
  have hsuf : (t1.drop pl).drop ((t1.drop pl).length - sl)
      = (t2.drop pl).drop ((t2.drop pl).length - sl) := by
    rw [hsl]
    exact commonSuffixLength_drop (t1.drop pl) (t2.drop pl)
  constructor
  · rw [cleanupMerge_text1, text1_append, text1_append, text1_optEq, text1_optEq, hm1]
    exact split3_text0 t1 pl _
  · rw [cleanupMerge_text2, text2_append, text2_append, text2_optEq, text2_optEq, hm2,
      hpre, hsuf]
    exact split3_text0 t2 pl _

/-- Every `_diff` result reconstructs both input texts. -/
theorem _diff_recon (fuel : Nat) : ∀ (t1 t2 : Str) (cl : Bool),
    text1 (_diff fuel t1 t2 cl) = t1 ∧ text2 (_diff fuel t1 t2 cl) = t2 := by
  induction fuel with
  | zero =>
    intro t1 t2 cl
    constructor
    · rw [show _diff 0 t1 t2 cl
          = cleanupMerge [(DiffType.DELETE, t1), (DiffType.INSERT, t2)] from rfl]
      rw [cleanupMerge_text1, text1_cons_del, text1_cons_ins]
      exact List.append_nil t1
    · rw [show _diff 0 t1 t2 cl
          = cleanupMerge [(DiffType.DELETE, t1), (DiffType.INSERT, t2)] from rfl]
      rw [cleanupMerge_text2, text2_cons_del, text2_cons_ins]
      exact List.append_nil t2
  | succ fuel ih =>
    intro t1 t2 cl
    rw [_diff]
    split
    · rename_i h12
      split
      · rename_i hnil
        subst h12
        subst hnil
        exact ⟨rfl, rfl⟩
      · subst h12
        constructor
        · rw [text1_cons_eq]
          exact List.append_nil t1
        · rw [text2_cons_eq]
          exact List.append_nil t1
    · refine wrap_recon t1 t2 _ _ _ rfl rfl ?_ ?_
      · split
        · rename_i h1b
          exact h1b.symm
        · split
          · exact List.append_nil _
          · by_cases horder : ((t2.drop (commonPrefixLength t1 t2)).take
                        ((t2.drop (commonPrefixLength t1 t2)).length
                          - commonSuffixLength (t1.drop (commonPrefixLength t1 t2))
                            (t2.drop (commonPrefixLength t1 t2)))).length < ((t1.drop (commonPrefixLength t1 t2)).take
                        ((t1.drop (commonPrefixLength t1 t2)).length
                          - commonSuffixLength (t1.drop (commonPrefixLength t1 t2))
                            (t2.drop (commonPrefixLength t1 t2)))).length
            · simp only [if_pos horder]
              split
              · rename_i idx hidx
                rw [text1_cons_del, text1_cons_eq, text1_cons_del, text1_nil, List.append_nil]
                conv_rhs => rw [indexOfSub_decomp _ _ _ hidx]
                simp [List.append_assoc]
              · split
                · rw [text1_cons_del, text1_cons_ins]
                  exact List.append_nil _
                · split
                  · rename_i p1h s1h p2h s2h midch hhm
                    have hd := halfMatch_decomp _ _ p1h s1h p2h s2h midch hhm
                    rw [text1_append, text1_append, (ih p1h p2h cl).1, text1_cons_eq,
                      text1_nil, List.append_nil, (ih s1h s2h cl).1]
                    exact hd.1.symm
                  · split
                    · refine Eq.trans ((foldr_text_pres _ ?_ ?_ _).1) ?_
                      · intro d acc
                        obtain ⟨k, t⟩ := d
                        cases k with
                        | DELETE =>
                          cases acc with
                          | nil => rfl
                          | cons e2 r2 =>
                            obtain ⟨k2, t2⟩ := e2
                            cases k2 with
                            | INSERT =>
                              show text1 (if lineModeRediffThreshold < t.length + t2.length
                                  then _diff fuel t t2 false ++ r2
                                  else (DiffType.DELETE, t) :: (DiffType.INSERT, t2) :: r2)
                                = text1 ((DiffType.DELETE, t) :: (DiffType.INSERT, t2) :: r2)
                              split
                              · rw [text1_append, (ih t t2 false).1, text1_cons_del, text1_cons_ins]
                              · rfl
                            | DELETE => rfl
                            | EQUAL => rfl
                        | INSERT =>
                          cases acc with
                          | nil => rfl
                          | cons e2 r2 =>
                            obtain ⟨k2, t2⟩ := e2
                            cases k2 <;> rfl
                        | EQUAL =>
                          cases acc with
                          | nil => rfl
                          | cons e2 r2 =>
                            obtain ⟨k2, t2⟩ := e2
                            cases k2 <;> rfl
                      · intro d acc
                        obtain ⟨k, t⟩ := d
                        cases k with
                        | DELETE =>
                          cases acc with
                          | nil => rfl
                          | cons e2 r2 =>
                            obtain ⟨k2, t2⟩ := e2
                            cases k2 with
                            | INSERT =>
                              show text2 (if lineModeRediffThreshold < t.length + t2.length
                                  then _diff fuel t t2 false ++ r2
                                  else (DiffType.DELETE, t) :: (DiffType.INSERT, t2) :: r2)
                                = text2 ((DiffType.DELETE, t) :: (DiffType.INSERT, t2) :: r2)
                              split
                              · rw [text2_append, (ih t t2 false).2, text2_cons_del, text2_cons_ins]
                              · rfl
                            | DELETE => rfl
                            | EQUAL => rfl
                        | INSERT =>
                          cases acc with
                          | nil => rfl
                          | cons e2 r2 =>
                            obtain ⟨k2, t2⟩ := e2
                            cases k2 <;> rfl
                        | EQUAL =>
                          cases acc with
                          | nil => rfl
                          | cons e2 r2 =>
                            obtain ⟨k2, t2⟩ := e2
                            cases k2 <;> rfl
                      · rw [text1_charsToLines, (ih _ _ false).1]
                        exact (linesToChars_decode _ _).1
                    · split
                      · rename_i x y hbs
                        rw [text1_append, (ih _ _ false).1, (ih _ _ false).1]
                        exact List.take_append_drop x _
                      · rw [text1_cons_del, text1_cons_ins]
                        exact List.append_nil _
            · simp only [if_neg horder]
              split
              · rename_i idx hidx
                rw [text1_cons_ins, text1_cons_eq, text1_cons_ins]
                exact List.append_nil _
              · split
                · rw [text1_cons_del, text1_cons_ins]
                  exact List.append_nil _
                · split
                  · rename_i p1h s1h p2h s2h midch hhm
                    have hd := halfMatch_decomp _ _ p1h s1h p2h s2h midch hhm
                    rw [text1_append, text1_append, (ih p1h p2h cl).1, text1_cons_eq,
                      text1_nil, List.append_nil, (ih s1h s2h cl).1]
                    exact hd.1.symm
                  · split
                    · refine Eq.trans ((foldr_text_pres _ ?_ ?_ _).1) ?_
                      · intro d acc
                        obtain ⟨k, t⟩ := d
                        cases k with
                        | DELETE =>
                          cases acc with
                          | nil => rfl
                          | cons e2 r2 =>
                            obtain ⟨k2, t2⟩ := e2
                            cases k2 with
                            | INSERT =>
                              show text1 (if lineModeRediffThreshold < t.length + t2.length
                                  then _diff fuel t t2 false ++ r2
                                  else (DiffType.DELETE, t) :: (DiffType.INSERT, t2) :: r2)
                                = text1 ((DiffType.DELETE, t) :: (DiffType.INSERT, t2) :: r2)
                              split
                              · rw [text1_append, (ih t t2 false).1, text1_cons_del, text1_cons_ins]
                              · rfl
                            | DELETE => rfl
                            | EQUAL => rfl
                        | INSERT =>
                          cases acc with
                          | nil => rfl
                          | cons e2 r2 =>
                            obtain ⟨k2, t2⟩ := e2
                            cases k2 <;> rfl
                        | EQUAL =>
                          cases acc with
                          | nil => rfl
                          | cons e2 r2 =>
                            obtain ⟨k2, t2⟩ := e2
                            cases k2 <;> rfl
                      · intro d acc
                        obtain ⟨k, t⟩ := d
                        cases k with
                        | DELETE =>
                          cases acc with
                          | nil => rfl
                          | cons e2 r2 =>
                            obtain ⟨k2, t2⟩ := e2
                            cases k2 with
                            | INSERT =>
                              show text2 (if lineModeRediffThreshold < t.length + t2.length
                                  then _diff fuel t t2 false ++ r2
                                  else (DiffType.DELETE, t) :: (DiffType.INSERT, t2) :: r2)
                                = text2 ((DiffType.DELETE, t) :: (DiffType.INSERT, t2) :: r2)
                              split
                              · rw [text2_append, (ih t t2 false).2, text2_cons_del, text2_cons_ins]
                              · rfl
                            | DELETE => rfl
                            | EQUAL => rfl
                        | INSERT =>
                          cases acc with
                          | nil => rfl
                          | cons e2 r2 =>
                            obtain ⟨k2, t2⟩ := e2
                            cases k2 <;> rfl
                        | EQUAL =>
                          cases acc with
                          | nil => rfl
                          | cons e2 r2 =>
                            obtain ⟨k2, t2⟩ := e2
                            cases k2 <;> rfl
                      · rw [text1_charsToLines, (ih _ _ false).1]
                        exact (linesToChars_decode _ _).1
                    · split
                      · rename_i x y hbs
                        rw [text1_append, (ih _ _ false).1, (ih _ _ false).1]
                        exact List.take_append_drop x _
                      · rw [text1_cons_del, text1_cons_ins]
                        exact List.append_nil _
      · split
        · rename_i h1b
          exact List.append_nil _
        · split
          · rename_i h2b
            exact h2b.symm
          · by_cases horder : ((t2.drop (commonPrefixLength t1 t2)).take
                        ((t2.drop (commonPrefixLength t1 t2)).length
                          - commonSuffixLength (t1.drop (commonPrefixLength t1 t2))
                            (t2.drop (commonPrefixLength t1 t2)))).length < ((t1.drop (commonPrefixLength t1 t2)).take
                        ((t1.drop (commonPrefixLength t1 t2)).length
                          - commonSuffixLength (t1.drop (commonPrefixLength t1 t2))
                            (t2.drop (commonPrefixLength t1 t2)))).length
            · simp only [if_pos horder]
              split
              · rename_i idx hidx
                rw [text2_cons_del, text2_cons_eq, text2_cons_del]
                exact List.append_nil _
              · split
                · rw [text2_cons_del, text2_cons_ins]
                  exact List.append_nil _
                · split
                  · rename_i p1h s1h p2h s2h midch hhm
                    have hd := halfMatch_decomp _ _ p1h s1h p2h s2h midch hhm
                    rw [text2_append, text2_append, (ih p1h p2h cl).2, text2_cons_eq,
                      text2_nil, List.append_nil, (ih s1h s2h cl).2]
                    exact hd.2.symm
                  · split
                    · refine Eq.trans ((foldr_text_pres _ ?_ ?_ _).2) ?_
                      · intro d acc
                        obtain ⟨k, t⟩ := d
                        cases k with
                        | DELETE =>
                          cases acc with
                          | nil => rfl
                          | cons e2 r2 =>
                            obtain ⟨k2, t2⟩ := e2
                            cases k2 with
                            | INSERT =>
                              show text1 (if lineModeRediffThreshold < t.length + t2.length
                                  then _diff fuel t t2 false ++ r2
                                  else (DiffType.DELETE, t) :: (DiffType.INSERT, t2) :: r2)
                                = text1 ((DiffType.DELETE, t) :: (DiffType.INSERT, t2) :: r2)
                              split
                              · rw [text1_append, (ih t t2 false).1, text1_cons_del, text1_cons_ins]
                              · rfl
                            | DELETE => rfl
                            | EQUAL => rfl
                        | INSERT =>
                          cases acc with
                          | nil => rfl
                          | cons e2 r2 =>
                            obtain ⟨k2, t2⟩ := e2
                            cases k2 <;> rfl
                        | EQUAL =>
                          cases acc with
                          | nil => rfl
                          | cons e2 r2 =>
                            obtain ⟨k2, t2⟩ := e2
                            cases k2 <;> rfl
                      · intro d acc
                        obtain ⟨k, t⟩ := d
                        cases k with
                        | DELETE =>
                          cases acc with
                          | nil => rfl
                          | cons e2 r2 =>
                            obtain ⟨k2, t2⟩ := e2
                            cases k2 with
                            | INSERT =>
                              show text2 (if lineModeRediffThreshold < t.length + t2.length
                                  then _diff fuel t t2 false ++ r2
                                  else (DiffType.DELETE, t) :: (DiffType.INSERT, t2) :: r2)
                                = text2 ((DiffType.DELETE, t) :: (DiffType.INSERT, t2) :: r2)
                              split
                              · rw [text2_append, (ih t t2 false).2, text2_cons_del, text2_cons_ins]
                              · rfl
                            | DELETE => rfl
                            | EQUAL => rfl
                        | INSERT =>
                          cases acc with
                          | nil => rfl
                          | cons e2 r2 =>
                            obtain ⟨k2, t2⟩ := e2
                            cases k2 <;> rfl
                        | EQUAL =>
                          cases acc with
                          | nil => rfl
                          | cons e2 r2 =>
                            obtain ⟨k2, t2⟩ := e2
                            cases k2 <;> rfl
                      · rw [text2_charsToLines, (ih _ _ false).2]
                        exact (linesToChars_decode _ _).2
                    · split
                      · rename_i x y hbs
                        rw [text2_append, (ih _ _ false).2, (ih _ _ false).2]
                        exact List.take_append_drop y _
                      · rw [text2_cons_del, text2_cons_ins]
                        exact List.append_nil _
            · simp only [if_neg horder]
              split
              · rename_i idx hidx
                rw [text2_cons_ins, text2_cons_eq, text2_cons_ins, text2_nil, List.append_nil]
                conv_rhs => rw [indexOfSub_decomp _ _ _ hidx]
                simp [List.append_assoc]
              · split
                · rw [text2_cons_del, text2_cons_ins]
                  exact List.append_nil _
                · split
                  · rename_i p1h s1h p2h s2h midch hhm
                    have hd := halfMatch_decomp _ _ p1h s1h p2h s2h midch hhm
                    rw [text2_append, text2_append, (ih p1h p2h cl).2, text2_cons_eq,
                      text2_nil, List.append_nil, (ih s1h s2h cl).2]
                    exact hd.2.symm
                  · split
                    · refine Eq.trans ((foldr_text_pres _ ?_ ?_ _).2) ?_
                      · intro d acc
                        obtain ⟨k, t⟩ := d
                        cases k with
                        | DELETE =>
                          cases acc with
                          | nil => rfl
                          | cons e2 r2 =>
                            obtain ⟨k2, t2⟩ := e2
                            cases k2 with
                            | INSERT =>
                              show text1 (if lineModeRediffThreshold < t.length + t2.length
                                  then _diff fuel t t2 false ++ r2
                                  else (DiffType.DELETE, t) :: (DiffType.INSERT, t2) :: r2)
                                = text1 ((DiffType.DELETE, t) :: (DiffType.INSERT, t2) :: r2)
                              split
                              · rw [text1_append, (ih t t2 false).1, text1_cons_del, text1_cons_ins]
                              · rfl
                            | DELETE => rfl
                            | EQUAL => rfl
                        | INSERT =>
                          cases acc with
                          | nil => rfl
                          | cons e2 r2 =>
                            obtain ⟨k2, t2⟩ := e2
                            cases k2 <;> rfl
                        | EQUAL =>
                          cases acc with
                          | nil => rfl
                          | cons e2 r2 =>
                            obtain ⟨k2, t2⟩ := e2
                            cases k2 <;> rfl
                      · intro d acc
                        obtain ⟨k, t⟩ := d
                        cases k with
                        | DELETE =>
                          cases acc with
                          | nil => rfl
                          | cons e2 r2 =>
                            obtain ⟨k2, t2⟩ := e2
                            cases k2 with
                            | INSERT =>
                              show text2 (if lineModeRediffThreshold < t.length + t2.length
                                  then _diff fuel t t2 false ++ r2
                                  else (DiffType.DELETE, t) :: (DiffType.INSERT, t2) :: r2)
                                = text2 ((DiffType.DELETE, t) :: (DiffType.INSERT, t2) :: r2)
                              split
                              · rw [text2_append, (ih t t2 false).2, text2_cons_del, text2_cons_ins]
                              · rfl
                            | DELETE => rfl
                            | EQUAL => rfl
                        | INSERT =>
                          cases acc with
                          | nil => rfl
                          | cons e2 r2 =>
                            obtain ⟨k2, t2⟩ := e2
                            cases k2 <;> rfl
                        | EQUAL =>
                          cases acc with
                          | nil => rfl
                          | cons e2 r2 =>
                            obtain ⟨k2, t2⟩ := e2
                            cases k2 <;> rfl
                      · rw [text2_charsToLines, (ih _ _ false).2]
                        exact (linesToChars_decode _ _).2
                    · split
                      · rename_i x y hbs
                        rw [text2_append, (ih _ _ false).2, (ih _ _ false).2]
                        exact List.take_append_drop y _
                      · rw [text2_cons_del, text2_cons_ins]
                        exact List.append_nil _

/-- Every `_diff` result is in grouped normal form and has no empty
entries. -/
theorem _diff_struct (fuel : Nat) (t1 t2 : Str) (cl : Bool) :
    structFrom 0 (_diff fuel t1 t2 cl) = true ∧ noEmptyEntries (_diff fuel t1 t2 cl) := by
  match fuel with
  | 0 => exact ⟨cleanupMerge_struct _, (cleanupMerge_inv _).1⟩
  | fuel + 1 =>
    rw [_diff]
    split
    · split
      · refine ⟨rfl, ?_⟩
        intro x hx
        cases hx
      · rename_i ht
        refine ⟨rfl, ?_⟩
        intro x hx
        rcases List.mem_cons.mp hx with hx | hx
        · subst hx
          exact ht
        · cases hx
    · exact ⟨cleanupMerge_struct _, (cleanupMerge_inv _).1⟩

/-- C2 (amended): on well-formed input texts (no unpaired surrogates), no
boundary of any entry of the script returned by `diff` splits a surrogate
pair: no entry text starts with an unmatched low surrogate or ends with an
unmatched high surrogate. -/
theorem diff_no_boundary_split (t1 t2 : Str) (opts : DiffOptions) (s : List Diff)
    (h1 : wellFormed t1 = true) (h2 : wellFormed t2 = true)
    (h : diff (some t1) (some t2) opts = .ok s) :
    ∀ e ∈ s, entryBoundaryClean e.2 = true := by
  have h' : (Except.ok (adjustDiffForSurrogatePairs
      (_diff (diffFuel t1 t2) t1 t2 (createInternalOpts 0 opts).checkLines)) :
      Except String (List Diff)) = Except.ok s := h
  injection h' with h'
  subst h'
  obtain ⟨hstruct, hnoempty⟩ :=
    _diff_struct (diffFuel t1 t2) t1 t2 (createInternalOpts 0 opts).checkLines
  obtain ⟨hrec1, hrec2⟩ :=
    _diff_recon (diffFuel t1 t2) t1 t2 (createInternalOpts 0 opts).checkLines
  have hw1 : runWf false (text1 (_diff (diffFuel t1 t2) t1 t2
      (createInternalOpts 0 opts).checkLines)) = some false := by
    rw [hrec1]
    exact eq_of_beq h1
  have hw2 : runWf false (text2 (_diff (diffFuel t1 t2) t1 t2
      (createInternalOpts 0 opts).checkLines)) = some false := by
    rw [hrec2]
    exact eq_of_beq h2
  obtain ⟨sd2, si2, hrunC⟩ :=
    runC_of_struct _ 0 false false false false false false hstruct hnoempty hw1 hw2
      (fun _ => ⟨rfl, rfl⟩) (fun hc => absurd hc (by decide))
  exact adjust_all_clean _ ⟨false, false, sd2, si2⟩ hrunC rfl rfl

/-- Witness for the amended surrogate-boundary theorem at a concrete
well-formed input pair. -/
theorem diff_no_boundary_split_witness :
    entryBoundaryClean [0xD83D, 0xDE00] = true :=
  diff_no_boundary_split [97, 0xD83D, 0xDE00] [97, 98] {}
    [(DiffType.EQUAL, [97]), (DiffType.DELETE, [0xD83D, 0xDE00]),
      (DiffType.INSERT, [98])]
    (by decide) (by decide) (by decide)
    (DiffType.DELETE, [0xD83D, 0xDE00]) (by decide)

end DMP
